import Mathlib

/-!
Verification development for the citation-extraction repository.

The Python modules `paragraph_splitter.py`, `date_extraction.py`,
`llm_client.py` and `citation_corrections.py` are shallowly embedded below:
strings become `List Char` / `String`, the regular expressions of the source
are embedded as data (`RE`) interpreted by a backtracking matcher with
Python `re` semantics (ordered alternation, greedy and lazy quantifiers,
word boundaries, capture groups), and every Python function of interest is
translated into a total Lean function of the same name.
-/

namespace CitEx

/-! ## Python string primitives (ASCII model of `str.strip`, `\s`, `\w`, lowercasing) -/

/-- Python `\s` / `str.strip()` whitespace (ASCII part). -/
def pyIsSpace (c : Char) : Bool :=
  c = ' ' || c = '\t' || c = '\n' || c = '\r' || c = '\x0b' || c = '\x0c'

/-- Python `\w` word character (ASCII letters, digits, underscore, plus the
Latin-1 letters that appear in the French/German month names). -/
def pyIsWordChar (c : Char) : Bool :=
  c.isAlphanum || c = '_' ||
    (0xC0 ≤ c.toNat && c.toNat ≤ 0xFF && c.toNat ≠ 0xD7 && c.toNat ≠ 0xF7)

/-- Python `str.lower` on one character (ASCII plus the Latin-1 uppercase block). -/
def pyLower (c : Char) : Char :=
  if 'A' ≤ c ∧ c ≤ 'Z' then Char.ofNat (c.toNat + 32)
  else if 0xC0 ≤ c.toNat ∧ c.toNat ≤ 0xDE ∧ c.toNat ≠ 0xD7 then Char.ofNat (c.toNat + 32)
  else c

def pyLowerL (l : List Char) : List Char := l.map pyLower

/-- Python `str.strip()` on a character list. -/
def pyStripL (l : List Char) : List Char :=
  ((l.dropWhile pyIsSpace).reverse.dropWhile pyIsSpace).reverse

/-- Python `str.strip()`. -/
def pyStrip (s : String) : String := ⟨pyStripL s.data⟩

/-- Python slice `l[a:b]` (for `0 ≤ a ≤ b`). -/
def sliceL (l : List Char) (a b : Nat) : List Char := (l.drop a).take (b - a)

/-- Python `int()` on a digit string. -/
def toNatL (l : List Char) : Nat := l.foldl (fun a c => a * 10 + (c.toNat - 48)) 0

/-- Decimal digits of `n` (auxiliary, fuel-driven). -/
def natDigsAux : Nat → Nat → List Char
  | 0, _ => []
  | fuel + 1, n =>
      if n < 10 then [Char.ofNat (48 + n)]
      else natDigsAux fuel (n / 10) ++ [Char.ofNat (48 + n % 10)]

/-- Decimal digit characters of `n`. -/
def natDigs (n : Nat) : List Char := natDigsAux (n + 1) n

/-- Python `f'{n:0wd}'`: decimal representation left-padded with zeros to width `w`. -/
def pyPad (w n : Nat) : List Char :=
  let ds := natDigs n
  List.replicate (w - ds.length) '0' ++ ds

/-! ## A small regex engine with Python `re` semantics

Patterns are data; `matRE` is a CPS backtracking matcher.  It is structurally
recursive (so that it evaluates inside the kernel): the input is consumed as a
list, with the absolute position and the previous character carried along for
capture spans and `\b`. -/

/-- Capture list: `(group index, start, end)`, most recent first. -/
abbrev Caps := List (Nat × Nat × Nat)

/-- Result of a match: end position and captures. -/
abbrev MRes := Nat × Caps

/-- Matcher continuations: position, remaining input, previous char, captures. -/
abbrev MCont := Nat → List Char → Option Char → Caps → Option MRes

/-- Regular expressions: character classes, ordered alternation, greedy/lazy
counted repetition, capture groups, word boundary and anchors. -/
inductive RE where
  | eps : RE
  | cls (p : Char → Bool) : RE
  | seq (a b : RE) : RE
  | alt (a b : RE) : RE
  | rep (lo : Nat) (hi : Option Nat) (lzy : Bool) (a : RE) : RE
  | grp (n : Nat) (a : RE) : RE
  | wordB : RE
  | bos : RE
  | eos : RE

/-- `\b`: true iff exactly one of (previous char, next char) is a word char. -/
def atBoundary (prev : Option Char) (rest : List Char) : Bool :=
  let b := match prev with | some c => pyIsWordChar c | none => false
  let a := match rest with | c :: _ => pyIsWordChar c | _ => false
  b != a

/-- Optional (`{0,cnt}`) iteration of an already-interpreted body `ma`;
greedy or lazy.  An iteration must consume at least one character
(Python stops repeating on a zero-width repeat match). -/
def repOptIter (ma : Nat → List Char → Option Char → Caps → MCont → Option MRes) :
    Nat → Bool → Nat → List Char → Option Char → Caps → MCont → Option MRes
  | 0, _, pos, rest, prev, caps, k => k pos rest prev caps
  | cnt + 1, lzy, pos, rest, prev, caps, k =>
      if lzy then
        match k pos rest prev caps with
        | some r => some r
        | none =>
            ma pos rest prev caps (fun p rs pv cs =>
              if pos < p then repOptIter ma cnt lzy p rs pv cs k else none)
      else
        match ma pos rest prev caps (fun p rs pv cs =>
              if pos < p then repOptIter ma cnt lzy p rs pv cs k else none) with
        | some r => some r
        | none => k pos rest prev caps

/-- Mandatory part of `{lo,hi}`: `lo` forced iterations, then the optional
iterations (up to `hi - lo`, or bounded by the remaining input for `*`/`+`). -/
def repLoIter (ma : Nat → List Char → Option Char → Caps → MCont → Option MRes) :
    Nat → Option Nat → Bool → Nat → List Char → Option Char → Caps → MCont → Option MRes
  | 0, hi, lzy, pos, rest, prev, caps, k =>
      let cnt := match hi with
        | some h => h
        | none => rest.length
      repOptIter ma cnt lzy pos rest prev caps k
  | lo + 1, hi, lzy, pos, rest, prev, caps, k =>
      ma pos rest prev caps (fun p rs pv cs =>
        repLoIter ma lo (hi.map (· - 1)) lzy p rs pv cs k)

/-- The backtracking matcher.  `slen` is the total subject length (for `$`).
Alternation is ordered (first branch preferred), as in Python `re`. -/
def matRE (slen : Nat) : RE → Nat → List Char → Option Char → Caps → MCont → Option MRes
  | .eps, pos, rest, prev, caps, k => k pos rest prev caps
  | .cls p, pos, rest, prev, caps, k =>
      match rest with
      | c :: rs => if p c then k (pos + 1) rs (some c) caps else none
      | [] => none
  | .seq a b, pos, rest, prev, caps, k =>
      matRE slen a pos rest prev caps (fun p rs pv cs => matRE slen b p rs pv cs k)
  | .alt a b, pos, rest, prev, caps, k =>
      match matRE slen a pos rest prev caps k with
      | some r => some r
      | none => matRE slen b pos rest prev caps k
  | .rep lo hi lzy a, pos, rest, prev, caps, k =>
      repLoIter (fun p rs pv cs k' => matRE slen a p rs pv cs k') lo hi lzy pos rest prev caps k
  | .grp n a, pos, rest, prev, caps, k =>
      matRE slen a pos rest prev caps (fun p rs pv cs => k p rs pv ((n, pos, p) :: cs))
  | .wordB, pos, rest, prev, caps, k =>
      if atBoundary prev rest then k pos rest prev caps else none
  | .bos, pos, rest, prev, caps, k => if pos = 0 then k pos rest prev caps else none
  | .eos, pos, rest, prev, caps, k => if pos = slen then k pos rest prev caps else none

/-- Try to match `re` at the position given by `(pos, rest, prev)` inside a
subject of length `slen`; returns the end position and the captures. -/
def matchHere (re : RE) (slen pos : Nat) (rest : List Char) (prev : Option Char) :
    Option MRes :=
  matRE slen re pos rest prev [] (fun p _ _ cs => some (p, cs))

/-- `re.search` auxiliary scan: try each start position left to right. -/
def searchAux (re : RE) (slen : Nat) : Nat → Nat → List Char → Option Char →
    Option (Nat × Nat × Caps)
  | 0, _, _, _ => none
  | fuel + 1, pos, rest, prev =>
      match matchHere re slen pos rest prev with
      | some (e, cs) => some (pos, e, cs)
      | none =>
          match rest with
          | c :: rs => searchAux re slen fuel (pos + 1) rs (some c)
          | [] => none

/-- Python `pattern.search(s)`: leftmost match as `(start, end, captures)`. -/
def reSearch (re : RE) (l : List Char) : Option (Nat × Nat × Caps) :=
  searchAux re l.length (l.length + 1) 0 l none

/-- `re.finditer` auxiliary scan: non-overlapping matches, resuming at each
match end (or one past a zero-width match). -/
def findAux (re : RE) (slen : Nat) : Nat → Nat → List Char → Option Char →
    List (Nat × Nat × Caps)
  | 0, _, _, _ => []
  | fuel + 1, pos, rest, prev =>
      match matchHere re slen pos rest prev with
      | some (e, cs) =>
          if pos < e then
            (pos, e, cs) :: findAux re slen fuel e (rest.drop (e - pos))
              (if e - pos ≤ rest.length then (rest.take (e - pos)).getLast? else none)
          else
            (pos, e, cs) ::
              (match rest with
               | c :: rs => findAux re slen fuel (pos + 1) rs (some c)
               | [] => [])
      | none =>
          match rest with
          | c :: rs => findAux re slen fuel (pos + 1) rs (some c)
          | [] => []

/-- Python `pattern.finditer(s)` as a list of `(start, end, captures)`. -/
def reFindIter (re : RE) (l : List Char) : List (Nat × Nat × Caps) :=
  findAux re l.length (l.length + 2) 0 l none

/-- Span of capture group `n` (most recent capture, as in Python). -/
def groupSpan (cs : Caps) (n : Nat) : Option (Nat × Nat) :=
  match cs.find? (fun e => e.1 = n) with
  | some (_, a, b) => some (a, b)
  | none => none

/-- Python `pattern.sub` driven by a replacement function of the whole
subject, the match span and the captures. -/
def reSubAux (l : List Char) (repl : List Char → Nat → Nat → Caps → List Char) :
    List (Nat × Nat × Caps) → Nat → List Char
  | [], last => l.drop last
  | (st, en, cs) :: rest, last =>
      sliceL l last st ++ repl l st en cs ++ reSubAux l repl rest en

/-- Python `pattern.sub(repl, s)`. -/
def reSub (re : RE) (repl : List Char → Nat → Nat → Caps → List Char)
    (l : List Char) : List Char :=
  reSubAux l repl (reFindIter re l) 0

/-! ### Pattern-building helpers -/

/-- Case-insensitive literal character (`c` given in lowercase). -/
def lc (c : Char) : RE := .cls (fun x => pyLower x = c)

/-- Literal (case-sensitive) character. -/
def lit (c : Char) : RE := .cls (fun x => x = c)

def reSeqList : List RE → RE
  | [] => .eps
  | [r] => r
  | r :: rs => .seq r (reSeqList rs)

def reAltList : List RE → RE
  | [] => .cls (fun _ => false)
  | [r] => r
  | r :: rs => .alt r (reAltList rs)

/-- Case-insensitive literal string (given in lowercase). -/
def strCI (s : String) : RE := reSeqList (s.data.map lc)

/-- Case-sensitive literal string. -/
def strCS (s : String) : RE := reSeqList (s.data.map lit)

def reOpt (r : RE) : RE := .rep 0 (some 1) false r
def reStar (r : RE) : RE := .rep 0 none false r
def rePlus (r : RE) : RE := .rep 1 none false r
def reCnt (lo hi : Nat) (r : RE) : RE := .rep lo (some hi) false r
def reCntMin (lo : Nat) (r : RE) : RE := .rep lo none false r
def reLazyCnt (lo hi : Nat) (r : RE) : RE := .rep lo (some hi) true r

def dC : RE := .cls Char.isDigit
def wsC : RE := .cls pyIsSpace
/-- `[A-Z]` under `re.IGNORECASE`: any ASCII letter. -/
def alphaCI : RE := .cls Char.isAlpha
/-- `[A-Z0-9]` under `re.IGNORECASE`. -/
def alnumCI : RE := .cls (fun c => c.isAlpha || c.isDigit)

end CitEx

namespace CitEx

/-! ## `paragraph_splitter.py` — the patent-identifier grammar

`PATENT_ID_REGEX` of the source, alternative by alternative, in source
order, compiled with `re.IGNORECASE | re.VERBOSE`. -/

/-- `(\s?[A-Z]\d?)?` — the optional kind-code tail shared by several branches. -/
def kindTail : RE := reOpt (reSeqList [reOpt wsC, alphaCI, reOpt dC])

/-- `WO\s?\d{2,4}\s?\/?\s?\d+\s?\d*\s?[A-Z0-9]{1,2}?` -/
def woBranch : RE := reSeqList
  [strCI "wo", reOpt wsC, reCnt 2 4 dC, reOpt wsC, reOpt (lit '/'), reOpt wsC,
   rePlus dC, reOpt wsC, reStar dC, reOpt wsC, reLazyCnt 1 2 alnumCI]

/-- `PCT\/[A-Z]{2}\d{2,4}\/\d{3,7}` -/
def pctBranch : RE := reSeqList
  [strCI "pct", lit '/', reCnt 2 2 alphaCI, reCnt 2 4 dC, lit '/', reCnt 3 7 dC]

/-- `EP\s?\d+[\s-]?\d+[\s-]?\d+[A-Z0-9]{1,2}?` -/
def epBranch : RE :=
  let wsDash : RE := .cls (fun c => pyIsSpace c || c = '-')
  reSeqList [strCI "ep", reOpt wsC, rePlus dC, reOpt wsDash, rePlus dC,
             reOpt wsDash, rePlus dC, reLazyCnt 1 2 alnumCI]

/-- `U\.?S\.?\s?\d{2}\/\d+(\s?[A-Z])?` -/
def usOldBranch : RE := reSeqList
  [lc 'u', reOpt (lit '.'), lc 's', reOpt (lit '.'), reOpt wsC,
   reCnt 2 2 dC, lit '/', rePlus dC, reOpt (reSeqList [reOpt wsC, alphaCI])]

/-- `U\.?S\.?\s?[0-9,]{7,}(\s?[A-Z]\d?)?` -/
def usCommaBranch : RE := reSeqList
  [lc 'u', reOpt (lit '.'), lc 's', reOpt (lit '.'), reOpt wsC,
   reCntMin 7 (.cls (fun c => c.isDigit || c = ',')), kindTail]

/-- `U\.?S\.?[\s-]?[A-Z]{0,2}\s?\d{4}\s?[-\/]?\s?[\d\s]+(\s?[A-Z]\d?)?` -/
def usNewBranch : RE :=
  let wsDash : RE := .cls (fun c => pyIsSpace c || c = '-')
  reSeqList
    [lc 'u', reOpt (lit '.'), lc 's', reOpt (lit '.'), reOpt wsDash,
     reCnt 0 2 alphaCI, reOpt wsC, reCnt 4 4 dC, reOpt wsC,
     reOpt (.cls (fun c => c = '-' || c = '/')), reOpt wsC,
     rePlus (.cls (fun c => c.isDigit || pyIsSpace c)), kindTail]

/-- `JP[\s-]?[A-B]{0,1}\s?\d{4}[-\/]?\d+(\s?[A-Z]\d?)?` -/
def jpNewBranch : RE :=
  let wsDash : RE := .cls (fun c => pyIsSpace c || c = '-')
  reSeqList
    [strCI "jp", reOpt wsDash, reCnt 0 1 (.cls (fun c => pyLower c = 'a' || pyLower c = 'b')),
     reOpt wsC, reCnt 4 4 dC, reOpt (.cls (fun c => c = '-' || c = '/')), rePlus dC, kindTail]

/-- `JP[\s-]?[A-B]{0,1}\s?[HS]\d{1,2}[-\/]?\d+(\s?[A-Z]\d?)?` -/
def jpOldBranch : RE :=
  let wsDash : RE := .cls (fun c => pyIsSpace c || c = '-')
  reSeqList
    [strCI "jp", reOpt wsDash, reCnt 0 1 (.cls (fun c => pyLower c = 'a' || pyLower c = 'b')),
     reOpt wsC, .cls (fun c => pyLower c = 'h' || pyLower c = 's'), reCnt 1 2 dC,
     reOpt (.cls (fun c => c = '-' || c = '/')), rePlus dC, kindTail]

/-- `CN\d{6,}(\s?[A-Z]\d?)?` -/
def cnBranch : RE := reSeqList [strCI "cn", reCntMin 6 dC, kindTail]

/-- `\bDE\s?\d{2}\s?\d{4}\s?\d{3}\s?\d{3}(?:\.\d)?(?:\s?[A-Z]\d?)?\b` -/
def deBranch1 : RE := reSeqList
  [.wordB, strCI "de", reOpt wsC, reCnt 2 2 dC, reOpt wsC, reCnt 4 4 dC,
   reOpt wsC, reCnt 3 3 dC, reOpt wsC, reCnt 3 3 dC,
   reOpt (reSeqList [lit '.', dC]), kindTail, .wordB]

/-- `\bDE\s?[\d\s]{7,}(?:\s?[A-Z]\d?)?\b` -/
def deBranch2 : RE := reSeqList
  [.wordB, strCI "de", reOpt wsC,
   reCntMin 7 (.cls (fun c => c.isDigit || pyIsSpace c)), kindTail, .wordB]

/-- `GB[\s-]?[A-Z]{0,1}\s?[0-9\-]{6,}(\s?[A-Z]\d?)?x` -/
def gbBranch : RE :=
  let wsDash : RE := .cls (fun c => pyIsSpace c || c = '-')
  reSeqList
    [strCI "gb", reOpt wsDash, reCnt 0 1 alphaCI, reOpt wsC,
     reCntMin 6 (.cls (fun c => c.isDigit || c = '-')), kindTail, lc 'x']

/-- `PATENT_ID_REGEX` (= `PATENT_FINDER_PATTERN`): the twelve alternatives in
source order. -/
def patentIdRE : RE := reAltList
  [woBranch, pctBranch, epBranch, usOldBranch, usCommaBranch, usNewBranch,
   jpNewBranch, jpOldBranch, cnBranch, deBranch1, deBranch2, gbBranch]

/-- `PATENT_SPLIT_PATTERN`: `([,;.\s])` + `(PATENT_ID_REGEX)`. -/
def patentSplitRE : RE :=
  .seq (.grp 1 (.cls (fun c => c = ',' || c = ';' || c = '.' || pyIsSpace c)))
       (.grp 2 patentIdRE)

/-- `PATENT_ONLY_START_PATTERN`: `^\s*(PATENT_ID_REGEX)`. -/
def patentOnlyStartRE : RE :=
  reSeqList [.bos, reStar wsC, .grp 1 patentIdRE]

/-- `substitute_patent_numbers`: replace separator-preceded patent numbers
keeping the separator (`\g<1>PATENT`), then a patent number at the very
start of the string, then `.strip()`. -/
def substitute_patent_numbers (text : String) : String :=
  let l := text.data
  let step1 := reSub patentSplitRE
    (fun s _ _ cs =>
      (match groupSpan cs 1 with
       | some (a, b) => sliceL s a b
       | none => []) ++ "PATENT".data) l
  let step2 := reSub patentOnlyStartRE (fun _ _ _ _ => "PATENT".data) step1
  ⟨pyStripL step2⟩

/-! ## `paragraph_splitter.py` — split rules

Each simple rule is a bespoke scanner that mirrors its Python regex exactly;
the generic chopper `gchop` mirrors the per-rule `finditer` loops: at a match
the current chunk keeps `keep` more characters, `drop` characters are
discarded, and scanning resumes `skip` characters into the next chunk
(Python resumes searching at `m.end()`). -/

structure ChopStep where
  keep : Nat
  drop : Nat
  skip : Nat
deriving DecidableEq, Repr

def gchopAux (step : List Char → Option ChopStep) :
    Nat → Nat → List Char → List Char → List (List Char)
  | 0, _, acc, l => [acc.reverse ++ l]
  | fuel + 1, skip + 1, acc, c :: l => gchopAux step fuel skip (c :: acc) l
  | _ + 1, _ + 1, acc, [] => [acc.reverse]
  | fuel + 1, 0, acc, l =>
      match step l with
      | some st =>
          (acc.reverse ++ l.take st.keep) ::
            gchopAux step fuel st.skip [] (l.drop (st.keep + st.drop))
      | none =>
          match l with
          | [] => [acc.reverse]
          | c :: l' => gchopAux step fuel 0 (c :: acc) l'

/-- Chop `l` into the raw segments produced by a rule's match loop; the last
segment is the remainder. -/
def gchop (step : List Char → Option ChopStep) (l : List Char) : List (List Char) :=
  gchopAux step (2 * l.length + 2) 0 [] l

/-- Shared tail of the loop-style rules: loop-found parts are appended
stripped (even when empty), the remainder only when nonempty, and the rule
returns the nonempty parts when it produced at least two, else `[text]`. -/
def assembleParts (text : String) (segs : List (List Char)) : List String :=
  let body := segs.dropLast.map pyStripL
  let rem := pyStripL (segs.getLastD [])
  let parts := body ++ (if rem.isEmpty then [] else [rem])
  if 1 < parts.length then
    (parts.filter (fun p => !p.isEmpty)).map (fun p => (⟨p⟩ : String))
  else [text]

/-- `text.replace("\r\n", "\n")` -/
def replaceCrLf : List Char → List Char
  | '\r' :: '\n' :: l => '\n' :: replaceCrLf l
  | c :: l => c :: replaceCrLf l
  | [] => []

/-- `text.replace("\r\n", "\n").replace("\r", "\n")` -/
def pyNorm (l : List Char) : List Char :=
  (replaceCrLf l).map (fun c => if c = '\r' then '\n' else c)

def countNl : List Char → Nat
  | '\n' :: l => countNl l + 1
  | _ => 0

def countWs : List Char → Nat
  | c :: l => if pyIsSpace c then countWs l + 1 else 0
  | [] => 0

def countDigits : List Char → Nat
  | c :: l => if c.isDigit then countDigits l + 1 else 0
  | [] => 0

/-- `[.,:;]` -/
def punctCls (c : Char) : Bool := c = '.' || c = ',' || c = ':' || c = ';'

/-- `split_paragraph_on_patent_number`: split before every
`PATENT_FINDER_PATTERN` match, discarding the matched identifier. -/
def split_paragraph_on_patent_number (text : String) : List String :=
  let l := text.data
  let ms := reFindIter patentIdRE l
  let st := ms.foldl
    (fun (acc : List (List Char) × Nat) m =>
      let partBefore := pyStripL (sliceL l acc.2 m.1)
      (if partBefore.isEmpty then acc.1 else acc.1 ++ [partBefore], m.2.1))
    ([], 0)
  let rem := pyStripL (l.drop st.2)
  let parts := if rem.isEmpty then st.1 else st.1 ++ [rem]
  if 1 < parts.length then
    (parts.filter (fun p => !p.isEmpty)).map (fun p => (⟨p⟩ : String))
  else [text]

/-- Delimiter of the primary split: `\.\n{2,}` (dot plus two or more
newlines, greedy). -/
def dotNlStep : List Char → Option ChopStep
  | '.' :: rest =>
      let n := countNl rest
      if 2 ≤ n then some ⟨0, 1 + n, 0⟩ else none
  | _ => none

/-- `split_paragraph_on_dot_double_newline`: `re.split(r'\.\n{2,}', ...)`,
stripping every part, skipping empties, and appending a terminal `.` when a
part does not already end in `.`, `?` or `!`.  This rule returns its parts
list directly (no two-part guard). -/
def split_paragraph_on_dot_double_newline (text : String) : List String :=
  let normalized := pyNorm text.data
  (gchop dotNlStep normalized).foldr
    (fun p acc =>
      let p' := pyStripL p
      if p'.isEmpty then acc
      else if p'.getLast? = some '.' ∨ p'.getLast? = some '?' ∨ p'.getLast? = some '!' then
        (⟨p'⟩ : String) :: acc
      else (⟨p' ++ ['.']⟩ : String) :: acc) []

/-- `([.,:;])\n(-)`: keep the punctuation, drop the newline, start the next
chunk at the dash (scanning resumes past it). -/
def pdStep : List Char → Option ChopStep
  | c1 :: '\n' :: '-' :: _ => if punctCls c1 then some ⟨1, 1, 1⟩ else none
  | _ => none

def split_paragraph_on_punctuation_dash (text : String) : List String :=
  assembleParts text (gchop pdStep (pyNorm text.data))

/-- `(\s--\s?>\s*)`: the whole arrow token is discarded. -/
def arrowStep : List Char → Option ChopStep
  | c0 :: '-' :: '-' :: rest =>
      if pyIsSpace c0 then
        match rest with
        | '>' :: r2 => some ⟨0, 4 + countWs r2, 0⟩
        | c3 :: '>' :: r2 =>
            if pyIsSpace c3 then some ⟨0, 5 + countWs r2, 0⟩ else none
        | _ => none
      else none
  | _ => none

def split_paragraph_on_arrow (text : String) : List String :=
  assembleParts text (gchop arrowStep text.data)

/-- `' z\. B\. '` (case-sensitive): the part before keeps the leading space,
the next part starts at `z`, scanning resumes at the match end. -/
def zbStep : List Char → Option ChopStep
  | ' ' :: 'z' :: '.' :: ' ' :: 'B' :: '.' :: ' ' :: _ => some ⟨1, 0, 6⟩
  | _ => none

def split_paragraph_on_z_b (text : String) : List String :=
  assembleParts text (gchop zbStep text.data)

/-- `(\sor)(\n-\s)`: split after `or`, next part starts at the newline. -/
def orNlStep : List Char → Option ChopStep
  | c0 :: 'o' :: 'r' :: '\n' :: '-' :: c5 :: _ =>
      if pyIsSpace c0 && pyIsSpace c5 then some ⟨3, 0, 3⟩ else none
  | _ => none

def split_paragraph_on_or_newline_dash (text : String) : List String :=
  assembleParts text (gchop orNlStep (pyNorm text.data))

/-- `\)?\.?\s` tail of the list-item group (greedy optionals). -/
def liDot : List Char → Option Nat
  | '.' :: rest =>
      match rest with
      | c :: _ => if pyIsSpace c then some 2 else none
      | [] => none
  | c :: _ => if pyIsSpace c then some 1 else none
  | [] => none

def liTail : List Char → Option Nat
  | ')' :: rest => (liDot rest).map (· + 1)
  | rest => liDot rest

/-- `[0-9]{1,2}` (greedy, with the single backtrack from two digits to one)
followed by `liTail`. -/
def liDigits : List Char → Option Nat
  | c1 :: rest =>
      if c1.isDigit then
        match rest with
        | c2 :: rest2 =>
            if c2.isDigit then
              match liTail rest2 with
              | some t => some (2 + t)
              | none => (liTail rest).map (· + 1)
            else (liTail rest).map (· + 1)
        | [] => none
      else none
  | [] => none

/-- `\(?` then digits and tail: the full second group of the list-item rule. -/
def liG2 : List Char → Option Nat
  | '(' :: rest => (liDigits rest).map (· + 1)
  | rest => liDigits rest

/-- `([.,:;])\n(\(?[0-9]{1,2}\)?\.?\s)` -/
def liStep : List Char → Option ChopStep
  | c1 :: '\n' :: rest =>
      if punctCls c1 then (liG2 rest).map (fun g2 => ⟨1, 1, g2⟩) else none
  | _ => none

def split_paragraph_on_punctuation_list_item (text : String) : List String :=
  assembleParts text (gchop liStep (pyNorm text.data))

/-- `([.,:;])\n+([a-zA-Z]\))` -/
def lbStep : List Char → Option ChopStep
  | c1 :: '\n' :: rest =>
      if punctCls c1 then
        let n := countNl rest
        match rest.drop n with
        | a :: ')' :: _ => if a.isAlpha then some ⟨1, 1 + n, 2⟩ else none
        | _ => none
      else none
  | _ => none

def split_paragraph_on_punctuation_letter_bracket (text : String) : List String :=
  assembleParts text (gchop lbStep (pyNorm text.data))

/-- `\.?\s[0-9]{1,3}` after a figure keyword. -/
def figWsDigits : List Char → Option Nat
  | c :: rest =>
      if pyIsSpace c then
        let nd := countDigits rest
        if nd = 0 then none else some (1 + min nd 3)
      else none
  | [] => none

def figAfterName : List Char → Option Nat
  | '.' :: rest => (figWsDigits rest).map (· + 1)
  | rest => figWsDigits rest

/-- `(FIG|FIGURE|Fig)` in source alternation order (case-sensitive), each
alternative tried together with its continuation. -/
def figName (l : List Char) : Option Nat :=
  match l with
  | 'F' :: 'I' :: 'G' :: rest =>
      (match figAfterName rest with
       | some t => some (3 + t)
       | none =>
           match rest with
           | 'U' :: 'R' :: 'E' :: rest2 => (figAfterName rest2).map (· + 6)
           | _ => none)
  | 'F' :: 'i' :: 'g' :: rest => (figAfterName rest).map (· + 3)
  | _ => none

/-- `([.,:;])\n*((FIG|FIGURE|Fig)\.?\s[0-9]{1,3})` -/
def figStep : List Char → Option ChopStep
  | c1 :: rest =>
      if punctCls c1 then
        let n := countNl rest
        (figName (rest.drop n)).map (fun g2 => ⟨1, n, g2⟩)
      else none
  | [] => none

def split_paragraph_on_figure_enumeration (text : String) : List String :=
  assembleParts text (gchop figStep (pyNorm text.data))

/-- `\sexample` (case-insensitive tail of the example phrase). -/
def exSpEx : List Char → Option Nat
  | c :: rest =>
      if pyIsSpace c && (rest.take 7).map pyLower = "example".data then some 8 else none
  | [] => none

/-- `(?:for|as\san)\sexample` (case-insensitive), alternatives in order. -/
def exPhrase : List Char → Option Nat
  | a :: b :: c :: rest =>
      if pyLower a = 'f' && pyLower b = 'o' && pyLower c = 'r' then
        (exSpEx rest).map (· + 3)
      else if pyLower a = 'a' && pyLower b = 's' && pyIsSpace c then
        match rest with
        | d2 :: e2 :: rest2 =>
            if pyLower d2 = 'a' && pyLower e2 = 'n' then (exSpEx rest2).map (· + 5)
            else none
        | _ => none
      else none
  | _ => none

/-- `([\.\:\;])(\s+)((?:for|as\san)\sexample)`: at a match return the
whitespace-run length and the phrase length. -/
def exDelim : List Char → Option (Nat × Nat)
  | c :: rest =>
      if c = '.' || c = ':' || c = ';' then
        let n := countWs rest
        if n = 0 then none
        else (exPhrase (rest.drop n)).map (fun p => (n, p))
      else none
  | [] => none

/-- `SPLIT_EXAMPLE_REGEX.split(text)` in structured form: the leading text
piece plus, per delimiter, `(punctuation, whitespace, phrase, next text)`. -/
def exChopAux : Nat → List Char → List Char →
    List Char × List (Char × List Char × List Char × List Char)
  | 0, acc, l => (acc.reverse ++ l, [])
  | fuel + 1, acc, l =>
      match exDelim l with
      | some (n, p) =>
          match l with
          | c :: rest =>
              let wsl := rest.take n
              let ph := (rest.drop n).take p
              let next := exChopAux fuel [] (rest.drop (n + p))
              (acc.reverse, (c, wsl, ph, next.1) :: next.2)
          | [] => (acc.reverse, [])
      | none =>
          match l with
          | [] => (acc.reverse, [])
          | c :: rest => exChopAux fuel (c :: acc) rest

/-- The reconstruction loop of `split_by_specific_example_phrase`: the
punctuation closes the current part, the whitespace and phrase open the next. -/
def exAssemble : List Char → List (Char × List Char × List Char × List Char) →
    List (List Char)
  | current, [] =>
      if (pyStripL current).isEmpty then [] else [pyStripL current]
  | current, (p, ws, ph, t) :: rest =>
      let partA := current ++ [p]
      let tail := exAssemble (ws ++ ph ++ t) rest
      if (pyStripL partA).isEmpty then tail else pyStripL partA :: tail

def split_by_specific_example_phrase (text : String) : List String :=
  let chopped := exChopAux (text.data.length + 1) [] text.data
  (exAssemble chopped.1 chopped.2).map (fun p => (⟨p⟩ : String))

/-- `FINAL_SPLIT_ORDER`: the ordered rule list of the source. -/
def FINAL_SPLIT_ORDER : List (String → List String) :=
  [split_paragraph_on_patent_number,
   split_paragraph_on_dot_double_newline,
   split_paragraph_on_punctuation_dash,
   split_paragraph_on_figure_enumeration,
   split_paragraph_on_punctuation_list_item,
   split_paragraph_on_punctuation_letter_bracket,
   split_paragraph_on_or_newline_dash,
   split_paragraph_on_z_b,
   split_paragraph_on_arrow,
   split_by_specific_example_phrase]

/-- `cascading_split`: apply the rules sequentially and recursively;
a rule that yields at most one part is skipped. -/
def cascading_split (part : String) (methods : List (String → List String)) :
    List String :=
  if (pyStrip part).isEmpty then []
  else
    match methods with
    | [] => [part]
    | f :: rest =>
        let subParts := f part
        if 1 < subParts.length then
          (subParts.map (fun sp => cascading_split sp rest)).join
        else cascading_split part rest

/-- `split_and_clean_paragraph`: strip, cascade, substitute patent numbers,
drop whitespace-only parts.  (The Python `text is None` guard has no
counterpart for a `String` input.) -/
def split_and_clean_paragraph (text : String) : List String :=
  let clean_text := pyStrip text
  let final_parts := cascading_split clean_text FINAL_SPLIT_ORDER
  let cleaned := final_parts.map substitute_patent_numbers
  cleaned.filter (fun p => !(pyStrip p).isEmpty)

end CitEx

namespace CitEx

/-! ## `date_extraction.py` — `DateExtractor` -/

namespace DateExtractor

/-- The `MONTHS` mapping, entries in source order (later duplicate keys of a
Python dict literal overwrite earlier ones, but every duplicate here carries
the same value, so a first-match lookup is equivalent). -/
def MONTHS : List (String × Nat) :=
  [("january", 1), ("february", 2), ("march", 3), ("april", 4),
   ("may", 5), ("june", 6), ("july", 7), ("august", 8),
   ("september", 9), ("october", 10), ("november", 11), ("december", 12),
   ("jan", 1), ("feb", 2), ("mar", 3), ("apr", 4),
   ("jun", 6), ("jul", 7), ("aug", 8),
   ("sep", 9), ("sept", 9), ("oct", 10), ("nov", 11), ("dec", 12),
   ("janvier", 1), ("février", 2), ("mars", 3), ("avril", 4),
   ("mai", 5), ("juin", 6), ("juillet", 7), ("août", 8),
   ("septembre", 9), ("octobre", 10), ("novembre", 11), ("décembre", 12),
   ("janv", 1), ("févr", 2), ("avr", 4), ("juil", 7),
   ("déc", 12),
   ("januar", 1), ("februar", 2), ("märz", 3),
   ("juni", 6), ("juli", 7),
   ("oktober", 10), ("dezember", 12),
   ("mär", 3), ("okt", 10), ("dez", 12)]

/-- `'|'.join(MONTHS.keys())`: dict key order is first-insertion order with
duplicates removed. -/
def monthNames : List String :=
  ["january", "february", "march", "april", "may", "june", "july", "august",
   "september", "october", "november", "december",
   "jan", "feb", "mar", "apr", "jun", "jul", "aug", "sep", "sept", "oct",
   "nov", "dec",
   "janvier", "février", "mars", "avril", "mai", "juin", "juillet", "août",
   "septembre", "octobre", "novembre", "décembre",
   "janv", "févr", "avr", "juil", "déc",
   "januar", "februar", "märz", "juni", "juli", "oktober", "dezember",
   "mär", "okt", "dez"]

/-- The `({_MONTH_NAMES})` alternation (case-insensitive). -/
def monthAlt : RE := reAltList (monthNames.map strCI)

/-- `MONTHS.get(x.lower())` -/
def monthsGet (s : List Char) : Option Nat :=
  (MONTHS.find? (fun e => e.1.data = pyLowerL s)).map (·.2)

def MIN_YEAR : Nat := 1900

def _is_valid_year (cy year : Nat) : Bool := MIN_YEAR ≤ year && year ≤ cy
def _is_valid_day (day : Nat) : Bool := 1 ≤ day && day ≤ 31
def _is_valid_month (month : Nat) : Bool := 1 ≤ month && month ≤ 12

/-- `(?:st|nd|rd|th)?` -/
def ordinalOpt : RE :=
  reOpt (reAltList [strCI "st", strCI "nd", strCI "rd", strCI "th"])

def dotDashC : RE := .cls (fun c => c = '.' || c = '-')

/-- `\bto\b|\d+-\d+(?:\s+\w+\s+\d{4})` -/
def dateRangeRE : RE :=
  .alt (reSeqList [.wordB, strCI "to", .wordB])
       (reSeqList [rePlus dC, lit '-', rePlus dC, rePlus wsC,
                   rePlus (.cls pyIsWordChar), rePlus wsC, reCnt 4 4 dC])

/-- `\b\d{4}-\d{7,}\b` -/
def invalidYearRE : RE :=
  reSeqList [.wordB, reCnt 4 4 dC, lit '-', reCntMin 7 dC, .wordB]

/-- `\b(\d{1,2})\.?\s*({m})\.?\s*(\d{4})\b` -/
def p1RE : RE := reSeqList
  [.wordB, .grp 1 (reCnt 1 2 dC), reOpt (lit '.'), reStar wsC,
   .grp 2 monthAlt, reOpt (lit '.'), reStar wsC, .grp 3 (reCnt 4 4 dC), .wordB]

/-- `\b({m})\s+\d+\s+to\s+\d+,\s+(\d{4})\b` -/
def p2RangeRE : RE := reSeqList
  [.wordB, .grp 1 monthAlt, rePlus wsC, rePlus dC, rePlus wsC, strCI "to",
   rePlus wsC, rePlus dC, lit ',', rePlus wsC, .grp 2 (reCnt 4 4 dC), .wordB]

/-- `\b({m})\.?\s+(\d{1,2})(?:st|nd|rd|th)?\.?\s*,?\s*(\d{4})` -/
def p2RE : RE := reSeqList
  [.wordB, .grp 1 monthAlt, reOpt (lit '.'), rePlus wsC,
   .grp 2 (reCnt 1 2 dC), ordinalOpt, reOpt (lit '.'), reStar wsC,
   reOpt (lit ','), reStar wsC, .grp 3 (reCnt 4 4 dC)]

/-- `\b(\d{1,2})(?:st|nd|rd|th)?\.?\s+(?:of\s+)?({m})\s*,?\s*(\d{4})\b` -/
def p3RE : RE := reSeqList
  [.wordB, .grp 1 (reCnt 1 2 dC), ordinalOpt, reOpt (lit '.'), rePlus wsC,
   reOpt (reSeqList [strCI "of", rePlus wsC]), .grp 2 monthAlt, reStar wsC,
   reOpt (lit ','), reStar wsC, .grp 3 (reCnt 4 4 dC), .wordB]

/-- `\b(\d{4})[,\s]+({m})\s+(\d{1,2})(?:st|nd|rd|th)?(?:[;\s(]|$)` -/
def p4RE : RE := reSeqList
  [.wordB, .grp 1 (reCnt 4 4 dC), rePlus (.cls (fun c => c = ',' || pyIsSpace c)),
   .grp 2 monthAlt, rePlus wsC, .grp 3 (reCnt 1 2 dC), ordinalOpt,
   .alt (.cls (fun c => c = ';' || pyIsSpace c || c = '(')) .eos]

/-- `\b(\d{4})\s+({m})\s+(\d{1,2})-({m})` -/
def p4RangeRE : RE := reSeqList
  [.wordB, .grp 1 (reCnt 4 4 dC), rePlus wsC, .grp 2 monthAlt, rePlus wsC,
   .grp 3 (reCnt 1 2 dC), lit '-', .grp 4 monthAlt]

/-- `\b({m})-({m})\s+(\d{4})\b` -/
def p5RE : RE := reSeqList
  [.wordB, .grp 1 monthAlt, lit '-', .grp 2 monthAlt, rePlus wsC,
   .grp 3 (reCnt 4 4 dC), .wordB]

/-- `\b(\d{4})[.\s]+(\d{1,2})(?:\(|;|\.|$)` -/
def p6RE : RE := reSeqList
  [.wordB, .grp 1 (reCnt 4 4 dC), rePlus (.cls (fun c => c = '.' || pyIsSpace c)),
   .grp 2 (reCnt 1 2 dC), .alt (.cls (fun c => c = '(' || c = ';' || c = '.')) .eos]

/-- `\b(\d{4})\s*[.,]?\s*({m})\b` -/
def p7RE : RE := reSeqList
  [.wordB, .grp 1 (reCnt 4 4 dC), reStar wsC, reOpt (.cls (fun c => c = '.' || c = ',')),
   reStar wsC, .grp 2 monthAlt, .wordB]

/-- `\b({m})\s*[.,]?\s*(\d{4})\b` -/
def p8RE : RE := reSeqList
  [.wordB, .grp 1 monthAlt, reStar wsC, reOpt (.cls (fun c => c = '.' || c = ',')),
   reStar wsC, .grp 2 (reCnt 4 4 dC), .wordB]

/-- `\b(\d{4})[.\-](\d{1,2})[.\-](\d{1,2})\b` -/
def p9YmdRE : RE := reSeqList
  [.wordB, .grp 1 (reCnt 4 4 dC), dotDashC, .grp 2 (reCnt 1 2 dC), dotDashC,
   .grp 3 (reCnt 1 2 dC), .wordB]

/-- `\b(\d{1,2})[.\-](\d{1,2})[.\-](\d{4})\b` -/
def p9DmyRE : RE := reSeqList
  [.wordB, .grp 1 (reCnt 1 2 dC), dotDashC, .grp 2 (reCnt 1 2 dC), dotDashC,
   .grp 3 (reCnt 4 4 dC), .wordB]

/-- `\b(\d{4})-(\d{1,2})(?:\D|$)` -/
def p10RE : RE := reSeqList
  [.wordB, .grp 1 (reCnt 4 4 dC), lit '-', .grp 2 (reCnt 1 2 dC),
   .alt (.cls (fun c => !c.isDigit)) .eos]

/-- `\b(\d{4})\b` -/
def yearAnyRE : RE := reSeqList [.wordB, .grp 1 (reCnt 4 4 dC), .wordB]

/-- `\b(\d{4})-(\d{4})\b` -/
def yearRangeRE : RE := reSeqList
  [.wordB, .grp 1 (reCnt 4 4 dC), lit '-', .grp 2 (reCnt 4 4 dC), .wordB]

/-- `\b(\d{4})-\d{5,}\b` -/
def yearLongRE : RE := reSeqList
  [.wordB, .grp 1 (reCnt 4 4 dC), lit '-', reCntMin 5 dC, .wordB]

/-- `\((\d{4})\)` -/
def yearParenRE : RE := reSeqList [lit '(', .grp 1 (reCnt 4 4 dC), lit ')']

/-- `\[(\d{4})\]` -/
def yearBracketRE : RE := reSeqList [lit '[', .grp 1 (reCnt 4 4 dC), lit ']']

/-- Day/month/year candidates accumulated along the priority cascade. -/
structure DState where
  day : Option Nat
  month : Option Nat
  year : Option Nat
deriving DecidableEq, Repr

/-- Text of capture group `n` of a match of `l`. -/
def grpStr (l : List Char) (cs : Caps) (n : Nat) : List Char :=
  match groupSpan cs n with
  | some (a, b) => sliceL l a b
  | none => []

/-- The shared body of priorities 1–4: a `(day, monthName, year)` match is
accepted via the nested validity gates. -/
def admitDMY (cy : Nat) (dayN : Nat) (monthV : Option Nat) (yearN : Nat)
    (st : DState) : DState :=
  if _is_valid_year cy yearN then
    match monthV with
    | some m =>
        if _is_valid_month m then
          if _is_valid_day dayN then ⟨some dayN, some m, some yearN⟩
          else ⟨st.day, some m, some yearN⟩
        else ⟨st.day, st.month, some yearN⟩
    | none => ⟨st.day, st.month, some yearN⟩
  else st

/-- Priority 1: `p1` (day, month name, year with optional periods). -/
def prio1 (cy : Nat) (l : List Char) (st : DState) : DState :=
  match reSearch p1RE l with
  | some (_, _, cs) =>
      admitDMY cy (toNatL (grpStr l cs 1)) (monthsGet (grpStr l cs 2))
        (toNatL (grpStr l cs 3)) st
  | none => st

/-- Priority 2: month-name day, year — with the range special case. -/
def prio2 (cy : Nat) (l : List Char) (hasRange : Bool) (st : DState) : DState :=
  if st.day = none ∧ st.month = none ∧ st.year = none then
    if hasRange && (reSearch p2RangeRE l).isSome then
      match reSearch p2RangeRE l with
      | some (_, _, cs) =>
          let y := toNatL (grpStr l cs 2)
          if _is_valid_year cy y then ⟨st.day, st.month, some y⟩ else st
      | none => st
    else
      match reSearch p2RE l with
      | some (_, _, cs) =>
          admitDMY cy (toNatL (grpStr l cs 2)) (monthsGet (grpStr l cs 1))
            (toNatL (grpStr l cs 3)) st
      | none => st
  else st

/-- Priority 3: day month-name year. -/
def prio3 (cy : Nat) (l : List Char) (st : DState) : DState :=
  if st.day = none ∧ st.month = none ∧ st.year = none then
    match reSearch p3RE l with
    | some (_, _, cs) =>
        admitDMY cy (toNatL (grpStr l cs 1)) (monthsGet (grpStr l cs 2))
          (toNatL (grpStr l cs 3)) st
    | none => st
  else st

/-- Priority 4 (source "Priority 4"): year month day with a month range. -/
def prio4r (cy : Nat) (l : List Char) (st : DState) : DState :=
  if st.day = none ∧ st.month = none ∧ st.year = none then
    match reSearch p4RangeRE l with
    | some (_, _, cs) =>
        admitDMY cy (toNatL (grpStr l cs 3)) (monthsGet (grpStr l cs 2))
          (toNatL (grpStr l cs 1)) st
    | none => st
  else st

/-- Priority 4b: year month day. -/
def prio4 (cy : Nat) (l : List Char) (st : DState) : DState :=
  if st.day = none ∧ st.month = none ∧ st.year = none then
    match reSearch p4RE l with
    | some (_, _, cs) =>
        admitDMY cy (toNatL (grpStr l cs 3)) (monthsGet (grpStr l cs 2))
          (toNatL (grpStr l cs 1)) st
    | none => st
  else st

/-- Priority 5: month-name–month-name year range: year only. -/
def prio5 (cy : Nat) (l : List Char) (st : DState) : DState :=
  if st.month = none ∧ st.year = none then
    match reSearch p5RE l with
    | some (_, _, cs) =>
        let y := toNatL (grpStr l cs 3)
        if _is_valid_year cy y then ⟨st.day, st.month, some y⟩ else st
    | none => st
  else st

/-- Priority 6: `year.month.issue`. -/
def prio6 (cy : Nat) (l : List Char) (st : DState) : DState :=
  if st.month = none ∧ st.year = none then
    match reSearch p6RE l with
    | some (_, _, cs) =>
        let y := toNatL (grpStr l cs 1)
        let m := toNatL (grpStr l cs 2)
        if _is_valid_year cy y && _is_valid_month m then ⟨st.day, some m, some y⟩
        else st
    | none => st
  else st

/-- Priority 7: year month-name. -/
def prio7 (cy : Nat) (l : List Char) (st : DState) : DState :=
  if st.month = none ∧ st.year = none then
    match reSearch p7RE l with
    | some (_, _, cs) =>
        let y := toNatL (grpStr l cs 1)
        if _is_valid_year cy y then
          match monthsGet (grpStr l cs 2) with
          | some m =>
              if _is_valid_month m then ⟨st.day, some m, some y⟩
              else ⟨st.day, st.month, some y⟩
          | none => ⟨st.day, st.month, some y⟩
        else st
    | none => st
  else st

/-- Priority 8: month-name year. -/
def prio8 (cy : Nat) (l : List Char) (st : DState) : DState :=
  if st.month = none ∧ st.year = none then
    match reSearch p8RE l with
    | some (_, _, cs) =>
        let y := toNatL (grpStr l cs 2)
        if _is_valid_year cy y then
          match monthsGet (grpStr l cs 1) with
          | some m =>
              if _is_valid_month m then ⟨st.day, some m, some y⟩
              else ⟨st.day, st.month, some y⟩
          | none => ⟨st.day, st.month, some y⟩
        else st
    | none => st
  else st

/-- Priority 9: fully numeric dates; `none` models the early
`return '00000000'` on a day/month overflow. -/
def prio9 (cy : Nat) (l : List Char) (st : DState) : Option DState :=
  if st.day = none ∧ st.month = none ∧ st.year = none then
    let stYmd : DState :=
      match reSearch p9YmdRE l with
      | some (_, _, cs) =>
          let py := toNatL (grpStr l cs 1)
          let pm := toNatL (grpStr l cs 2)
          let pd := toNatL (grpStr l cs 3)
          if _is_valid_year cy py && _is_valid_month pm && _is_valid_day pd then
            ⟨some pd, some pm, some py⟩
          else st
      | none => st
    if stYmd.year = none then
      match reSearch p9DmyRE l with
      | some (_, _, cs) =>
          let pd := toNatL (grpStr l cs 1)
          let pm := toNatL (grpStr l cs 2)
          let py := toNatL (grpStr l cs 3)
          if _is_valid_year cy py then
            if 31 < pd ∨ 12 < pm then none
            else if _is_valid_month pm && _is_valid_day pd then
              some ⟨some pd, some pm, some py⟩
            else if _is_valid_month pd && _is_valid_day pm then
              some ⟨some pm, some pd, some py⟩
            else if _is_valid_month pm then
              some ⟨stYmd.day, some pm, some py⟩
            else if _is_valid_month pd then
              some ⟨stYmd.day, some pd, some py⟩
            else some ⟨stYmd.day, stYmd.month, some py⟩
          else some stYmd
      | none => some stYmd
    else some stYmd
  else some st

/-- Priority 10: `yyyy-m` / `yyyy-mm`. -/
def prio10 (cy : Nat) (l : List Char) (st : DState) : DState :=
  if st.month = none ∧ st.year = none then
    match reSearch p10RE l with
    | some (_, _, cs) =>
        let ystr := grpStr l cs 1
        let mstr := grpStr l cs 2
        if mstr.length ≤ 2 && _is_valid_year cy (toNatL ystr)
            && _is_valid_month (toNatL mstr) then
          ⟨st.day, some (toNatL mstr), some (toNatL ystr)⟩
        else st
    | none => st
  else st

/-- Priority 11: maximum of all valid standalone 4-digit years. -/
def prio11 (cy : Nat) (l : List Char) (st : DState) : DState :=
  if st.year = none then
    let allYears := (reFindIter yearAnyRE l).map (fun m => toNatL (grpStr l m.2.2 1))
    let validYears := allYears.filter (fun y => _is_valid_year cy y)
    if validYears = [] then st
    else ⟨st.day, st.month, some (validYears.foldl Nat.max 0)⟩
  else st

/-- Priority 12: year range — first year. -/
def prio12 (cy : Nat) (l : List Char) (st : DState) : DState :=
  if st.year = none then
    match reSearch yearRangeRE l with
    | some (_, _, cs) =>
        let y1 := toNatL (grpStr l cs 1)
        let y2 := toNatL (grpStr l cs 2)
        if _is_valid_year cy y1 && _is_valid_year cy y2 then ⟨st.day, st.month, some y1⟩
        else st
    | none => st
  else st

/-- Priority 13: year followed by a long digit run. -/
def prio13 (cy : Nat) (l : List Char) (st : DState) : DState :=
  if st.year = none then
    match reSearch yearLongRE l with
    | some (_, _, cs) =>
        let y := toNatL (grpStr l cs 1)
        if _is_valid_year cy y then ⟨st.day, st.month, some y⟩ else st
    | none => st
  else st

/-- Priority 14: first valid year in parentheses. -/
def prio14 (cy : Nat) (l : List Char) (st : DState) : DState :=
  if st.year = none then
    let parenYears := (reFindIter yearParenRE l).map (fun m => toNatL (grpStr l m.2.2 1))
    match parenYears.find? (fun y => _is_valid_year cy y) with
    | some y => ⟨st.day, st.month, some y⟩
    | none => st
  else st

/-- Priority 15: year in square brackets. -/
def prio15 (cy : Nat) (l : List Char) (st : DState) : DState :=
  if st.year = none then
    match reSearch yearBracketRE l with
    | some (_, _, cs) =>
        let y := toNatL (grpStr l cs 1)
        if _is_valid_year cy y then ⟨st.day, st.month, some y⟩ else st
    | none => st
  else st

/-- Final `ddmmyyyy` formatting (`'00'` for a missing or zero day/month). -/
def fmtDstate (st : DState) (y : Nat) : String :=
  let dayStr := match st.day with
    | some d => if d = 0 then "00".data else pyPad 2 d
    | none => "00".data
  let monthStr := match st.month with
    | some m => if m = 0 then "00".data else pyPad 2 m
    | none => "00".data
  ⟨dayStr ++ monthStr ++ pyPad 4 y⟩

/-- `DateExtractor.extract`.  `cy` is `CURRENT_YEAR` (`datetime.now().year`
at import time in the source), kept as a parameter. -/
def extract (cy : Nat) (paragraph : String) : String :=
  if paragraph = "" || pyStrip paragraph ∈ (["N/A", "", "n/a"] : List String) then
    "00000000"
  else
    let l := paragraph.data
    if (reSearch invalidYearRE l).isSome then "00000000"
    else
      let hasRange := (reSearch dateRangeRE l).isSome
      let st1 := prio1 cy l ⟨none, none, none⟩
      let st2 := prio2 cy l hasRange st1
      let st3 := prio3 cy l st2
      let st4r := prio4r cy l st3
      let st4 := prio4 cy l st4r
      let st5 := prio5 cy l st4
      let st6 := prio6 cy l st5
      let st7 := prio7 cy l st6
      let st8 := prio8 cy l st7
      match prio9 cy l st8 with
      | none => "00000000"
      | some st9 =>
          let st10 := prio10 cy l st9
          let st11 := prio11 cy l st10
          let st12 := prio12 cy l st11
          let st13 := prio13 cy l st12
          let st14 := prio14 cy l st13
          let st15 := prio15 cy l st14
          match st15.year with
          | none => "00000000"
          | some y => fmtDstate st15 y

end DateExtractor

end CitEx

namespace CitEx

/-! ## `llm_client.py` — weight-percentage redaction

`SINGLE_WT_PERCENT_REGEX = (\d+\.?\d*)\s?wt%` and
`RATIO_WT_PERCENT_REGEX = (\d+\.?\d*)\s?wt%\s?/\s?(\d+\.?\d*)\s?wt%`
(both `re.IGNORECASE`) as deterministic scanners: every quantifier here is
followed by a token its own character class cannot start, so greedy
matching without backtracking coincides with Python's semantics. -/

/-- `(\d+\.?\d*)`: length of the number match at the head, if any. -/
def numLen (l : List Char) : Option Nat :=
  let n1 := countDigits l
  if n1 = 0 then none
  else
    match l.drop n1 with
    | '.' :: r2 => some (n1 + 1 + countDigits r2)
    | _ => some n1

/-- `\s?wt%` (case-insensitive). -/
def wtLen (l : List Char) : Option Nat :=
  match l with
  | c :: w :: t :: p :: _ =>
      if pyIsSpace c && pyLower w = 'w' && pyLower t = 't' && p = '%' then some 4
      else if pyLower c = 'w' && pyLower w = 't' && t = '%' then some 3
      else none
  | c :: w :: t :: _ =>
      if pyLower c = 'w' && pyLower w = 't' && t = '%' then some 3 else none
  | _ => none

/-- `\s?/\s?`. -/
def slashLen (l : List Char) : Option Nat :=
  let a : Nat × List Char :=
    match l with
    | c :: r => if pyIsSpace c then (1, r) else (0, l)
    | [] => (0, l)
  match a.2 with
  | '/' :: r2 =>
      (match r2 with
       | c :: _ => if pyIsSpace c then some (a.1 + 2) else some (a.1 + 1)
       | [] => some (a.1 + 1))
  | _ => none

/-- Length of a `SINGLE_WT_PERCENT_REGEX` match at the head, if any. -/
def singleWtLen (l : List Char) : Option Nat :=
  match numLen l with
  | some n => (wtLen (l.drop n)).map (n + ·)
  | none => none

/-- Length of a `RATIO_WT_PERCENT_REGEX` match at the head, if any. -/
def ratioWtLen (l : List Char) : Option Nat :=
  match singleWtLen l with
  | some n1 =>
      match slashLen (l.drop n1) with
      | some n2 =>
          (singleWtLen (l.drop (n1 + n2))).map (n1 + n2 + ·)
      | none => none
  | none => none

/-- `pattern.sub(repl, ...)` for a head-matcher: leftmost, non-overlapping. -/
def subScan (matchLen : List Char → Option Nat) (repl : List Char) :
    Nat → List Char → List Char
  | 0, l => l
  | fuel + 1, l =>
      match matchLen l with
      | some n => repl ++ subScan matchLen repl fuel (l.drop n)
      | none =>
          match l with
          | [] => []
          | c :: r => c :: subScan matchLen repl fuel r

/-- `RATIO_WT_PERCENT_REGEX.sub(r'[A_DEFINED_RATIO]', ...)`. -/
def subRatioWt (l : List Char) : List Char :=
  subScan ratioWtLen "[A_DEFINED_RATIO]".data (l.length + 1) l

/-- `SINGLE_WT_PERCENT_REGEX.sub(r'[A_CERTAIN_AMOUNT]', ...)`. -/
def subSingleWt (l : List Char) : List Char :=
  subScan singleWtLen "[A_CERTAIN_AMOUNT]".data (l.length + 1) l

/-- `neutralize_quantitative_noise`: ratios first, then single values. -/
def neutralize_quantitative_noise (paragraph : String) : String :=
  ⟨subSingleWt (subRatioWt paragraph.data)⟩

/-! ## `citation_corrections.py` -/

/-- `MONTH_MAP` of `citation_corrections.py`. -/
def MONTH_MAP : List (String × String) :=
  [("jan", "01"), ("feb", "02"), ("mar", "03"), ("apr", "04"), ("may", "05"),
   ("jun", "06"), ("jul", "07"), ("aug", "08"), ("sep", "09"), ("oct", "10"),
   ("nov", "11"), ("dec", "12"),
   ("january", "01"), ("february", "02"), ("march", "03"), ("april", "04"),
   ("june", "06"), ("july", "07"), ("august", "08"), ("september", "09"),
   ("october", "10"), ("november", "11"), ("december", "12")]

def pyLowerS (s : String) : String := ⟨pyLowerL s.data⟩

/-- Python `str.split()` (split on whitespace runs, no empty parts). -/
def pySplitWsAux : List Char → List Char → List (List Char)
  | acc, [] => if acc.isEmpty then [] else [acc.reverse]
  | acc, c :: r =>
      if pyIsSpace c then
        if acc.isEmpty then pySplitWsAux [] r else acc.reverse :: pySplitWsAux [] r
      else pySplitWsAux (c :: acc) r

def pySplitWs (l : List Char) : List (List Char) := pySplitWsAux [] l

/-- `re.sub(r'\s+', ' ', ...)`. -/
def collapseWsAux : Bool → List Char → List Char
  | _, [] => []
  | prevWs, c :: r =>
      if pyIsSpace c then
        if prevWs then collapseWsAux true r else ' ' :: collapseWsAux true r
      else c :: collapseWsAux false r

def collapseWs (l : List Char) : List Char := collapseWsAux false l

/-- `str.strip('()')`. -/
def stripParens (l : List Char) : List Char :=
  ((l.dropWhile (fun c => c = '(' || c = ')')).reverse.dropWhile
    (fun c => c = '(' || c = ')')).reverse

/-! ### `standardize_date` — embedded `datetime.strptime`

Each format of the source's `date_formats` list is a bespoke parser built
from the CPython `_strptime` token regexes: `%Y = \d{4}`,
`%m = 1[0-2]|0[1-9]|[1-9]`, `%d = 3[01]|[12]\d|0[1-9]|[1-9]`,
`%b`/`%B` = the English month names (longest first), and a literal space
matches `\s+`; the whole string must be consumed, and the resulting
`datetime` construction validates the calendar date. -/

def isLeap (y : Nat) : Bool := (y % 4 = 0 && y % 100 ≠ 0) || y % 400 = 0

def daysInMonth (y m : Nat) : Nat :=
  if m = 2 then (if isLeap y then 29 else 28)
  else if m = 4 || m = 6 || m = 9 || m = 11 then 30
  else 31

/-- `datetime(y, m, d)` constructor validation. -/
def datetimeOk (y m d : Nat) : Bool :=
  1 ≤ y && y ≤ 9999 && 1 ≤ m && m ≤ 12 && 1 ≤ d && d ≤ daysInMonth y m

/-- `%d`: `3[01]|[12]\d|0[1-9]|[1-9]`, alternatives tried in order with the
continuation. -/
def pDay (l : List Char) (k : Nat → List Char → Option (Nat × Nat × Nat)) :
    Option (Nat × Nat × Nat) :=
  (match l with
   | '3' :: c :: r =>
       if c = '0' || c = '1' then k (30 + (c.toNat - 48)) r else none
   | _ => none).orElse (fun _ =>
  (match l with
   | a :: c :: r =>
       if (a = '1' || a = '2') && c.isDigit then
         k ((a.toNat - 48) * 10 + (c.toNat - 48)) r
       else none
   | _ => none).orElse (fun _ =>
  (match l with
   | '0' :: c :: r => if '1' ≤ c && c ≤ '9' then k (c.toNat - 48) r else none
   | _ => none).orElse (fun _ =>
  (match l with
   | c :: r => if '1' ≤ c && c ≤ '9' then k (c.toNat - 48) r else none
   | [] => none))))

/-- `%Y`: exactly four digits. -/
def pYear (l : List Char) (k : Nat → List Char → Option (Nat × Nat × Nat)) :
    Option (Nat × Nat × Nat) :=
  match l with
  | a :: b :: c :: d :: r =>
      if a.isDigit && b.isDigit && c.isDigit && d.isDigit then
        k (toNatL [a, b, c, d]) r
      else none
  | _ => none

/-- A literal space in a `strptime` format: `\s+`. -/
def pWs (l : List Char) (k : List Char → Option (Nat × Nat × Nat)) :
    Option (Nat × Nat × Nat) :=
  let n := countWs l
  if n = 0 then none else k (l.drop n)

/-- `%B`: the full English month names, longest first (stable), as CPython
builds the alternation. -/
def enMonthsFull : List (String × Nat) :=
  [("september", 9), ("february", 2), ("november", 11), ("december", 12),
   ("january", 1), ("october", 10), ("august", 8), ("march", 3), ("april", 4),
   ("june", 6), ("july", 7), ("may", 5)]

/-- `%b`: the abbreviated English month names. -/
def enMonthsAbbr : List (String × Nat) :=
  [("jan", 1), ("feb", 2), ("mar", 3), ("apr", 4), ("may", 5), ("jun", 6),
   ("jul", 7), ("aug", 8), ("sep", 9), ("oct", 10), ("nov", 11), ("dec", 12)]

/-- Month-name alternation with continuation backtracking. -/
def pMonth (names : List (String × Nat)) (l : List Char)
    (k : Nat → List Char → Option (Nat × Nat × Nat)) : Option (Nat × Nat × Nat) :=
  match names with
  | [] => none
  | (nm, v) :: rest =>
      match (if l.take nm.length = nm.data then k v (l.drop nm.length) else none) with
      | some r => some r
      | none => pMonth rest l k

/-- Full-input parsers for the source's `date_formats`, producing
`(day, month, year)` (day `0` marks a format without `%d`). -/
def fmtDBY (l : List Char) : Option (Nat × Nat × Nat) :=
  pDay l (fun d r1 => pWs r1 (fun r2 => pMonth enMonthsFull r2 (fun m r3 =>
    pWs r3 (fun r4 => pYear r4 (fun y r5 => if r5 = [] then some (d, m, y) else none)))))

def fmtBdY (l : List Char) : Option (Nat × Nat × Nat) :=
  pMonth enMonthsAbbr l (fun m r1 => pWs r1 (fun r2 => pDay r2 (fun d r3 =>
    pWs r3 (fun r4 => pYear r4 (fun y r5 => if r5 = [] then some (d, m, y) else none)))))

def fmtYbd (l : List Char) : Option (Nat × Nat × Nat) :=
  pYear l (fun y r1 => pWs r1 (fun r2 => pMonth enMonthsAbbr r2 (fun m r3 =>
    pWs r3 (fun r4 => pDay r4 (fun d r5 => if r5 = [] then some (d, m, y) else none)))))

def fmtBdYFull (l : List Char) : Option (Nat × Nat × Nat) :=
  pMonth enMonthsFull l (fun m r1 => pWs r1 (fun r2 => pDay r2 (fun d r3 =>
    pWs r3 (fun r4 => pYear r4 (fun y r5 => if r5 = [] then some (d, m, y) else none)))))

def fmtYBdFull (l : List Char) : Option (Nat × Nat × Nat) :=
  pYear l (fun y r1 => pWs r1 (fun r2 => pMonth enMonthsFull r2 (fun m r3 =>
    pWs r3 (fun r4 => pDay r4 (fun d r5 => if r5 = [] then some (d, m, y) else none)))))

def fmtBY (l : List Char) : Option (Nat × Nat × Nat) :=
  pMonth enMonthsAbbr l (fun m r1 => pWs r1 (fun r2 => pYear r2 (fun y r3 =>
    if r3 = [] then some (0, m, y) else none)))

def fmtBYFull (l : List Char) : Option (Nat × Nat × Nat) :=
  pMonth enMonthsFull l (fun m r1 => pWs r1 (fun r2 => pYear r2 (fun y r3 =>
    if r3 = [] then some (0, m, y) else none)))

/-- The `date_formats` list in source order, with the day-presence flag. -/
def dateFormats : List ((List Char → Option (Nat × Nat × Nat)) × Bool) :=
  [(fmtDBY, true), (fmtBdY, true), (fmtYbd, true), (fmtBdYFull, true),
   (fmtYBdFull, true), (fmtBY, false), (fmtBYFull, false)]

/-- `datetime.strptime(original_date, '%Y-%m-%d')` (with the `%m`/`%d`
alternative order of `_strptime` and the constructor's calendar check). -/
def parseIsoYmd (l : List Char) : Option (Nat × Nat × Nat) :=
  pYear l (fun y r1 =>
    match r1 with
    | '-' :: r2 =>
        (match r2 with
         | '1' :: c :: r3 =>
             if c = '0' || c = '1' || c = '2' then isoDay y (10 + (c.toNat - 48)) r3
             else
               isoDay y 1 (c :: r3)
         | '0' :: c :: r3 =>
             if '1' ≤ c && c ≤ '9' then isoDay y (c.toNat - 48) r3 else none
         | c :: r3 => if '1' ≤ c && c ≤ '9' then isoDay y (c.toNat - 48) r3 else none
         | [] => none)
    | _ => none)
where
  isoDay (y m : Nat) (r : List Char) : Option (Nat × Nat × Nat) :=
    match r with
    | '-' :: r4 =>
        pDay r4 (fun d r5 =>
          if r5 = [] && datetimeOk y m d then some (d, m, y) else none)
    | _ => none

/-- `^(\d{4})-(\d{2})$`: the month and year digit strings. -/
def isoYmShort (l : List Char) : Option (List Char × List Char) :=
  match l with
  | [a, b, c, d, '-', e, f] =>
      if a.isDigit && b.isDigit && c.isDigit && d.isDigit && e.isDigit && f.isDigit then
        some ([e, f], [a, b, c, d])
      else none
  | _ => none

/-- `^(\d{2})-(\d{4})$`. -/
def isoMyShort (l : List Char) : Option (List Char × List Char) :=
  match l with
  | [a, b, '-', c, d, e, f] =>
      if a.isDigit && b.isDigit && c.isDigit && d.isDigit && e.isDigit && f.isDigit then
        some ([a, b], [c, d, e, f])
      else none
  | _ => none

/-- `standardize_date`: `(transformed or original, success)`; `none` models
the `(None, False)` return on empty input. -/
def standardize_date (date_str : String) : Option String × Bool :=
  if date_str = "" then (none, false)
  else
    let original := pyStripL date_str.data
    -- Phase 0: exact numeric / ISO formats on the unlowered string
    match parseIsoYmd original with
    | some (d, m, y) => (some ⟨pyPad 2 d ++ pyPad 2 m ++ pyPad 4 y⟩, true)
    | none =>
    match isoYmShort original with
    | some (mStr, yStr) => (some ⟨"00".data ++ mStr ++ yStr⟩, true)
    | none =>
    match isoMyShort original with
    | some (mStr, yStr) => (some ⟨"00".data ++ mStr ++ yStr⟩, true)
    | none =>
      -- Phase 1: clean and try the text formats
      let cleaned := pyLowerL (collapseWs (pyStripL
        ((stripParens original).map (fun c => if c = '.' || c = ',' then ' ' else c))))
      match dateFormats.findSome? (fun fp =>
        match fp.1 cleaned with
        | some (d, m, y) =>
            let dd := if fp.2 then d else 1
            if datetimeOk y m dd then some (d, m, y, fp.2) else none
        | none => none) with
      | some (d, m, y, hasDay) =>
          (some ⟨(if hasDay then pyPad 2 d else "00".data) ++ pyPad 2 m ++ pyPad 4 y⟩, true)
      | none =>
          -- Phase 3: year only, then year+month pair
          if original.length = 4 && original.all Char.isDigit then
            (some ⟨"0000".data ++ original⟩, true)
          else
            let parts := pySplitWs cleaned
            if parts.length = 2 then
              let yearPart := parts.find? (fun p => !p.isEmpty && p.all Char.isDigit && p.length = 4)
              let monthPart := parts.find? (fun p => (MONTH_MAP.find? (fun e => e.1.data = p)).isSome)
              match yearPart, monthPart with
              | some yp, some mp =>
                  (some ⟨"00".data ++
                    ((MONTH_MAP.find? (fun e => e.1.data = mp)).map (·.2.data)).getD [] ++ yp⟩, true)
              | _, _ => (some date_str, false)
            else (some date_str, false)

/-! ### URL helpers -/

/-- `UNALLOWED_URL_CHARS` (space, quote, angle brackets, braces, pipe,
backslash, caret, tilde, square brackets). -/
def unallowedUrlChar (c : Char) : Bool :=
  c = ' ' || c = '"' || c = '<' || c = '>' || c = '\x7b' || c = '\x7d' ||
  c = '|' || c = '\\' || c = '^' || c = '~' || c = '[' || c = ']'

def urlWordChar (c : Char) : Bool := c.isAlphanum || c = '_' || c = '-'

/-- `([a-zA-Z0-9_-]+\.)+[a-zA-Z0-9_-]+/` matched at the string start. -/
def domainScan : Nat → Bool → List Char → Bool
  | 0, _, _ => false
  | fuel + 1, seenDot, l =>
      let run := l.takeWhile urlWordChar
      if run.isEmpty then false
      else
        match l.drop run.length with
        | '.' :: r => domainScan fuel true r
        | '/' :: _ => seenDot
        | _ => false

/-- `URL_START_PATTERN.match(text)` (case-insensitive, anchored). -/
def urlStartOk (l0 : List Char) : Bool :=
  let l := pyLowerL l0
  l.take 7 = "http://".data || l.take 8 = "https://".data ||
  l.take 6 = "ftp://".data || l.take 5 = "ft://".data ||
  l.take 4 = "www.".data || domainScan (l.length + 1) false l

/-- `is_valid_url_component`. -/
def is_valid_url_component (text : String) : Bool :=
  let t := pyStripL text.data
  if t.length < 5 || !t.contains '.' then false
  else if t.any unallowedUrlChar then false
  else urlStartOk t

/-- `URL_SPLIT_PATTERN.split` (pieces between unallowed characters,
empties included). -/
def splitOnUnallowedAux : List Char → List Char → List (List Char)
  | acc, [] => [acc.reverse]
  | acc, c :: r =>
      if unallowedUrlChar c then acc.reverse :: splitOnUnallowedAux [] r
      else splitOnUnallowedAux (c :: acc) r

/-- `clean_url_by_splitting`. -/
def clean_url_by_splitting (potential : String) : String :=
  if potential = "" then ""
  else
    let parts := splitOnUnallowedAux [] potential.data
    match parts.find? (fun p => is_valid_url_component ⟨p⟩) with
    | some p => ⟨pyStripL p⟩
    | none => ""

/-! ### `correct_npl_mistakes` -/

/-- The LLM reference record: `title, author, publisher, publication_date,
volume, pages, url`; `none` models an absent key or a `None` value. -/
structure Reference where
  title : Option String
  author : Option (List String)
  publisher : Option String
  publication_date : Option String
  volume : Option String
  pages : Option String
  url : Option String
deriving DecidableEq, Repr

def wordCount (s : String) : Nat := (pySplitWs s.data).length

def startsWithAny (s : String) (pres : List String) : Bool :=
  pres.any (fun p => s.data.take p.length = p.data)

/-- Python `needle in hay` on strings. -/
def substrCheck (needle hay : List Char) : Bool :=
  (List.range (hay.length + 1)).any (fun i => (hay.drop i).take needle.length = needle)

/-- Heuristic 1 (title/publisher swap); also returns the `title` local
variable used later by heuristic 5. -/
def h1 (r : Reference) (corr : Bool) : Reference × String × Bool :=
  let title := pyStrip (r.title.getD "")
  let publisher := pyStrip (r.publisher.getD "")
  let wc := wordCount title
  if 0 < wc && wc < 4 && publisher = "" then
    if startsWithAny (pyLowerS title)
        ["the", "j.", "journal", "nature", "science", "biochemistry"] then
      ({ r with publisher := some title, title := some "" }, "", true)
    else (r, title, corr)
  else (r, title, corr)

/-- Heuristics 2 and 3 (DOI URL repair/completion).  The `url` local is read
before heuristic 1 in the source, but heuristic 1 never writes `url`, so
reading it here is equivalent. -/
def h23 (r : Reference) (corr : Bool) : Reference × Bool :=
  let url := pyStrip (r.url.getD "")
  if url ≠ "" then
    if startsWithAny (pyLowerS url) ["doi:"] then
      ({ r with url := some ("https://doi.org/" ++ (pyStrip ⟨url.data.drop 4⟩).data.asString) }, true)
    else if startsWithAny url ["10."] && !(startsWithAny (pyLowerS url) ["http"]) then
      ({ r with url := some ("https://doi.org/" ++ url) }, true)
    else (r, corr)
  else (r, corr)

/-- Heuristic 4 (URL splitting/cleanup). -/
def h4 (r : Reference) (corr : Bool) : Reference × Bool :=
  match r.url with
  | some u =>
      if u ≠ "" then
        let orig := pyStrip u
        let cleaned := clean_url_by_splitting orig
        if orig ≠ cleaned then ({ r with url := some cleaned }, true) else (r, corr)
      else (r, corr)
  | none => (r, corr)

/-- Heuristic 5 (clear a title that contains the single author). -/
def h5 (r : Reference) (titleLoc : String) (corr : Bool) : Reference × Bool :=
  match r.author with
  | some authors =>
      if authors ≠ [] && authors.length = 1 && titleLoc ≠ "" then
        let nameClean := pyLowerS (pyStrip (authors.headD ""))
        let titleClean := pyLowerS (pyStrip titleLoc)
        if 2 ≤ nameClean.length && substrCheck nameClean.data titleClean.data then
          ({ r with title := some "" }, true)
        else (r, corr)
      else (r, corr)
  | none => (r, corr)

/-- Heuristic 6 (date standardization). -/
def h6 (r : Reference) (corr : Bool) : Reference × Bool :=
  let original := pyStrip (r.publication_date.getD "")
  if original ≠ "" then
    match standardize_date original with
    | (some t, true) =>
        ({ r with publication_date := some t }, if original ≠ t then true else corr)
    | _ => (r, corr)
  else (r, corr)

/-- Heuristic 7 (remove a too-short publisher). -/
def h7 (r : Reference) (corr : Bool) : Reference × Bool :=
  let publisher := pyStrip (r.publisher.getD "")
  if publisher ≠ "" && publisher.length < 4 then ({ r with publisher := some "" }, true)
  else (r, corr)

/-- Heuristic 8 (remove a too-short title). -/
def h8 (r : Reference) (corr : Bool) : Reference × Bool :=
  let title := pyStrip (r.title.getD "")
  if title ≠ "" && title.length < 4 then ({ r with title := some "" }, true)
  else (r, corr)

/-- `correct_npl_mistakes`: the fixed heuristic pipeline; returns the
mutated record and the `corrected` flag. -/
def correct_npl_mistakes (reference : Reference) : Reference × Bool :=
  let s1 := h1 reference false
  let s2 := h23 s1.1 s1.2.2
  let s3 := h4 s2.1 s2.2
  let s4 := h5 s3.1 s1.2.1 s3.2
  let s5 := h6 s4.1 s4.2
  let s6 := h7 s5.1 s5.2
  h8 s6.1 s6.2

end CitEx

namespace CitEx

/-- The firing condition of every heuristic of `correct_npl_mistakes` is
false: such a record is a fixed point of the whole pipeline. -/
def HStable (q : Reference) : Prop :=
  (¬(0 < wordCount (pyStrip (q.title.getD "")) ∧
     wordCount (pyStrip (q.title.getD "")) < 4 ∧
     pyStrip (q.publisher.getD "") = "" ∧
     startsWithAny (pyLowerS (pyStrip (q.title.getD "")))
       ["the", "j.", "journal", "nature", "science", "biochemistry"] = true)) ∧
  pyStrip (q.url.getD "") = "" ∧
  (∀ authors, q.author = some authors →
    ¬(authors ≠ [] ∧ authors.length = 1 ∧ pyStrip (q.title.getD "") ≠ "" ∧
      2 ≤ (pyLowerS (pyStrip (authors.headD ""))).length ∧
      substrCheck (pyLowerS (pyStrip (authors.headD ""))).data
        (pyLowerS (pyStrip (pyStrip (q.title.getD "")))).data = true)) ∧
  (pyStrip (q.publication_date.getD "") = "" ∨
    (standardize_date (pyStrip (q.publication_date.getD ""))).2 = false) ∧
  (pyStrip (q.publisher.getD "") = "" ∨ 4 ≤ (pyStrip (q.publisher.getD "")).length) ∧
  (pyStrip (q.title.getD "") = "" ∨ 4 ≤ (pyStrip (q.title.getD "")).length)

/-- The scenario input of claim C4. -/
def c4Input : String :=
  "Compound XYZ is disclosed in WO 2016/066651 A1 and provides improved stability.\n\nA second embodiment follows."


/-! ## C1 auxiliary definitions -/

/-- The characters that the splitter is allowed to discard are whitespace,
the dot-rule delimiter `.`, and the arrow-rule characters `-` and `>`;
`keepC` selects the complement ("solid" content). -/
def keepC (c : Char) : Bool :=
  !pyIsSpace c && !(c = '.') && !(c = '-') && !(c = '>')

/-- First letters (lowercased) of the twelve `PATENT_ID_REGEX` alternatives:
a string free of these characters cannot contain a patent identifier. -/
def patentTrigger (c : Char) : Bool :=
  pyLower c = 'w' || pyLower c = 'p' || pyLower c = 'e' || pyLower c = 'u' ||
  pyLower c = 'j' || pyLower c = 'c' || pyLower c = 'd' || pyLower c = 'g'

/-- The character class a regex must match first (looking through `seq`,
`grp` and a leading word boundary). -/
def headCls : RE → Option (Char → Bool)
  | .cls p => some p
  | .seq .wordB b => headCls b
  | .seq a _ => headCls a
  | .grp _ a => headCls a
  | _ => none

/-- Concatenated character content of a list of parts. -/
def joinData (ps : List String) : List Char := (ps.map String.data).flatten


/-! ## Proofs -/

set_option maxRecDepth 1000000

/-! ### Frame lemmas for the correction heuristics (C10) -/

theorem h1_frame (r : Reference) (c : Bool) :
    (h1 r c).1.author = r.author ∧ (h1 r c).1.volume = r.volume ∧
      (h1 r c).1.pages = r.pages := by
  unfold h1
  dsimp only
  refine ⟨?_, ?_, ?_⟩ <;> (repeat' split) <;> rfl

theorem h23_frame (r : Reference) (c : Bool) :
    (h23 r c).1.author = r.author ∧ (h23 r c).1.volume = r.volume ∧
      (h23 r c).1.pages = r.pages := by
  unfold h23
  dsimp only
  refine ⟨?_, ?_, ?_⟩ <;> (repeat' split) <;> rfl

theorem h4_frame (r : Reference) (c : Bool) :
    (h4 r c).1.author = r.author ∧ (h4 r c).1.volume = r.volume ∧
      (h4 r c).1.pages = r.pages := by
  unfold h4
  dsimp only
  refine ⟨?_, ?_, ?_⟩ <;> (repeat' split) <;> rfl

theorem h5_frame (r : Reference) (t : String) (c : Bool) :
    (h5 r t c).1.author = r.author ∧ (h5 r t c).1.volume = r.volume ∧
      (h5 r t c).1.pages = r.pages := by
  unfold h5
  dsimp only
  refine ⟨?_, ?_, ?_⟩ <;> (repeat' split) <;> rfl

theorem h6_frame (r : Reference) (c : Bool) :
    (h6 r c).1.author = r.author ∧ (h6 r c).1.volume = r.volume ∧
      (h6 r c).1.pages = r.pages := by
  unfold h6
  dsimp only
  refine ⟨?_, ?_, ?_⟩ <;> (repeat' split) <;> rfl

theorem h7_frame (r : Reference) (c : Bool) :
    (h7 r c).1.author = r.author ∧ (h7 r c).1.volume = r.volume ∧
      (h7 r c).1.pages = r.pages := by
  unfold h7
  dsimp only
  refine ⟨?_, ?_, ?_⟩ <;> (repeat' split) <;> rfl

theorem h8_frame (r : Reference) (c : Bool) :
    (h8 r c).1.author = r.author ∧ (h8 r c).1.volume = r.volume ∧
      (h8 r c).1.pages = r.pages := by
  unfold h8
  dsimp only
  refine ⟨?_, ?_, ?_⟩ <;> (repeat' split) <;> rfl

/-- C10: `correct_npl_mistakes` never writes the `author`, `volume` or
`pages` fields: only `title`, `publisher`, `url` and `publication_date` are
ever assigned by the heuristics. -/
theorem correct_npl_mistakes_frame (r : Reference) :
    (correct_npl_mistakes r).1.author = r.author ∧
    (correct_npl_mistakes r).1.volume = r.volume ∧
    (correct_npl_mistakes r).1.pages = r.pages := by
  unfold correct_npl_mistakes
  dsimp only
  refine ⟨?_, ?_, ?_⟩
  · rw [(h8_frame _ _).1, (h7_frame _ _).1, (h6_frame _ _).1, (h5_frame _ _ _).1,
        (h4_frame _ _).1, (h23_frame _ _).1, (h1_frame _ _).1]
  · rw [(h8_frame _ _).2.1, (h7_frame _ _).2.1, (h6_frame _ _).2.1, (h5_frame _ _ _).2.1,
        (h4_frame _ _).2.1, (h23_frame _ _).2.1, (h1_frame _ _).2.1]
  · rw [(h8_frame _ _).2.2, (h7_frame _ _).2.2, (h6_frame _ _).2.2, (h5_frame _ _ _).2.2,
        (h4_frame _ _).2.2, (h23_frame _ _).2.2, (h1_frame _ _).2.2]

end CitEx

namespace CitEx

/-! ### Digit-string lemmas for the `ddmmyyyy` format (C2) -/

theorem natDigsAux_digits (fuel n : Nat) : ∀ c ∈ natDigsAux fuel n, c.isDigit := by
  induction fuel generalizing n with
  | zero => simp [natDigsAux]
  | succ f ih =>
      intro c hc
      unfold natDigsAux at hc
      split at hc
      · simp only [List.mem_singleton] at hc
        subst hc
        rename_i h
        interval_cases n <;> decide
      · rcases List.mem_append.1 hc with h | h
        · exact ih _ _ h
        · simp only [List.mem_singleton] at h
          subst h
          have : n % 10 < 10 := Nat.mod_lt _ (by omega)
          set m := n % 10
          interval_cases m <;> decide

theorem natDigsAux_len (fuel n k : Nat) (hn : n < 10 ^ k) (hk : 1 ≤ k) :
    (natDigsAux fuel n).length ≤ k := by
  induction fuel generalizing n k with
  | zero => simp [natDigsAux]
  | succ f ih =>
      unfold natDigsAux
      split
      · simpa using hk
      · rename_i h
        push_neg at h
        have hk2 : 2 ≤ k := by
          by_contra hc
          push_neg at hc
          interval_cases k
          simp at hn
          omega
        have hpow : 10 ^ k = 10 ^ (k - 1) * 10 := by
          conv_lhs => rw [show k = (k - 1) + 1 by omega]
          ring
        have hdiv : n / 10 < 10 ^ (k - 1) := by
          rw [hpow] at hn
          exact Nat.div_lt_of_lt_mul (by omega)
        have := ih (n / 10) (k - 1) hdiv (by omega)
        simp only [List.length_append, List.length_singleton]
        omega

theorem pyPad_len (w n : Nat) (hn : n < 10 ^ w) (hw : 1 ≤ w) :
    (pyPad w n).length = w := by
  unfold pyPad natDigs
  have h1 := natDigsAux_len (n + 1) n w hn hw
  have h2 : 1 ≤ (natDigsAux (n + 1) n).length := by
    cases n with
    | zero => decide
    | succ m =>
        unfold natDigsAux
        split <;> simp
  simp only [List.length_append, List.length_replicate]
  omega

theorem pyPad_digits (w n : Nat) : ∀ c ∈ pyPad w n, c.isDigit := by
  unfold pyPad natDigs
  intro c hc
  rcases List.mem_append.1 hc with h | h
  · rw [List.eq_of_mem_replicate h]; decide
  · exact natDigsAux_digits _ _ _ h

end CitEx

namespace CitEx

open DateExtractor in
/-- Validity invariant carried through the priority cascade. -/
def DInv (cy : Nat) (st : DState) : Prop :=
  (∀ d, st.day = some d → d ≤ 31) ∧ (∀ m, st.month = some m → m ≤ 12) ∧
  (∀ y, st.year = some y → 1900 ≤ y ∧ y ≤ cy)

namespace DateExtractor

theorem valid_year_le {cy y : Nat} (h : _is_valid_year cy y = true) :
    1900 ≤ y ∧ y ≤ cy := by
  simpa [_is_valid_year, MIN_YEAR] using h

theorem valid_day_le {d : Nat} (h : _is_valid_day d = true) : d ≤ 31 := by
  simp [_is_valid_day] at h; omega

theorem valid_month_le {m : Nat} (h : _is_valid_month m = true) : m ≤ 12 := by
  simp [_is_valid_month] at h; omega

theorem admitDMY_inv {cy : Nat} {d y : Nat} {mv : Option Nat} {st : DState}
    (h : DInv cy st) : DInv cy (admitDMY cy d mv y st) := by
  unfold admitDMY
  obtain ⟨hd, hm, hy⟩ := h
  split
  · rename_i hyv
    split
    · rename_i m hmv
      split
      · rename_i hmval
        split
        · rename_i hdval
          exact ⟨fun d' hd' => by cases hd'; exact valid_day_le hdval,
                 fun m' hm' => by cases hm'; exact valid_month_le hmval,
                 fun y' hy' => by cases hy'; exact valid_year_le hyv⟩
        · exact ⟨hd, fun m' hm' => by cases hm'; exact valid_month_le hmval,
                 fun y' hy' => by cases hy'; exact valid_year_le hyv⟩
      · exact ⟨hd, hm, fun y' hy' => by cases hy'; exact valid_year_le hyv⟩
    · exact ⟨hd, hm, fun y' hy' => by cases hy'; exact valid_year_le hyv⟩
  · exact ⟨hd, hm, hy⟩

theorem prio1_inv {cy : Nat} {l : List Char} {st : DState} (h : DInv cy st) :
    DInv cy (prio1 cy l st) := by
  unfold prio1
  split
  · exact admitDMY_inv h
  · exact h

theorem prio2_inv {cy : Nat} {l : List Char} {hr : Bool} {st : DState}
    (h : DInv cy st) : DInv cy (prio2 cy l hr st) := by
  unfold prio2
  obtain ⟨hd, hm, hy⟩ := h
  split
  · split
    · split
      · dsimp only
        split
        · rename_i hyv
          exact ⟨hd, hm, fun y' hy' => by cases hy'; exact valid_year_le hyv⟩
        · exact ⟨hd, hm, hy⟩
      · exact ⟨hd, hm, hy⟩
    · split
      · exact admitDMY_inv ⟨hd, hm, hy⟩
      · exact ⟨hd, hm, hy⟩
  · exact ⟨hd, hm, hy⟩

theorem prio3_inv {cy : Nat} {l : List Char} {st : DState} (h : DInv cy st) :
    DInv cy (prio3 cy l st) := by
  unfold prio3
  split
  · split
    · exact admitDMY_inv h
    · exact h
  · exact h

theorem prio4r_inv {cy : Nat} {l : List Char} {st : DState} (h : DInv cy st) :
    DInv cy (prio4r cy l st) := by
  unfold prio4r
  split
  · split
    · exact admitDMY_inv h
    · exact h
  · exact h

theorem prio4_inv {cy : Nat} {l : List Char} {st : DState} (h : DInv cy st) :
    DInv cy (prio4 cy l st) := by
  unfold prio4
  split
  · split
    · exact admitDMY_inv h
    · exact h
  · exact h

theorem prio5_inv {cy : Nat} {l : List Char} {st : DState} (h : DInv cy st) :
    DInv cy (prio5 cy l st) := by
  unfold prio5
  obtain ⟨hd, hm, hy⟩ := h
  split
  · split
    · dsimp only
      split
      · rename_i hyv
        exact ⟨hd, hm, fun y' hy' => by cases hy'; exact valid_year_le hyv⟩
      · exact ⟨hd, hm, hy⟩
    · exact ⟨hd, hm, hy⟩
  · exact ⟨hd, hm, hy⟩

theorem prio6_inv {cy : Nat} {l : List Char} {st : DState} (h : DInv cy st) :
    DInv cy (prio6 cy l st) := by
  unfold prio6
  obtain ⟨hd, hm, hy⟩ := h
  split
  · split
    · dsimp only
      split
      · rename_i hv
        rw [Bool.and_eq_true] at hv
        exact ⟨hd, fun m' hm' => by cases hm'; exact valid_month_le hv.2,
               fun y' hy' => by cases hy'; exact valid_year_le hv.1⟩
      · exact ⟨hd, hm, hy⟩
    · exact ⟨hd, hm, hy⟩
  · exact ⟨hd, hm, hy⟩

theorem prio7_inv {cy : Nat} {l : List Char} {st : DState} (h : DInv cy st) :
    DInv cy (prio7 cy l st) := by
  unfold prio7
  obtain ⟨hd, hm, hy⟩ := h
  split
  · split
    · dsimp only
      split
      · rename_i hyv
        split
        · split
          · rename_i hmval
            exact ⟨hd, fun m' hm' => by cases hm'; exact valid_month_le hmval,
                   fun y' hy' => by cases hy'; exact valid_year_le hyv⟩
          · exact ⟨hd, hm, fun y' hy' => by cases hy'; exact valid_year_le hyv⟩
        · exact ⟨hd, hm, fun y' hy' => by cases hy'; exact valid_year_le hyv⟩
      · exact ⟨hd, hm, hy⟩
    · exact ⟨hd, hm, hy⟩
  · exact ⟨hd, hm, hy⟩
theorem prio8_inv {cy : Nat} {l : List Char} {st : DState} (h : DInv cy st) :
    DInv cy (prio8 cy l st) := by
  unfold prio8
  obtain ⟨hd, hm, hy⟩ := h
  split
  · split
    · dsimp only
      split
      · rename_i hyv
        split
        · split
          · rename_i hmval
            exact ⟨hd, fun m' hm' => by cases hm'; exact valid_month_le hmval,
                   fun y' hy' => by cases hy'; exact valid_year_le hyv⟩
          · exact ⟨hd, hm, fun y' hy' => by cases hy'; exact valid_year_le hyv⟩
        · exact ⟨hd, hm, fun y' hy' => by cases hy'; exact valid_year_le hyv⟩
      · exact ⟨hd, hm, hy⟩
    · exact ⟨hd, hm, hy⟩
  · exact ⟨hd, hm, hy⟩
theorem prio9_inv {cy : Nat} {l : List Char} {st st' : DState} (h : DInv cy st)
    (he : prio9 cy l st = some st') : DInv cy st' := by
  unfold prio9 at he
  obtain ⟨hd, hm, hy⟩ := h
  split at he
  · rename_i hguard
    try dsimp only at he
    -- the ymd sub-state satisfies the invariant
    have hinvYmd : DInv cy (match reSearch p9YmdRE l with
       | some (_, _, cs) =>
          let py := toNatL (grpStr l cs 1)
          let pm := toNatL (grpStr l cs 2)
          let pd := toNatL (grpStr l cs 3)
          if _is_valid_year cy py && _is_valid_month pm && _is_valid_day pd then
            (⟨some pd, some pm, some py⟩ : DState)
          else st
       | none => st) := by
      split
      · try dsimp only
        split
        · rename_i hv
          rw [Bool.and_eq_true, Bool.and_eq_true] at hv
          exact ⟨fun d' hd' => by cases hd'; exact valid_day_le hv.2,
                 fun m' hm' => by cases hm'; exact valid_month_le hv.1.2,
                 fun y' hy' => by cases hy'; exact valid_year_le hv.1.1⟩
        · exact ⟨hd, hm, hy⟩
      · exact ⟨hd, hm, hy⟩
    split at he
    · -- dmy search attempted
      split at he
      · rename_i cs heq
        try dsimp only at he
        split at he
        · rename_i hyv
          split at he
          · exact absurd he (by simp)
          · split at he
            · rename_i hv1
              cases he
              rw [Bool.and_eq_true] at hv1
              exact ⟨fun d' hd' => by cases hd'; exact valid_day_le hv1.2,
                     fun m' hm' => by cases hm'; exact valid_month_le hv1.1,
                     fun y' hy' => by cases hy'; exact valid_year_le hyv⟩
            · split at he
              · rename_i hv2
                cases he
                rw [Bool.and_eq_true] at hv2
                exact ⟨fun d' hd' => by cases hd'; exact valid_day_le hv2.2,
                       fun m' hm' => by cases hm'; exact valid_month_le hv2.1,
                       fun y' hy' => by cases hy'; exact valid_year_le hyv⟩
              · split at he
                · rename_i hv3
                  cases he
                  exact ⟨hinvYmd.1, fun m' hm' => by cases hm'; exact valid_month_le hv3,
                         fun y' hy' => by cases hy'; exact valid_year_le hyv⟩
                · split at he
                  · rename_i hv4
                    cases he
                    exact ⟨hinvYmd.1, fun m' hm' => by cases hm'; exact valid_month_le hv4,
                           fun y' hy' => by cases hy'; exact valid_year_le hyv⟩
                  · cases he
                    exact ⟨hinvYmd.1, hinvYmd.2.1,
                           fun y' hy' => by cases hy'; exact valid_year_le hyv⟩
        · cases he
          exact hinvYmd
      · cases he
        exact hinvYmd
    · cases he
      exact hinvYmd
  · cases he
    exact ⟨hd, hm, hy⟩

theorem foldl_max_ge (l : List Nat) (a : Nat) : a ≤ l.foldl Nat.max a := by
  induction l generalizing a with
  | nil => exact Nat.le_refl a
  | cons y t ih => exact Nat.le_trans (Nat.le_max_left a y) (ih (Nat.max a y))

theorem le_foldl_max (l : List Nat) {x : Nat} (hx : x ∈ l) :
    ∀ a, x ≤ l.foldl Nat.max a := by
  induction l with
  | nil => cases hx
  | cons y t ih =>
      intro a
      rw [List.foldl_cons]
      rcases List.mem_cons.1 hx with h | h
      · subst h
        exact Nat.le_trans (Nat.le_max_right a x) (foldl_max_ge t (Nat.max a x))
      · exact ih h (Nat.max a y)

theorem foldl_max_le {c : Nat} (l : List Nat) (a : Nat) (ha : a ≤ c)
    (h : ∀ x ∈ l, x ≤ c) : l.foldl Nat.max a ≤ c := by
  induction l generalizing a with
  | nil => exact ha
  | cons y t ih =>
      exact ih (Nat.max a y) (Nat.max_le.2 ⟨ha, h y (List.mem_cons_self y t)⟩)
        (fun x hx => h x (List.mem_cons_of_mem y hx))

theorem prio11_inv {cy : Nat} {l : List Char} {st : DState} (h : DInv cy st) :
    DInv cy (prio11 cy l st) := by
  unfold prio11
  obtain ⟨hd, hm, hy⟩ := h
  split
  · dsimp only
    split
    · exact ⟨hd, hm, hy⟩
    · rename_i hne
      refine ⟨hd, hm, fun y' hy' => ?_⟩
      cases hy'
      have hall : ∀ x ∈ ((reFindIter yearAnyRE l).map
          (fun m => toNatL (grpStr l m.2.2 1))).filter (fun y => _is_valid_year cy y),
          1900 ≤ x ∧ x ≤ cy := fun x hx => valid_year_le (List.of_mem_filter hx)
      obtain ⟨z, hz⟩ := List.exists_mem_of_ne_nil _ hne
      constructor
      · exact Nat.le_trans (hall z hz).1 (le_foldl_max _ hz 0)
      · exact foldl_max_le _ 0 (Nat.zero_le cy) (fun x hx => (hall x hx).2)
  · exact ⟨hd, hm, hy⟩

theorem prio12_inv {cy : Nat} {l : List Char} {st : DState} (h : DInv cy st) :
    DInv cy (prio12 cy l st) := by
  unfold prio12
  obtain ⟨hd, hm, hy⟩ := h
  split
  · split
    · dsimp only
      split
      · rename_i hv
        rw [Bool.and_eq_true] at hv
        exact ⟨hd, hm, fun y' hy' => by cases hy'; exact valid_year_le hv.1⟩
      · exact ⟨hd, hm, hy⟩
    · exact ⟨hd, hm, hy⟩
  · exact ⟨hd, hm, hy⟩

theorem prio13_inv {cy : Nat} {l : List Char} {st : DState} (h : DInv cy st) :
    DInv cy (prio13 cy l st) := by
  unfold prio13
  obtain ⟨hd, hm, hy⟩ := h
  split
  · split
    · dsimp only
      split
      · rename_i hv
        exact ⟨hd, hm, fun y' hy' => by cases hy'; exact valid_year_le hv⟩
      · exact ⟨hd, hm, hy⟩
    · exact ⟨hd, hm, hy⟩
  · exact ⟨hd, hm, hy⟩

theorem prio14_inv {cy : Nat} {l : List Char} {st : DState} (h : DInv cy st) :
    DInv cy (prio14 cy l st) := by
  unfold prio14
  obtain ⟨hd, hm, hy⟩ := h
  split
  · dsimp only
    split
    · rename_i y hfind
      exact ⟨hd, hm, fun y' hy' => by cases hy'; exact valid_year_le (List.find?_some hfind)⟩
    · exact ⟨hd, hm, hy⟩
  · exact ⟨hd, hm, hy⟩

theorem prio15_inv {cy : Nat} {l : List Char} {st : DState} (h : DInv cy st) :
    DInv cy (prio15 cy l st) := by
  unfold prio15
  obtain ⟨hd, hm, hy⟩ := h
  split
  · split
    · dsimp only
      split
      · rename_i hv
        exact ⟨hd, hm, fun y' hy' => by cases hy'; exact valid_year_le hv⟩
      · exact ⟨hd, hm, hy⟩
    · exact ⟨hd, hm, hy⟩
  · exact ⟨hd, hm, hy⟩

theorem prio10_inv {cy : Nat} {l : List Char} {st : DState} (h : DInv cy st) :
    DInv cy (prio10 cy l st) := by
  unfold prio10
  obtain ⟨hd, hm, hy⟩ := h
  split
  · split
    · dsimp only
      split
      · rename_i hv
        rw [Bool.and_eq_true, Bool.and_eq_true] at hv
        exact ⟨hd, fun m' hm' => by cases hm'; exact valid_month_le hv.2,
               fun y' hy' => by cases hy'; exact valid_year_le hv.1.2⟩
      · exact ⟨hd, hm, hy⟩
    · exact ⟨hd, hm, hy⟩
  · exact ⟨hd, hm, hy⟩

theorem fmtDstate_ok {cy : Nat} (hcy : cy ≤ 9999) {st : DState} {y : Nat}
    (hinv : DInv cy st) (hy : st.year = some y) :
    (fmtDstate st y).length = 8 ∧ ∀ c ∈ (fmtDstate st y).data, c.isDigit := by
  obtain ⟨hd, hm, hys⟩ := hinv
  have hyb := hys y hy
  have yearPart : (pyPad 4 y).length = 4 ∧ ∀ c ∈ pyPad 4 y, c.isDigit :=
    ⟨pyPad_len 4 y (by norm_num; omega) (by omega), pyPad_digits 4 y⟩
  have dayPart : ∃ ds : List Char,
      (match st.day with
       | some d => if d = 0 then "00".data else pyPad 2 d
       | none => "00".data) = ds ∧ ds.length = 2 ∧ ∀ c ∈ ds, c.isDigit := by
    match hstd : st.day with
    | none => exact ⟨"00".data, rfl, rfl, by decide⟩
    | some d =>
        by_cases hd0 : d = 0
        · exact ⟨"00".data, by simp [hd0], rfl, by decide⟩
        · refine ⟨pyPad 2 d, by simp [hd0], ?_, pyPad_digits 2 d⟩
          have := hd d hstd
          exact pyPad_len 2 d (by norm_num; omega) (by omega)
  have monthPart : ∃ ms : List Char,
      (match st.month with
       | some m => if m = 0 then "00".data else pyPad 2 m
       | none => "00".data) = ms ∧ ms.length = 2 ∧ ∀ c ∈ ms, c.isDigit := by
    match hstm : st.month with
    | none => exact ⟨"00".data, rfl, rfl, by decide⟩
    | some m =>
        by_cases hm0 : m = 0
        · exact ⟨"00".data, by simp [hm0], rfl, by decide⟩
        · refine ⟨pyPad 2 m, by simp [hm0], ?_, pyPad_digits 2 m⟩
          have := hm m hstm
          exact pyPad_len 2 m (by norm_num; omega) (by omega)
  obtain ⟨ds, hds, dsl, dsd⟩ := dayPart
  obtain ⟨ms, hms, msl, msd⟩ := monthPart
  unfold fmtDstate
  dsimp only
  rw [hds, hms]
  constructor
  · show (ds ++ ms ++ pyPad 4 y).length = 8
    rw [List.length_append, List.length_append, dsl, msl, yearPart.1]
  · intro c hc
    have hc' : c ∈ ds ++ ms ++ pyPad 4 y := hc
    simp only [List.mem_append] at hc'
    rcases hc' with (hc' | hc') | hc'
    · exact dsd c hc'
    · exact msd c hc'
    · exact yearPart.2 c hc'

end DateExtractor

end CitEx

namespace CitEx

/-- C2: for every input string, `DateExtractor.extract` returns a string of
exactly 8 characters, each an ASCII digit: every candidate day is gated to
`1..31`, every month to `1..12` and every year to `1900..CURRENT_YEAR`
before being stored, and the final formatting pads day and month to two
digits and the year to four (`"00000000"` is the no-date sentinel). -/
theorem extract_always_eight_digits (cy : Nat) (hcy : cy ≤ 9999) (s : String) :
    (DateExtractor.extract cy s).length = 8 ∧
      ∀ c ∈ (DateExtractor.extract cy s).data, c.isDigit := by
  unfold DateExtractor.extract
  split
  · exact ⟨rfl, by decide⟩
  · dsimp only
    split
    · exact ⟨rfl, by decide⟩
    · have base : DInv cy ⟨none, none, none⟩ := by
        unfold DInv
        exact And.intro (fun d hd => by cases hd)
          (And.intro (fun m hm => by cases hm) (fun y hy => by cases hy))
      have i8 := @DateExtractor.prio8_inv cy s.data _ (@DateExtractor.prio7_inv cy s.data _
        (@DateExtractor.prio6_inv cy s.data _ (@DateExtractor.prio5_inv cy s.data _
        (@DateExtractor.prio4_inv cy s.data _
        (@DateExtractor.prio4r_inv cy s.data _ (@DateExtractor.prio3_inv cy s.data _
        (@DateExtractor.prio2_inv cy s.data
          ((reSearch DateExtractor.dateRangeRE s.data).isSome) _
        (@DateExtractor.prio1_inv cy s.data _ base))))))))
      split
      · exact ⟨rfl, by decide⟩
      · rename_i st9 he
        have i9 := DateExtractor.prio9_inv i8 he
        have i15 := @DateExtractor.prio15_inv cy s.data _ (@DateExtractor.prio14_inv cy s.data _
          (@DateExtractor.prio13_inv cy s.data _ (@DateExtractor.prio12_inv cy s.data _
          (@DateExtractor.prio11_inv cy s.data _ (@DateExtractor.prio10_inv cy s.data _ i9)))))
        split
        · exact ⟨rfl, by decide⟩
        · rename_i y hy
          exact DateExtractor.fmtDstate_ok hcy i15 hy

/-- Witness for C2 at a concrete year bound and input. -/
theorem extract_always_eight_digits_witness :
    2026 ≤ 9999 ∧
      ((DateExtractor.extract 2026 "15 January 2025").length = 8 ∧
        ∀ c ∈ (DateExtractor.extract 2026 "15 January 2025").data, c.isDigit) :=
  ⟨by decide, extract_always_eight_digits 2026 (by decide) "15 January 2025"⟩

/-- C7 counterexample: on the input `"2001-2007"` — a pure year range with
both years valid — `extract` returns `"00002007"` (the maximum year, from
the all-years scan tier), not `"00002001"` (the first year) as the claim
states. -/
theorem extract_year_range_not_first :
    DateExtractor.extract 2026 "2001-2007" = "00002007" ∧
      DateExtractor.extract 2026 "2001-2007" ≠ "00002001" := by
  have h : DateExtractor.extract 2026 "2001-2007" = "00002007" := by decide
  refine ⟨h, ?_⟩
  rw [h]
  decide

/-- C7 amended: the all-years scan (code priority 11) runs before the
year-range tier (code priority 12), so a valid year range resolves to its
maximum year: `extract "2001-2007" = "00002007"`. -/
theorem extract_year_range_takes_max :
    DateExtractor.extract 2026 "2001-2007" = "00002007" := by
  decide

end CitEx

namespace CitEx

/-! ### C8: empty and whitespace-only input -/

theorem cascading_split_empty (methods : List (String → List String)) (t : String)
    (h : pyStrip t = "") : cascading_split t methods = [] := by
  unfold cascading_split
  rw [h]
  rw [if_pos (by decide : ("" : String).isEmpty = true)]

/-- C8: for empty or whitespace-only input the splitter returns the empty
list (zero elements), not `[""]`; the embedding is a total function, so no
input can raise.  (The Python `text is None` guard is outside the `String`
model.) -/
theorem split_and_clean_whitespace_empty (t : String) (h : pyStrip t = "") :
    split_and_clean_paragraph t = [] := by
  unfold split_and_clean_paragraph
  dsimp only
  rw [show pyStrip t = "" from h, cascading_split_empty _ _ (by decide)]
  rfl

/-- Witness for C8 on concrete whitespace-only and empty inputs. -/
theorem split_and_clean_whitespace_empty_witness :
    split_and_clean_paragraph " \t\n " = [] ∧ split_and_clean_paragraph "" = [] :=
  ⟨split_and_clean_whitespace_empty " \t\n " (by decide),
   split_and_clean_whitespace_empty "" (by decide)⟩

/-! ### C5: no-op behaviour of the split rules on no-match input -/

theorem gchopAux_noStep (step : List Char → Option ChopStep) :
    ∀ (fuel : Nat) (l acc : List Char), (∀ i, step (l.drop i) = none) →
      gchopAux step fuel 0 acc l = [acc.reverse ++ l] := by
  intro fuel
  induction fuel with
  | zero => intro l acc _; rfl
  | succ f ih =>
      intro l acc hs
      have h0 : step l = none := by simpa using hs 0
      match l with
      | [] =>
          simp only [gchopAux, h0]
          simp
      | c :: l' =>
          simp only [gchopAux, h0]
          rw [ih l' (c :: acc) (fun i => by simpa using hs (i + 1))]
          simp

theorem gchop_noStep (step : List Char → Option ChopStep) (l : List Char)
    (hs : ∀ i < l.length + 1, step (l.drop i) = none) : gchop step l = [l] := by
  have hs' : ∀ i, step (l.drop i) = none := by
    intro i
    rcases Nat.lt_or_ge i (l.length + 1) with h | h
    · exact hs i h
    · have h1 : l.drop i = [] := List.drop_eq_nil_of_le (by omega)
      have h2 : l.drop l.length = [] := List.drop_eq_nil_of_le (by omega)
      rw [h1, ← h2]
      exact hs l.length (by omega)
  unfold gchop
  rw [gchopAux_noStep step _ l [] hs']
  rfl

theorem assembleParts_single (text : String) (l : List Char) :
    assembleParts text [l] = [text] := by
  unfold assembleParts
  by_cases h : (pyStripL l).isEmpty <;>
    simp [h, List.dropLast, List.getLastD]

/-- C5 counterexample: the claim fails for two of the rules.  The
dot-double-newline rule, given `"abc"` (which contains no
period-plus-double-newline break: its chopper finds no delimiter), returns
`["abc."]` — the input stripped and with a terminal period appended — not
`["abc"]`; and the example-phrase rule strips its input even with no match:
on `" abc"` it returns `["abc"]`. -/
theorem split_rule_unmodified_false :
    gchop dotNlStep (pyNorm "abc".data) = [(pyNorm "abc".data)] ∧
    split_paragraph_on_dot_double_newline "abc" = ["abc."] ∧
    ["abc."] ≠ ["abc"] ∧
    split_by_specific_example_phrase " abc" = ["abc"] ∧
    (["abc"] : List String) ≠ [" abc"] := by
  refine ⟨by decide, by decide, by decide, by decide, by decide⟩

/-- C5 amended: eight of the ten rules (all but the dot-double-newline rule
and the example-phrase rule, which normalize/strip even without a match)
return the single-element list `[text]` with the input unmodified whenever
their pattern finds no match anywhere in the (normalized) input. -/
theorem split_rules_noop_on_no_match :
    (∀ t : String, reFindIter patentIdRE t.data = [] →
        split_paragraph_on_patent_number t = [t]) ∧
    (∀ t : String, (∀ i < (pyNorm t.data).length + 1, pdStep ((pyNorm t.data).drop i) = none) →
        split_paragraph_on_punctuation_dash t = [t]) ∧
    (∀ t : String, (∀ i < (pyNorm t.data).length + 1, figStep ((pyNorm t.data).drop i) = none) →
        split_paragraph_on_figure_enumeration t = [t]) ∧
    (∀ t : String, (∀ i < (pyNorm t.data).length + 1, liStep ((pyNorm t.data).drop i) = none) →
        split_paragraph_on_punctuation_list_item t = [t]) ∧
    (∀ t : String, (∀ i < (pyNorm t.data).length + 1, lbStep ((pyNorm t.data).drop i) = none) →
        split_paragraph_on_punctuation_letter_bracket t = [t]) ∧
    (∀ t : String, (∀ i < (pyNorm t.data).length + 1, orNlStep ((pyNorm t.data).drop i) = none) →
        split_paragraph_on_or_newline_dash t = [t]) ∧
    (∀ t : String, (∀ i < t.data.length + 1, zbStep (t.data.drop i) = none) →
        split_paragraph_on_z_b t = [t]) ∧
    (∀ t : String, (∀ i < t.data.length + 1, arrowStep (t.data.drop i) = none) →
        split_paragraph_on_arrow t = [t]) := by
  refine ⟨?_, ?_, ?_, ?_, ?_, ?_, ?_, ?_⟩
  · intro t hfi
    unfold split_paragraph_on_patent_number
    dsimp only
    rw [hfi]
    dsimp only [List.foldl]
    split <;> rfl
  all_goals
    intro t hs
    first
      | (unfold split_paragraph_on_punctuation_dash
         rw [gchop_noStep _ _ hs]; exact assembleParts_single _ _)
      | (unfold split_paragraph_on_figure_enumeration
         rw [gchop_noStep _ _ hs]; exact assembleParts_single _ _)
      | (unfold split_paragraph_on_punctuation_list_item
         rw [gchop_noStep _ _ hs]; exact assembleParts_single _ _)
      | (unfold split_paragraph_on_punctuation_letter_bracket
         rw [gchop_noStep _ _ hs]; exact assembleParts_single _ _)
      | (unfold split_paragraph_on_or_newline_dash
         rw [gchop_noStep _ _ hs]; exact assembleParts_single _ _)
      | (unfold split_paragraph_on_z_b
         rw [gchop_noStep _ _ hs]; exact assembleParts_single _ _)
      | (unfold split_paragraph_on_arrow
         rw [gchop_noStep _ _ hs]; exact assembleParts_single _ _)

/-- Witness for C5 amended: each of the eight rules applied to a concrete
matchless input returns it unchanged. -/
theorem split_rules_noop_on_no_match_witness :
    split_paragraph_on_patent_number "No marks here" = ["No marks here"] ∧
    split_paragraph_on_punctuation_dash "No marks here" = ["No marks here"] ∧
    split_paragraph_on_figure_enumeration "No marks here" = ["No marks here"] ∧
    split_paragraph_on_punctuation_list_item "No marks here" = ["No marks here"] ∧
    split_paragraph_on_punctuation_letter_bracket "No marks here" = ["No marks here"] ∧
    split_paragraph_on_or_newline_dash "No marks here" = ["No marks here"] ∧
    split_paragraph_on_z_b "No marks here" = ["No marks here"] ∧
    split_paragraph_on_arrow "No marks here" = ["No marks here"] :=
  ⟨split_rules_noop_on_no_match.1 "No marks here" (by decide),
   split_rules_noop_on_no_match.2.1 "No marks here" (by decide),
   split_rules_noop_on_no_match.2.2.1 "No marks here" (by decide),
   split_rules_noop_on_no_match.2.2.2.1 "No marks here" (by decide),
   split_rules_noop_on_no_match.2.2.2.2.1 "No marks here" (by decide),
   split_rules_noop_on_no_match.2.2.2.2.2.1 "No marks here" (by decide),
   split_rules_noop_on_no_match.2.2.2.2.2.2.1 "No marks here" (by decide),
   split_rules_noop_on_no_match.2.2.2.2.2.2.2 "No marks here" (by decide)⟩

/-! ### C6: behaviour on short, patent-free input -/

theorem cascading_split_fix (t : String) (h0 : ¬((pyStrip t).isEmpty = true)) :
    ∀ methods : List (String → List String), (∀ f ∈ methods, f t = [t]) →
      cascading_split t methods = [t] := by
  intro methods
  induction methods with
  | nil =>
      intro _
      unfold cascading_split
      rw [if_neg h0]
  | cons f rest ih =>
      intro hm
      unfold cascading_split
      rw [if_neg h0]
      dsimp only
      rw [hm f (List.mem_cons_self f rest)]
      rw [if_neg (by simp : ¬(1 < ([t] : List String).length))]
      exact ih (fun g hg => hm g (List.mem_cons_of_mem f hg))

/-- C6 counterexample: the authoritative splitter has no length threshold
and splits unconditionally: the 7-character, patent-free string
`"A --> B"` (the patent finder matches nothing in it) is nevertheless split
by the arrow rule into two parts. -/
theorem split_short_no_patent_modified :
    reFindIter patentIdRE "A --> B".data = [] ∧
    "A --> B".length ≤ 1000 ∧
    split_and_clean_paragraph "A --> B" = ["A", "B"] := by decide

/-- C6 amended: `split_and_clean_paragraph` returns `[t]` exactly when the
already-stripped, nonempty input is a fixed point of every rule of
`FINAL_SPLIT_ORDER` and of the patent substitution — there is no length
threshold in this module, and the placeholder pass is only a no-op when
the patent patterns find nothing to replace. -/
theorem split_and_clean_noop (t : String)
    (h1 : pyStrip t = t) (h2 : t ≠ "")
    (h3 : ∀ f ∈ FINAL_SPLIT_ORDER, f t = [t])
    (h4 : substitute_patent_numbers t = t) :
    split_and_clean_paragraph t = [t] := by
  have h0 : ¬((pyStrip t).isEmpty = true) := by
    rw [h1]
    intro hb
    exact h2 ((String.isEmpty_iff t).mp hb)
  unfold split_and_clean_paragraph
  dsimp only
  rw [h1, cascading_split_fix t h0 FINAL_SPLIT_ORDER h3]
  dsimp only [List.map]
  rw [h4]
  have hkeep : (!(pyStrip t).isEmpty) = true := by
    cases hb : (pyStrip t).isEmpty
    · rfl
    · exact absurd hb h0
  rw [List.filter_cons, if_pos hkeep, List.filter_nil]

set_option maxRecDepth 10000000 in
/-- Witness for C6 amended: `"Hello world."` satisfies all four
hypotheses concretely and passes through unchanged. -/
theorem split_and_clean_noop_witness :
    split_and_clean_paragraph "Hello world." = ["Hello world."] :=
  split_and_clean_noop "Hello world." (by decide) (by decide) (by decide) (by decide)

/-! ### C4: the patent/double-newline scenario -/

set_option maxRecDepth 10000000 in
/-- C4 counterexample: no `PATENT` placeholder and no `EMBODIMENT` marker
appears anywhere in the actual output of the splitter on the scenario
string; the matched identifier is simply discarded (the lazy
`[A-Z0-9]{1,2}?` tail of the WO alternative stops after `A`, stranding the
`1`). -/
theorem patent_scenario_no_markers :
    split_and_clean_paragraph c4Input =
      ["Compound XYZ is disclosed in", "1 and provides improved stability.",
       "A second embodiment follows."] ∧
    (split_and_clean_paragraph c4Input).all
      (fun p => !(substrCheck "PATENT".data p.data) &&
                !(substrCheck "EMBODIMENT".data p.data)) = true := by decide

set_option maxRecDepth 10000000 in
/-- C4 amended: the splitter does split the scenario string at the patent
identifier and at the double newline (three parts, so at least two), and
the WO identifier is gone from every part, but the parts carry no marker
tokens. -/
theorem patent_scenario_actual :
    2 ≤ (split_and_clean_paragraph c4Input).length ∧
    (split_and_clean_paragraph c4Input).all
      (fun p => !(substrCheck "WO 2016/066651".data p.data)) = true := by decide

/-! ### Character-class facts -/

theorem digit_bounds (c : Char) (h : c.isDigit = true) : '0' ≤ c ∧ c ≤ '9' := by
  simp only [Char.isDigit, Bool.and_eq_true, decide_eq_true_eq] at h
  exact ⟨h.1, h.2⟩

theorem digit_toNat (c : Char) (h : c.isDigit = true) :
    48 ≤ c.toNat ∧ c.toNat ≤ 57 := by
  simp only [Char.isDigit, Bool.and_eq_true, decide_eq_true_eq] at h
  exact ⟨h.1, h.2⟩

theorem digit_not_space (c : Char) (h : c.isDigit = true) : pyIsSpace c = false := by
  have hb := digit_bounds c h
  simp only [pyIsSpace, Bool.or_eq_false_iff, decide_eq_false_iff_not]
  refine ⟨⟨⟨⟨⟨?_, ?_⟩, ?_⟩, ?_⟩, ?_⟩, ?_⟩ <;>
    (intro he; subst he; exact absurd hb.1 (by decide))

theorem pyLower_digit (c : Char) (h : c.isDigit = true) : pyLower c = c := by
  have hb := digit_bounds c h
  have ht := digit_toNat c h
  unfold pyLower
  rw [if_neg, if_neg]
  · intro hx
    omega
  · intro hx
    exact absurd (le_trans hx.1 hb.2) (by decide)

/-! ### C9: weight-percentage neutralization -/

theorem countDigits_append (ds l : List Char) (hd : ds.all Char.isDigit = true) :
    countDigits (ds ++ l) = ds.length + countDigits l := by
  induction ds with
  | nil => simp
  | cons a t ih =>
      simp only [List.all_cons, Bool.and_eq_true] at hd
      rw [List.cons_append]
      show (if a.isDigit then countDigits (t ++ l) + 1 else 0) =
        (a :: t).length + countDigits l
      rw [if_pos hd.1, ih hd.2, List.length_cons]
      omega

theorem wtLen_wt (rest : List Char) : wtLen ('w' :: 't' :: '%' :: rest) = some 3 := by
  cases rest <;> rfl

theorem numLen_digits (ds rest : List Char) (hne : ds ≠ [])
    (hd : ds.all Char.isDigit = true) :
    numLen (ds ++ 'w' :: 't' :: '%' :: rest) = some ds.length := by
  have hc : countDigits (ds ++ 'w' :: 't' :: '%' :: rest) = ds.length := by
    rw [countDigits_append ds _ hd,
        show countDigits ('w' :: 't' :: '%' :: rest) = 0 from rfl]
    omega
  have hlen0 : ¬(ds.length = 0) := fun h0 => hne (List.length_eq_zero.mp h0)
  unfold numLen
  rw [hc, if_neg hlen0, List.drop_left]
  split
  · rename_i r2 heq
    simp at heq
  · rfl

theorem singleWtLen_digits (ds rest : List Char) (hne : ds ≠ [])
    (hd : ds.all Char.isDigit = true) :
    singleWtLen (ds ++ 'w' :: 't' :: '%' :: rest) = some (ds.length + 3) := by
  unfold singleWtLen
  rw [numLen_digits ds rest hne hd]
  dsimp only
  rw [List.drop_left, wtLen_wt]
  rfl

theorem subScan_nil (matchLen : List Char → Option Nat) (repl : List Char)
    (h : matchLen [] = none) : ∀ fuel, subScan matchLen repl fuel [] = [] := by
  intro fuel
  cases fuel with
  | zero => rfl
  | succ n =>
      unfold subScan
      rw [h]

theorem subScan_none (matchLen : List Char → Option Nat) (repl : List Char) :
    ∀ fuel l, (∀ i, matchLen (l.drop i) = none) →
      subScan matchLen repl fuel l = l := by
  intro fuel
  induction fuel with
  | zero => intro l _; rfl
  | succ n ih =>
      intro l h
      have h0 : matchLen l = none := by simpa using h 0
      unfold subScan
      rw [h0]
      cases l with
      | nil => rfl
      | cons c rest =>
          dsimp only
          rw [ih rest (fun i => by simpa using h (i + 1))]

theorem slashLen_digit (d2 : Char) (r : List Char) (hd2 : d2.isDigit = true) :
    slashLen ('/' :: d2 :: r) = some 1 := by
  have hsp : pyIsSpace d2 = false := digit_not_space d2 hd2
  simp [slashLen, hsp, show pyIsSpace '/' = false from rfl]

theorem ratioWtLen_digits_wt_none (ds : List Char) (hd : ds.all Char.isDigit = true) :
    ratioWtLen (ds ++ ['w', 't', '%']) = none := by
  by_cases hne : ds = []
  · subst hne
    rfl
  · unfold ratioWtLen
    rw [singleWtLen_digits ds [] hne hd]
    dsimp only
    rw [show (ds ++ ['w', 't', '%']).drop (ds.length + 3) = [] from
      List.drop_eq_nil_of_le (by simp)]
    rfl

theorem ratioWtLen_single_suffixes (ds : List Char) (hd : ds.all Char.isDigit = true) :
    ∀ i, ratioWtLen ((ds ++ ['w', 't', '%']).drop i) = none := by
  have hwt : ∀ j, ratioWtLen (List.drop j (['w', 't', '%'] : List Char)) = none := by
    intro j
    rcases j with _ | _ | _ | n
    · rfl
    · rfl
    · rfl
    · rw [show List.drop (n + 3) (['w', 't', '%'] : List Char) = [] from by simp]
      rfl
  intro i
  rw [List.drop_append_eq_append_drop]
  by_cases hi : i ≤ ds.length
  · rw [Nat.sub_eq_zero_of_le hi]
    exact ratioWtLen_digits_wt_none (ds.drop i)
      (List.all_eq_true.mpr fun x hx =>
        List.all_eq_true.mp hd x (List.mem_of_mem_drop hx))
  · rw [List.drop_eq_nil_of_le (by omega : ds.length ≤ i), List.nil_append]
    exact hwt (i - ds.length)

/-- C9: the ratio pattern is substituted before the single-value pattern:
a pure ratio `Xwt%/Ywt%` (digit strings `X`, `Y`) collapses to the single
placeholder `[A_DEFINED_RATIO]` (never two `[A_CERTAIN_AMOUNT]`), and a
remaining single `Nwt%` becomes `[A_CERTAIN_AMOUNT]`. -/
theorem neutralize_ratio_before_single :
    (∀ ds1 ds2 : List Char, ds1 ≠ [] → ds2 ≠ [] →
      ds1.all Char.isDigit = true → ds2.all Char.isDigit = true →
      neutralize_quantitative_noise
          ⟨ds1 ++ 'w' :: 't' :: '%' :: '/' :: (ds2 ++ ['w', 't', '%'])⟩ =
        "[A_DEFINED_RATIO]") ∧
    (∀ ds : List Char, ds ≠ [] → ds.all Char.isDigit = true →
      neutralize_quantitative_noise ⟨ds ++ ['w', 't', '%']⟩ =
        "[A_CERTAIN_AMOUNT]") := by
  constructor
  · intro ds1 ds2 h1 h2 hd1 hd2
    obtain ⟨d2, ds2', rfl⟩ := List.exists_cons_of_ne_nil h2
    simp only [List.cons_append]
    have hd2head : Char.isDigit d2 = true := by
      simp only [List.all_cons, Bool.and_eq_true] at hd2
      exact hd2.1
    have hdrop1 :
        (ds1 ++ 'w' :: 't' :: '%' :: '/' :: d2 :: (ds2' ++ ['w', 't', '%'])).drop
            (ds1.length + 3) = '/' :: d2 :: (ds2' ++ ['w', 't', '%']) := by
      rw [List.drop_append_eq_append_drop,
          List.drop_eq_nil_of_le (by omega : ds1.length ≤ ds1.length + 3),
          List.nil_append, show ds1.length + 3 - ds1.length = 3 from by omega]
      rfl
    have hdrop2 :
        (ds1 ++ 'w' :: 't' :: '%' :: '/' :: d2 :: (ds2' ++ ['w', 't', '%'])).drop
            (ds1.length + 3 + 1) = d2 :: (ds2' ++ ['w', 't', '%']) := by
      rw [List.drop_append_eq_append_drop,
          List.drop_eq_nil_of_le (by omega : ds1.length ≤ ds1.length + 3 + 1),
          List.nil_append, show ds1.length + 3 + 1 - ds1.length = 4 from by omega]
      rfl
    have hsingle2 : singleWtLen (d2 :: (ds2' ++ ['w', 't', '%'])) =
        some ((d2 :: ds2' : List Char).length + 3) := by
      rw [show (d2 :: (ds2' ++ (['w', 't', '%'] : List Char))) =
            ((d2 :: ds2') ++ 'w' :: 't' :: '%' :: ([] : List Char)) from by simp]
      exact singleWtLen_digits (d2 :: ds2') [] (by simp) hd2
    have hratio :
        ratioWtLen (ds1 ++ 'w' :: 't' :: '%' :: '/' :: d2 :: (ds2' ++ ['w', 't', '%'])) =
          some (ds1.length + 3 + 1 + ((d2 :: ds2' : List Char).length + 3)) := by
      unfold ratioWtLen
      rw [singleWtLen_digits ds1 ('/' :: d2 :: (ds2' ++ ['w', 't', '%'])) h1 hd1]
      dsimp only
      rw [hdrop1, slashLen_digit d2 _ hd2head]
      dsimp only
      rw [hdrop2, hsingle2]
      dsimp only [Option.map]
    unfold neutralize_quantitative_noise subRatioWt
    simp only [List.cons_append, subScan, hratio]
    rw [List.drop_eq_nil_of_le
          (by simp only [List.length_append, List.length_cons, List.length_nil]
              omega),
        subScan_nil ratioWtLen _ rfl, List.append_nil]
    decide
  · intro ds hne hd
    unfold neutralize_quantitative_noise
    rw [show subRatioWt (ds ++ ['w', 't', '%']) = ds ++ ['w', 't', '%'] from
      subScan_none ratioWtLen _ _ _ (ratioWtLen_single_suffixes ds hd)]
    unfold subSingleWt
    simp only [subScan, singleWtLen_digits ds [] hne hd]
    rw [List.drop_eq_nil_of_le (by simp),
        subScan_nil singleWtLen _ rfl, List.append_nil]

/-- Witness for C9 at `60wt%/40wt%` and `25wt%`. -/
theorem neutralize_ratio_before_single_witness :
    neutralize_quantitative_noise
        ⟨"60".data ++ 'w' :: 't' :: '%' :: '/' :: ("40".data ++ ['w', 't', '%'])⟩ =
      "[A_DEFINED_RATIO]" ∧
    neutralize_quantitative_noise ⟨"25".data ++ ['w', 't', '%']⟩ = "[A_CERTAIN_AMOUNT]" :=
  ⟨neutralize_ratio_before_single.1 "60".data "40".data (by decide) (by decide)
      (by decide) (by decide),
   neutralize_ratio_before_single.2 "25".data (by decide) (by decide)⟩

/-! ### C3 groundwork: digit strings are inert for the string helpers -/

theorem digit_not_paren (c : Char) (h : c.isDigit = true) :
    (c = '(' || c = ')') = false := by
  have hb := digit_bounds c h
  simp only [Bool.or_eq_false_iff, decide_eq_false_iff_not]
  constructor <;> (intro he; subst he; exact absurd hb.1 (by decide))

theorem digit_map_dotcomma (c : Char) (h : c.isDigit = true) :
    (if c = '.' || c = ',' then ' ' else c) = c := by
  have hb := digit_bounds c h
  have hnc : ¬((c = '.' || c = ',') = true) := by
    intro hc
    simp only [Bool.or_eq_true, decide_eq_true_eq] at hc
    rcases hc with hc | hc <;> (subst hc; exact absurd hb.1 (by decide))
  rw [if_neg hnc]

theorem dropWhile_all_false (p : Char → Bool) (l : List Char)
    (h : ∀ c ∈ l, p c = false) : l.dropWhile p = l := by
  cases l with
  | nil => rfl
  | cons a t =>
      have ha := h a (List.mem_cons_self a t)
      rw [List.dropWhile_cons, if_neg (by simp [ha])]

theorem strip_pair_id (p : Char → Bool) (l : List Char)
    (h : ∀ c ∈ l, p c = false) :
    ((l.dropWhile p).reverse.dropWhile p).reverse = l := by
  rw [dropWhile_all_false p l h,
      dropWhile_all_false p l.reverse (fun c hc => h c (List.mem_reverse.mp hc)),
      List.reverse_reverse]

theorem pyStripL_id (l : List Char) (h : ∀ c ∈ l, pyIsSpace c = false) :
    pyStripL l = l := strip_pair_id pyIsSpace l h

theorem stripParens_id (l : List Char) (h : ∀ c ∈ l, (c = '(' || c = ')') = false) :
    stripParens l = l := strip_pair_id _ l h

theorem collapseWsAux_id (l : List Char) (h : ∀ c ∈ l, pyIsSpace c = false) :
    collapseWsAux false l = l := by
  induction l with
  | nil => rfl
  | cons a t ih =>
      have ha := h a (List.mem_cons_self a t)
      unfold collapseWsAux
      rw [ha, if_neg (by decide : ¬(false = true)),
          ih (fun c hc => h c (List.mem_cons_of_mem a hc))]

theorem pySplitWsAux_id (l : List Char) (h : ∀ c ∈ l, pyIsSpace c = false) :
    ∀ acc : List Char, acc ≠ [] → pySplitWsAux acc l = [acc.reverse ++ l] := by
  induction l with
  | nil =>
      intro acc hacc
      unfold pySplitWsAux
      rw [if_neg (by simpa using hacc)]
      simp
  | cons a t ih =>
      intro acc hacc
      have ha := h a (List.mem_cons_self a t)
      unfold pySplitWsAux
      rw [ha, if_neg (by decide : ¬(false = true)),
          ih (fun c hc => h c (List.mem_cons_of_mem a hc)) (a :: acc) (by simp)]
      simp

theorem pySplitWs_id (a : Char) (t : List Char)
    (h : ∀ c ∈ a :: t, pyIsSpace c = false) :
    pySplitWs (a :: t) = [a :: t] := by
  have ha := h a (List.mem_cons_self a t)
  unfold pySplitWs pySplitWsAux
  rw [ha, if_neg (by decide : ¬(false = true)),
      pySplitWsAux_id t (fun c hc => h c (List.mem_cons_of_mem a hc)) [a] (by simp)]
  simp

/-- The `cleaned` preprocessing of `standardize_date` leaves an all-digit
string unchanged. -/
theorem cleaned_digits_id (l : List Char) (h : ∀ c ∈ l, c.isDigit = true) :
    pyLowerL (collapseWs (pyStripL
      ((stripParens l).map (fun c => if c = '.' || c = ',' then ' ' else c)))) = l := by
  rw [stripParens_id l (fun c hc => digit_not_paren c (h c hc))]
  have hmap : l.map (fun c => if c = '.' || c = ',' then ' ' else c) = l.map id :=
    List.map_congr_left (fun c hc => digit_map_dotcomma c (h c hc))
  rw [hmap, List.map_id,
      pyStripL_id l (fun c hc => digit_not_space c (h c hc)),
      show collapseWs l = l from
        collapseWsAux_id l (fun c hc => digit_not_space c (h c hc))]
  unfold pyLowerL
  have hlow : l.map pyLower = l.map id :=
    List.map_congr_left (fun c hc => pyLower_digit c (h c hc))
  rw [hlow, List.map_id]

/-! ### C3 groundwork: the strptime parsers reject an all-digit string -/

theorem countWs_cons_false (c : Char) (r : List Char) (h : pyIsSpace c = false) :
    countWs (c :: r) = 0 := by
  unfold countWs
  rw [h, if_neg (by decide : ¬(false = true))]

theorem pWs_cons_none (c : Char) (r : List Char) (h : pyIsSpace c = false)
    (k : List Char → Option (Nat × Nat × Nat)) : pWs (c :: r) k = none := by
  unfold pWs
  dsimp only
  rw [countWs_cons_false c r h]
  rfl

theorem orElse_none_none {α : Type} (x : Option α) (f : Unit → Option α)
    (hx : x = none) (hf : f () = none) : x.orElse f = none := by
  rw [hx]
  exact hf

theorem pDay_none (l : List Char) (k : Nat → List Char → Option (Nat × Nat × Nat))
    (h1 : ∀ d, k d (l.drop 1) = none) (h2 : ∀ d, k d (l.drop 2) = none) :
    pDay l k = none := by
  unfold pDay
  refine orElse_none_none _ _ ?_ (orElse_none_none _ _ ?_ (orElse_none_none _ _ ?_ ?_))
  · split
    · split
      · exact h2 _
      · rfl
    · rfl
  · split
    · split
      · exact h2 _
      · rfl
    · rfl
  · split
    · split
      · exact h2 _
      · rfl
    · rfl
  · split
    · split
      · exact h1 _
      · rfl
    · rfl

theorem pYear_none (l : List Char) (k : Nat → List Char → Option (Nat × Nat × Nat))
    (h : ∀ y, k y (l.drop 4) = none) : pYear l k = none := by
  unfold pYear
  split
  · split
    · exact h _
    · rfl
  · rfl

theorem pMonth_none_of_take (names : List (String × Nat)) (l : List Char)
    (k : Nat → List Char → Option (Nat × Nat × Nat))
    (h : ∀ p ∈ names, l.take p.1.length ≠ p.1.data) :
    pMonth names l k = none := by
  induction names with
  | nil => rfl
  | cons p rest ih =>
      obtain ⟨nm, v⟩ := p
      unfold pMonth
      rw [if_neg (h (nm, v) (List.mem_cons_self _ rest))]
      exact ih (fun q hq => h q (List.mem_cons_of_mem _ hq))

theorem pMonth_digit_none (names : List (String × Nat)) (a : Char) (r : List Char)
    (k : Nat → List Char → Option (Nat × Nat × Nat)) (ha : a.isDigit = true)
    (hn : names.all
      (fun p => decide (p.1.data ≠ []) && decide ('a' ≤ p.1.data.headD ' ')) = true) :
    pMonth names (a :: r) k = none := by
  apply pMonth_none_of_take
  intro p hp htake
  have hp' := List.all_eq_true.mp hn p hp
  simp only [Bool.and_eq_true, decide_eq_true_eq] at hp'
  obtain ⟨c0, s, hcs⟩ := List.exists_cons_of_ne_nil hp'.1
  have hc0 : 'a' ≤ c0 := by
    have := hp'.2
    rw [hcs] at this
    simpa using this
  have hlen : p.1.length = s.length + 1 := by
    rw [show p.1.length = p.1.data.length from rfl, hcs]
    simp
  rw [hlen, hcs, List.take_succ_cons] at htake
  have hac : a = c0 := (List.cons.injEq _ _ _ _).mp htake |>.1
  have h9 := (digit_bounds a ha).2
  rw [hac] at h9
  exact absurd (le_trans hc0 h9) (by decide)

theorem fmtDBY_none (a b c : Char) (r : List Char) (hb : pyIsSpace b = false)
    (hc : pyIsSpace c = false) : fmtDBY (a :: b :: c :: r) = none := by
  unfold fmtDBY
  apply pDay_none
  · intro d
    exact pWs_cons_none b (c :: r) hb _
  · intro d
    exact pWs_cons_none c r hc _

theorem fmtBdY_none (a : Char) (r : List Char) (ha : a.isDigit = true) :
    fmtBdY (a :: r) = none := by
  unfold fmtBdY
  exact pMonth_digit_none enMonthsAbbr a r _ ha (by decide)

theorem fmtBdYFull_none (a : Char) (r : List Char) (ha : a.isDigit = true) :
    fmtBdYFull (a :: r) = none := by
  unfold fmtBdYFull
  exact pMonth_digit_none enMonthsFull a r _ ha (by decide)

theorem fmtBY_none (a : Char) (r : List Char) (ha : a.isDigit = true) :
    fmtBY (a :: r) = none := by
  unfold fmtBY
  exact pMonth_digit_none enMonthsAbbr a r _ ha (by decide)

theorem fmtBYFull_none (a : Char) (r : List Char) (ha : a.isDigit = true) :
    fmtBYFull (a :: r) = none := by
  unfold fmtBYFull
  exact pMonth_digit_none enMonthsFull a r _ ha (by decide)

theorem fmtYbd_none (a b c d e : Char) (r : List Char) (he : pyIsSpace e = false) :
    fmtYbd (a :: b :: c :: d :: e :: r) = none := by
  unfold fmtYbd
  exact pYear_none _ _ (fun y => pWs_cons_none e r he _)

theorem fmtYBdFull_none (a b c d e : Char) (r : List Char) (he : pyIsSpace e = false) :
    fmtYBdFull (a :: b :: c :: d :: e :: r) = none := by
  unfold fmtYBdFull
  exact pYear_none _ _ (fun y => pWs_cons_none e r he _)

theorem parseIsoYmd_digits8 (a b c d e f g h : Char) (he : e.isDigit = true) :
    parseIsoYmd [a, b, c, d, e, f, g, h] = none := by
  unfold parseIsoYmd
  apply pYear_none
  intro y
  split
  · rename_i r2 heq
    rw [show List.drop 4 [a, b, c, d, e, f, g, h] = e :: [f, g, h] from rfl] at heq
    have he' : e = '-' := ((List.cons.injEq _ _ _ _).mp heq).1
    rw [he'] at he
    exact absurd he (by decide)
  · rfl

theorem isoYmShort_digits8 (a b c d e f g h : Char) :
    isoYmShort [a, b, c, d, e, f, g, h] = none := by
  unfold isoYmShort
  split
  · rename_i heq
    simp at heq
  · rfl

theorem isoMyShort_digits8 (a b c d e f g h : Char) :
    isoMyShort [a, b, c, d, e, f, g, h] = none := by
  unfold isoMyShort
  split
  · rename_i heq
    simp at heq
  · rfl

theorem findSome?_none {α β : Type} (f : α → Option β) :
    ∀ l : List α, (∀ x ∈ l, f x = none) → l.findSome? f = none := by
  intro l
  induction l with
  | nil => intro _; rfl
  | cons x t ih =>
      intro h
      rw [List.findSome?_cons, h x (List.mem_cons_self x t)]
      exact ih (fun y hy => h y (List.mem_cons_of_mem x hy))

theorem daysInMonth_le (y m : Nat) : daysInMonth y m ≤ 31 := by
  unfold daysInMonth
  split
  · split <;> omega
  · split <;> omega

theorem datetimeOk_bounds (y m d : Nat) (h : datetimeOk y m d = true) :
    1 ≤ y ∧ y ≤ 9999 ∧ 1 ≤ m ∧ m ≤ 12 ∧ 1 ≤ d ∧ d ≤ 31 := by
  unfold datetimeOk at h
  simp only [Bool.and_eq_true, decide_eq_true_eq] at h
  have := daysInMonth_le y m
  omega

/-- `standardize_date` fails on any pure 8-digit string, returning the
input with `success = False`: the ISO parsers need dashes, the `strptime`
formats need spaces or month names, the year-only branch needs length 4,
and the two-part branch needs two whitespace-separated tokens. -/
theorem standardize_date_digits8 (l : List Char) (hlen : l.length = 8)
    (hd : ∀ c ∈ l, c.isDigit = true) :
    standardize_date ⟨l⟩ = (some ⟨l⟩, false) := by
  rcases l with _ | ⟨a, _ | ⟨b, _ | ⟨c, _ | ⟨d, _ | ⟨e, _ | ⟨f, _ | ⟨g, _ | ⟨h0, t⟩⟩⟩⟩⟩⟩⟩⟩ <;>
      simp only [List.length_cons, List.length_nil] at hlen
  all_goals try omega
  obtain rfl : t = [] := List.length_eq_zero.mp (by omega)
  have hall : ∀ x ∈ [a, b, c, d, e, f, g, h0], x.isDigit = true := hd
  have hnosp : ∀ x ∈ [a, b, c, d, e, f, g, h0], pyIsSpace x = false :=
    fun x hx => digit_not_space x (hall x hx)
  have he : e.isDigit = true := hall e (by simp)
  have hne : (⟨[a, b, c, d, e, f, g, h0]⟩ : String) ≠ "" := by
    intro hq
    have hdq := congrArg String.data hq
    simp at hdq
  unfold standardize_date
  rw [if_neg hne]
  dsimp only
  rw [pyStripL_id _ hnosp, parseIsoYmd_digits8 a b c d e f g h0 he]
  dsimp only
  rw [isoYmShort_digits8]
  dsimp only
  rw [isoMyShort_digits8]
  dsimp only
  rw [cleaned_digits_id _ hall]
  rw [findSome?_none _ dateFormats (by
    intro fp hfp
    fin_cases hfp
    · dsimp only
      rw [fmtDBY_none a b c _ (digit_not_space b (hall b (by simp)))
            (digit_not_space c (hall c (by simp)))]
    · dsimp only
      rw [fmtBdY_none a _ (hall a (by simp))]
    · dsimp only
      rw [fmtYbd_none a b c d e _ (digit_not_space e he)]
    · dsimp only
      rw [fmtBdYFull_none a _ (hall a (by simp))]
    · dsimp only
      rw [fmtYBdFull_none a b c d e _ (digit_not_space e he)]
    · dsimp only
      rw [fmtBY_none a _ (hall a (by simp))]
    · dsimp only
      rw [fmtBYFull_none a _ (hall a (by simp))])]
  dsimp only
  split
  · rename_i hc4
    exfalso
    simp at hc4
  · rw [pySplitWs_id a _ hnosp]
    split
    · rename_i hc2
      exfalso
      simp at hc2
    · rfl

theorem orElse_some {α : Type} (x : Option α) (f : Unit → Option α) (v : α)
    (h : x.orElse f = some v) : x = some v ∨ f () = some v := by
  cases x with
  | some w => exact Or.inl h
  | none => exact Or.inr h

theorem pDay_some_inv (l : List Char) (k : Nat → List Char → Option (Nat × Nat × Nat))
    (x : Nat × Nat × Nat) (h : pDay l k = some x) : ∃ d r, k d r = some x := by
  unfold pDay at h
  rcases orElse_some _ _ _ h with h | h
  · split at h
    · split at h
      · exact ⟨_, _, h⟩
      · exact absurd h (by simp)
    · exact absurd h (by simp)
  · rcases orElse_some _ _ _ h with h | h
    · split at h
      · split at h
        · exact ⟨_, _, h⟩
        · exact absurd h (by simp)
      · exact absurd h (by simp)
    · rcases orElse_some _ _ _ h with h | h
      · split at h
        · split at h
          · exact ⟨_, _, h⟩
          · exact absurd h (by simp)
        · exact absurd h (by simp)
      · split at h
        · split at h
          · exact ⟨_, _, h⟩
          · exact absurd h (by simp)
        · exact absurd h (by simp)

theorem pYear_some_inv (l : List Char) (k : Nat → List Char → Option (Nat × Nat × Nat))
    (x : Nat × Nat × Nat) (h : pYear l k = some x) : ∃ y r, k y r = some x := by
  unfold pYear at h
  split at h
  · split at h
    · exact ⟨_, _, h⟩
    · exact absurd h (by simp)
  · exact absurd h (by simp)

theorem isoDay_ok (y0 m0 : Nat) (r : List Char) (d m y : Nat)
    (h : parseIsoYmd.isoDay y0 m0 r = some (d, m, y)) : datetimeOk y m d = true := by
  unfold parseIsoYmd.isoDay at h
  split at h
  · obtain ⟨d', r5, hk⟩ := pDay_some_inv _ _ _ h
    split at hk
    · rename_i hcond
      simp only [Option.some.injEq, Prod.mk.injEq] at hk
      simp only [Bool.and_eq_true, decide_eq_true_eq] at hcond
      obtain ⟨hd, hm, hy⟩ := hk
      subst hd
      subst hm
      subst hy
      exact hcond.2
    · exact absurd hk (by simp)
  · exact absurd h (by simp)

theorem parseIsoYmd_ok (l : List Char) (d m y : Nat)
    (h : parseIsoYmd l = some (d, m, y)) : datetimeOk y m d = true := by
  unfold parseIsoYmd at h
  obtain ⟨y', r1, hk⟩ := pYear_some_inv _ _ _ h
  split at hk
  · split at hk
    · split at hk
      · exact isoDay_ok _ _ _ _ _ _ hk
      · exact isoDay_ok _ _ _ _ _ _ hk
    · split at hk
      · exact isoDay_ok _ _ _ _ _ _ hk
      · exact absurd hk (by simp)
    · split at hk
      · exact isoDay_ok _ _ _ _ _ _ hk
      · exact absurd hk (by simp)
    · exact absurd hk (by simp)
  · exact absurd hk (by simp)

theorem isoYmShort_inv (l mS yS : List Char) (h : isoYmShort l = some (mS, yS)) :
    mS.length = 2 ∧ yS.length = 4 ∧ (∀ c ∈ mS, c.isDigit = true) ∧
      (∀ c ∈ yS, c.isDigit = true) := by
  unfold isoYmShort at h
  split at h
  · split at h
    · rename_i hdig
      simp only [Option.some.injEq, Prod.mk.injEq] at h
      obtain ⟨hm, hy⟩ := h
      subst hm
      subst hy
      simp only [Bool.and_eq_true] at hdig
      refine ⟨rfl, rfl, ?_, ?_⟩ <;> (intro c hc; fin_cases hc <;> simp_all)
    · exact absurd h (by simp)
  · exact absurd h (by simp)

theorem isoMyShort_inv (l mS yS : List Char) (h : isoMyShort l = some (mS, yS)) :
    mS.length = 2 ∧ yS.length = 4 ∧ (∀ c ∈ mS, c.isDigit = true) ∧
      (∀ c ∈ yS, c.isDigit = true) := by
  unfold isoMyShort at h
  split at h
  · split at h
    · rename_i hdig
      simp only [Option.some.injEq, Prod.mk.injEq] at h
      obtain ⟨hm, hy⟩ := h
      subst hm
      subst hy
      simp only [Bool.and_eq_true] at hdig
      refine ⟨rfl, rfl, ?_, ?_⟩ <;> (intro c hc; fin_cases hc <;> simp_all)
    · exact absurd h (by simp)
  · exact absurd h (by simp)

theorem month_map_vals : ∀ p ∈ MONTH_MAP,
    (p : String × String).2.data.length = 2 ∧ ∀ c ∈ p.2.data, c.isDigit = true := by
  decide

/-- Every successful `standardize_date` result is exactly eight ASCII
digits (`ddmmyyyy`, with `00` placeholders for missing components). -/
theorem standardize_success_digits (s t : String)
    (h : standardize_date s = (some t, true)) :
    t.data.length = 8 ∧ ∀ c ∈ t.data, c.isDigit = true := by
  have h100 : (100 : Nat) = 10 ^ 2 := by norm_num
  have h10000 : (10000 : Nat) = 10 ^ 4 := by norm_num
  unfold standardize_date at h
  split at h
  · exact absurd h (by simp)
  dsimp only at h
  split at h
  · rename_i d m y heq
    have hok := parseIsoYmd_ok _ _ _ _ heq
    obtain ⟨-, hy, -, hm, -, hd⟩ := datetimeOk_bounds _ _ _ hok
    simp only [Prod.mk.injEq, Option.some.injEq] at h
    obtain ⟨ht, -⟩ := h
    subst ht
    constructor
    · dsimp only
      simp only [List.length_append]
      rw [pyPad_len 2 d (by rw [← h100]; omega) (by omega),
          pyPad_len 2 m (by rw [← h100]; omega) (by omega),
          pyPad_len 4 y (by rw [← h10000]; omega) (by omega)]
    · intro c hc
      simp only [List.mem_append] at hc
      rcases hc with (hc | hc) | hc
      · exact pyPad_digits _ _ _ hc
      · exact pyPad_digits _ _ _ hc
      · exact pyPad_digits _ _ _ hc
  split at h
  · rename_i mS yS heq
    obtain ⟨hm2, hy4, hmd, hyd⟩ := isoYmShort_inv _ _ _ heq
    simp only [Prod.mk.injEq, Option.some.injEq] at h
    obtain ⟨ht, -⟩ := h
    subst ht
    constructor
    · dsimp only
      simp only [List.length_append, hm2, hy4]
      rfl
    · intro c hc
      simp only [List.mem_append] at hc
      rcases hc with (hc | hc) | hc
      · have hc0 : c = '0' := by simpa using hc
        subst hc0
        decide
      · exact hmd c hc
      · exact hyd c hc
  split at h
  · rename_i mS yS heq
    obtain ⟨hm2, hy4, hmd, hyd⟩ := isoMyShort_inv _ _ _ heq
    simp only [Prod.mk.injEq, Option.some.injEq] at h
    obtain ⟨ht, -⟩ := h
    subst ht
    constructor
    · dsimp only
      simp only [List.length_append, hm2, hy4]
      rfl
    · intro c hc
      simp only [List.mem_append] at hc
      rcases hc with (hc | hc) | hc
      · have hc0 : c = '0' := by simpa using hc
        subst hc0
        decide
      · exact hmd c hc
      · exact hyd c hc
  split at h
  · rename_i d m y hasDay heq
    obtain ⟨fp, hfp, hF⟩ := List.exists_of_findSome?_eq_some heq
    split at hF
    · rename_i d' m' y' heq2
      cases hcase : fp.2 with
      | true =>
          rw [hcase] at hF
          rw [show (if true = true then d' else 1) = d' from rfl] at hF
          split at hF
          · rename_i hcond
            simp only [Option.some.injEq, Prod.mk.injEq] at hF
            obtain ⟨hd', hm', hy', hh'⟩ := hF
            subst hd'
            subst hm'
            subst hy'
            obtain ⟨-, hy, -, hm, -, hd⟩ := datetimeOk_bounds _ _ _ hcond
            have hd2 : d' ≤ 31 := by simpa using hd
            simp only [Prod.mk.injEq, Option.some.injEq] at h
            obtain ⟨ht, -⟩ := h
            subst ht
            rw [← hh']
            constructor
            · dsimp only
              simp only [reduceIte, List.length_append]
              rw [pyPad_len 2 d' (by rw [← h100]; omega) (by omega),
                  pyPad_len 2 m' (by rw [← h100]; omega) (by omega),
                  pyPad_len 4 y' (by rw [← h10000]; omega) (by omega)]
            · intro c hc
              simp only [reduceIte, List.mem_append] at hc
              rcases hc with (hc | hc) | hc
              · exact pyPad_digits _ _ _ hc
              · exact pyPad_digits _ _ _ hc
              · exact pyPad_digits _ _ _ hc
          · exact absurd hF (by simp)
      | false =>
          rw [hcase] at hF
          rw [show (if false = true then d' else 1) = 1 from rfl] at hF
          split at hF
          · rename_i hcond
            simp only [Option.some.injEq, Prod.mk.injEq] at hF
            obtain ⟨hd', hm', hy', hh'⟩ := hF
            subst hd'
            subst hm'
            subst hy'
            obtain ⟨-, hy, -, hm, -, -⟩ := datetimeOk_bounds _ _ _ hcond
            simp only [Prod.mk.injEq, Option.some.injEq] at h
            obtain ⟨ht, -⟩ := h
            subst ht
            rw [← hh']
            constructor
            · dsimp only
              simp only [reduceIte, List.length_append]
              rw [pyPad_len 2 m' (by rw [← h100]; omega) (by omega),
                  pyPad_len 4 y' (by rw [← h10000]; omega) (by omega)]
              rfl
            · intro c hc
              simp only [reduceIte, List.mem_append] at hc
              rcases hc with (hc | hc) | hc
              · have hc0 : c = '0' := by simpa using hc
                subst hc0
                decide
              · exact pyPad_digits _ _ _ hc
              · exact pyPad_digits _ _ _ hc
          · exact absurd hF (by simp)
    · exact absurd hF (by simp)
  split at h
  · rename_i hc4
    simp only [Bool.and_eq_true, decide_eq_true_eq] at hc4
    simp only [Prod.mk.injEq, Option.some.injEq] at h
    obtain ⟨ht, -⟩ := h
    subst ht
    constructor
    · dsimp only
      simp only [List.length_append, hc4.1]
      rfl
    · intro c hc
      simp only [List.mem_append] at hc
      rcases hc with hc | hc
      · have hc0 : c = '0' := by simpa using hc
        subst hc0
        decide
      · exact List.all_eq_true.mp hc4.2 c hc
  split at h
  · split at h
    · rename_i yp mp heqY heqM
      have hmP := List.find?_some heqM
      simp only [Option.isSome_iff_exists] at hmP
      obtain ⟨e0, he0⟩ := hmP
      have hyP := List.find?_some heqY
      simp only [Bool.and_eq_true, decide_eq_true_eq] at hyP
      have hmem := List.mem_of_find?_eq_some he0
      obtain ⟨he0len, he0dig⟩ := month_map_vals e0 hmem
      rw [he0] at h
      simp only [Option.map_some', Option.getD_some] at h
      simp only [Prod.mk.injEq, Option.some.injEq] at h
      obtain ⟨ht, -⟩ := h
      subst ht
      constructor
      · dsimp only
        simp only [List.length_append, he0len, hyP.2]
        rfl
      · intro c hc
        simp only [List.mem_append] at hc
        rcases hc with (hc | hc) | hc
        · have hc0 : c = '0' := by simpa using hc
          subst hc0
          decide
        · exact he0dig c hc
        · exact List.all_eq_true.mp hyP.1.2 c hc
    · exact absurd h (by simp)
  · exact absurd h (by simp)

/-! ### C3: skip and case lemmas for the correction heuristics -/

theorem h1_skip (r : Reference) (c : Bool)
    (h : ¬(0 < wordCount (pyStrip (r.title.getD "")) ∧
        wordCount (pyStrip (r.title.getD "")) < 4 ∧
        pyStrip (r.publisher.getD "") = "" ∧
        startsWithAny (pyLowerS (pyStrip (r.title.getD "")))
          ["the", "j.", "journal", "nature", "science", "biochemistry"] = true)) :
    h1 r c = (r, pyStrip (r.title.getD ""), c) := by
  unfold h1
  dsimp only
  split
  · rename_i hcond
    split
    · rename_i hsw
      exfalso
      apply h
      simp only [Bool.and_eq_true, decide_eq_true_eq] at hcond
      exact ⟨hcond.1.1, hcond.1.2, hcond.2, hsw⟩
    · rfl
  · rfl

theorem h1_cases (r : Reference) (c : Bool) :
    h1 r c =
      ({r with publisher := some (pyStrip (r.title.getD "")), title := some ""},
        "", true) ∨
    (h1 r c = (r, pyStrip (r.title.getD ""), c) ∧
     ¬(0 < wordCount (pyStrip (r.title.getD "")) ∧
       wordCount (pyStrip (r.title.getD "")) < 4 ∧
       pyStrip (r.publisher.getD "") = "" ∧
       startsWithAny (pyLowerS (pyStrip (r.title.getD "")))
         ["the", "j.", "journal", "nature", "science", "biochemistry"] = true)) := by
  unfold h1
  dsimp only
  split
  · rename_i hcond
    split
    · exact Or.inl rfl
    · rename_i hsw
      exact Or.inr ⟨rfl, fun hcon => hsw hcon.2.2.2⟩
  · rename_i hcond
    refine Or.inr ⟨rfl, fun hcon => hcond ?_⟩
    simp only [Bool.and_eq_true, decide_eq_true_eq]
    exact ⟨⟨hcon.1, hcon.2.1⟩, hcon.2.2.1⟩

theorem h23_skip (r : Reference) (c : Bool) (h : pyStrip (r.url.getD "") = "") :
    h23 r c = (r, c) := by
  unfold h23
  dsimp only
  rw [h, if_neg (by simp : ¬("" : String) ≠ "")]

theorem h4_skip (r : Reference) (c : Bool) (h : pyStrip (r.url.getD "") = "") :
    h4 r c = (r, c) := by
  unfold h4
  cases hu : r.url with
  | none => rfl
  | some u =>
      have hsu : pyStrip u = "" := by
        rw [hu] at h
        simpa using h
      dsimp only
      split
      · rename_i hne
        rw [hsu, show clean_url_by_splitting "" = "" from rfl,
            if_neg (by simp : ¬("" : String) ≠ "")]
      · rfl

theorem h5_skip (r : Reference) (tl : String) (c : Bool)
    (h : ∀ authors, r.author = some authors →
      ¬(authors ≠ [] ∧ authors.length = 1 ∧ tl ≠ "" ∧
        2 ≤ (pyLowerS (pyStrip (authors.headD ""))).length ∧
        substrCheck (pyLowerS (pyStrip (authors.headD ""))).data
          (pyLowerS (pyStrip tl)).data = true)) :
    h5 r tl c = (r, c) := by
  unfold h5
  split
  · rename_i authors heq
    split
    · rename_i hcond
      dsimp only
      split
      · rename_i hinner
        exfalso
        apply h authors heq
        simp only [Bool.and_eq_true, decide_eq_true_eq] at hcond hinner
        exact ⟨hcond.1.1, hcond.1.2, hcond.2, hinner.1, hinner.2⟩
      · rfl
    · rfl
  · rfl

theorem h5_cases (r : Reference) (tl : String) (c : Bool) :
    (h5 r tl c = ({r with title := some ""}, true)) ∨
    (h5 r tl c = (r, c) ∧
     ∀ authors, r.author = some authors →
       ¬(authors ≠ [] ∧ authors.length = 1 ∧ tl ≠ "" ∧
         2 ≤ (pyLowerS (pyStrip (authors.headD ""))).length ∧
         substrCheck (pyLowerS (pyStrip (authors.headD ""))).data
           (pyLowerS (pyStrip tl)).data = true)) := by
  unfold h5
  split
  · rename_i authors heq
    split
    · rename_i hcond
      dsimp only
      split
      · exact Or.inl rfl
      · rename_i hinner
        refine Or.inr ⟨rfl, fun as has hcon => ?_⟩
        rw [heq] at has
        injection has with has'
        subst has'
        apply hinner
        simp only [Bool.and_eq_true, decide_eq_true_eq]
        exact ⟨hcon.2.2.2.1, hcon.2.2.2.2⟩
    · rename_i hcond
      refine Or.inr ⟨rfl, fun as has hcon => ?_⟩
      rw [heq] at has
      injection has with has'
      subst has'
      apply hcond
      simp only [Bool.and_eq_true, decide_eq_true_eq]
      exact ⟨⟨hcon.1, hcon.2.1⟩, hcon.2.2.1⟩
  · rename_i heq
    refine Or.inr ⟨rfl, fun as has => ?_⟩
    rw [heq] at has
    exact absurd has (by simp)

theorem standardize_not_none_true (s : String) :
    standardize_date s ≠ (none, true) := by
  intro h
  unfold standardize_date at h
  split at h
  · exact absurd h (by simp)
  dsimp only at h
  split at h
  · exact absurd h (by simp)
  split at h
  · exact absurd h (by simp)
  split at h
  · exact absurd h (by simp)
  split at h
  · exact absurd h (by simp)
  split at h
  · exact absurd h (by simp)
  split at h
  · split at h
    · exact absurd h (by simp)
    · exact absurd h (by simp)
  · exact absurd h (by simp)

theorem h6_skip (r : Reference) (c : Bool)
    (h : pyStrip (r.publication_date.getD "") = "" ∨
      (standardize_date (pyStrip (r.publication_date.getD ""))).2 = false) :
    h6 r c = (r, c) := by
  unfold h6
  dsimp only
  split
  · rename_i hne
    split
    · rename_i t heq
      exfalso
      rcases h with h | h
      · exact hne h
      · rw [heq] at h
        simp at h
    · rfl
  · rfl

theorem h6_cases (r : Reference) (c : Bool) :
    (∃ t, standardize_date (pyStrip (r.publication_date.getD "")) = (some t, true) ∧
       (h6 r c).1 = {r with publication_date := some t}) ∨
    ((h6 r c).1 = r ∧
     (pyStrip (r.publication_date.getD "") = "" ∨
      (standardize_date (pyStrip (r.publication_date.getD ""))).2 = false)) := by
  unfold h6
  dsimp only
  split
  · rename_i hne
    split
    · rename_i t heq
      exact Or.inl ⟨t, heq, rfl⟩
    · rename_i hno
      refine Or.inr ⟨rfl, ?_⟩
      by_cases hb : (standardize_date (pyStrip (r.publication_date.getD ""))).2 = true
      · exfalso
        have hsome : ∃ t,
            standardize_date (pyStrip (r.publication_date.getD "")) = (some t, true) := by
          rcases hsd : standardize_date (pyStrip (r.publication_date.getD "")) with ⟨o, b⟩
          rw [hsd] at hb
          dsimp only at hb
          subst hb
          cases o with
          | some t => exact ⟨t, rfl⟩
          | none => exact absurd hsd (standardize_not_none_true _)
        obtain ⟨t, ht⟩ := hsome
        exact hno t ht
      · exact Or.inr (by simpa using hb)
  · rename_i hemp
    refine Or.inr ⟨rfl, Or.inl ?_⟩
    by_contra hne
    exact hemp hne

theorem h7_skip (r : Reference) (c : Bool)
    (h : pyStrip (r.publisher.getD "") = "" ∨
      4 ≤ (pyStrip (r.publisher.getD "")).length) :
    h7 r c = (r, c) := by
  unfold h7
  dsimp only
  split
  · rename_i hcond
    exfalso
    simp only [Bool.and_eq_true, decide_eq_true_eq] at hcond
    rcases h with h | h
    · exact hcond.1 h
    · omega
  · rfl

theorem h7_cases (r : Reference) (c : Bool) :
    ((h7 r c).1 = {r with publisher := some ""}) ∨
    ((h7 r c).1 = r ∧
     (pyStrip (r.publisher.getD "") = "" ∨
      4 ≤ (pyStrip (r.publisher.getD "")).length)) := by
  unfold h7
  dsimp only
  split
  · exact Or.inl rfl
  · rename_i hcond
    refine Or.inr ⟨rfl, ?_⟩
    by_cases hpe : pyStrip (r.publisher.getD "") = ""
    · exact Or.inl hpe
    · right
      have h2 : ¬((pyStrip (r.publisher.getD "")).length < 4) := by
        intro hlt
        exact hcond (by
          simp only [Bool.and_eq_true, decide_eq_true_eq]
          exact ⟨hpe, hlt⟩)
      omega

theorem h8_skip (r : Reference) (c : Bool)
    (h : pyStrip (r.title.getD "") = "" ∨ 4 ≤ (pyStrip (r.title.getD "")).length) :
    h8 r c = (r, c) := by
  unfold h8
  dsimp only
  split
  · rename_i hcond
    exfalso
    simp only [Bool.and_eq_true, decide_eq_true_eq] at hcond
    rcases h with h | h
    · exact hcond.1 h
    · omega
  · rfl

theorem h8_cases (r : Reference) (c : Bool) :
    ((h8 r c).1 = {r with title := some ""}) ∨
    ((h8 r c).1 = r ∧
     (pyStrip (r.title.getD "") = "" ∨ 4 ≤ (pyStrip (r.title.getD "")).length)) := by
  unfold h8
  dsimp only
  split
  · exact Or.inl rfl
  · rename_i hcond
    refine Or.inr ⟨rfl, ?_⟩
    by_cases hpe : pyStrip (r.title.getD "") = ""
    · exact Or.inl hpe
    · right
      have h2 : ¬((pyStrip (r.title.getD "")).length < 4) := by
        intro hlt
        exact hcond (by
          simp only [Bool.and_eq_true, decide_eq_true_eq]
          exact ⟨hpe, hlt⟩)
      omega

/-- A record with all firing conditions false is a fixed point of the
pipeline (and the `corrected` flag stays `false`). -/
theorem correct_fix (q : Reference) (hs : HStable q) :
    correct_npl_mistakes q = (q, false) := by
  obtain ⟨a1, a23, a5, a6, a7, a8⟩ := hs
  unfold correct_npl_mistakes
  dsimp only
  rw [h1_skip q false a1]
  dsimp only
  rw [h23_skip q false a23]
  dsimp only
  rw [h4_skip q false a23]
  dsimp only
  rw [h5_skip q (pyStrip (q.title.getD "")) false a5]
  dsimp only
  rw [h6_skip q false a6]
  dsimp only
  rw [h7_skip q false a7]
  dsimp only
  rw [h8_skip q false a8]

/-- After one pass of `correct_npl_mistakes` on a record whose url strips
to empty and whose publisher strips to empty or has at least four
characters, every heuristic's firing condition is false. -/
theorem correct_establishes (r : Reference)
    (hu : pyStrip (r.url.getD "") = "")
    (hp : pyStrip (r.publisher.getD "") = "" ∨
      4 ≤ (pyStrip (r.publisher.getD "")).length) :
    HStable (correct_npl_mistakes r).1 := by
  unfold correct_npl_mistakes
  dsimp only
  rcases h1_cases r false with h1c | ⟨h1c, h1n⟩
  · rw [h1c]
    dsimp only
    rw [h23_skip {r with publisher := some (pyStrip (r.title.getD "")), title := some ""} true hu]
    dsimp only
    rw [h4_skip {r with publisher := some (pyStrip (r.title.getD "")), title := some ""} true hu]
    dsimp only
    rw [h5_skip {r with publisher := some (pyStrip (r.title.getD "")), title := some ""} "" true (fun as _ hcon => hcon.2.2.1 rfl)]
    dsimp only
    rcases h6_cases {r with publisher := some (pyStrip (r.title.getD "")), title := some ""} true with ⟨t, hsd, h6v⟩ | ⟨h6v, h6n⟩
    · rw [h6v]
      have hshape := standardize_success_digits _ t hsd
      have hsome8 : standardize_date t = (some t, false) :=
        standardize_date_digits8 t.data hshape.1 hshape.2
      have hts : pyStrip t = t := by
        show (⟨pyStripL t.data⟩ : String) = t
        rw [pyStripL_id t.data (fun c hc => digit_not_space c (hshape.2 c hc))]
      rcases h7_cases {({r with publisher := some (pyStrip (r.title.getD "")), title := some ""} : Reference) with publication_date := some t} ((h6 {r with publisher := some (pyStrip (r.title.getD "")), title := some ""} true).2) with h7v | ⟨h7v, h7n⟩
      · rw [h7v]
        rw [h8_skip {({({r with publisher := some (pyStrip (r.title.getD "")), title := some ""} : Reference) with publication_date := some t} : Reference) with publisher := some ""}
          ((h7 {({r with publisher := some (pyStrip (r.title.getD "")), title := some ""} : Reference) with publication_date := some t} ((h6 {r with publisher := some (pyStrip (r.title.getD "")), title := some ""} true).2)).2) (Or.inl (by decide : pyStrip ("" : String) = ""))]
        dsimp only
        unfold HStable
        refine ⟨?_, ?_, ?_, ?_, ?_, ?_⟩
        · intro hcon
          exact absurd hcon.1 (by decide : ¬(0 < wordCount (pyStrip ("" : String))))
        · exact hu
        · exact fun as _ hcon => hcon.2.2.1 (by decide : pyStrip ("" : String) = "")
        · refine Or.inr ?_
          show (standardize_date (pyStrip t)).2 = false
          rw [hts, hsome8]
        · exact Or.inl (by decide : pyStrip ("" : String) = "")
        · exact Or.inl (by decide : pyStrip ("" : String) = "")
      · rw [h7v]
        rw [h8_skip {({r with publisher := some (pyStrip (r.title.getD "")), title := some ""} : Reference) with publication_date := some t}
          ((h7 {({r with publisher := some (pyStrip (r.title.getD "")), title := some ""} : Reference) with publication_date := some t} ((h6 {r with publisher := some (pyStrip (r.title.getD "")), title := some ""} true).2)).2) (Or.inl (by decide : pyStrip ("" : String) = ""))]
        dsimp only
        unfold HStable
        refine ⟨?_, ?_, ?_, ?_, ?_, ?_⟩
        · intro hcon
          exact absurd hcon.1 (by decide : ¬(0 < wordCount (pyStrip ("" : String))))
        · exact hu
        · exact fun as _ hcon => hcon.2.2.1 (by decide : pyStrip ("" : String) = "")
        · refine Or.inr ?_
          show (standardize_date (pyStrip t)).2 = false
          rw [hts, hsome8]
        · exact h7n
        · exact Or.inl (by decide : pyStrip ("" : String) = "")
    · rw [h6v]
      rcases h7_cases {r with publisher := some (pyStrip (r.title.getD "")), title := some ""} ((h6 {r with publisher := some (pyStrip (r.title.getD "")), title := some ""} true).2) with h7v | ⟨h7v, h7n⟩
      · rw [h7v]
        rw [h8_skip {({r with publisher := some (pyStrip (r.title.getD "")), title := some ""} : Reference) with publisher := some ""}
          ((h7 {r with publisher := some (pyStrip (r.title.getD "")), title := some ""} ((h6 {r with publisher := some (pyStrip (r.title.getD "")), title := some ""} true).2)).2) (Or.inl (by decide : pyStrip ("" : String) = ""))]
        dsimp only
        unfold HStable
        refine ⟨?_, ?_, ?_, ?_, ?_, ?_⟩
        · intro hcon
          exact absurd hcon.1 (by decide : ¬(0 < wordCount (pyStrip ("" : String))))
        · exact hu
        · exact fun as _ hcon => hcon.2.2.1 (by decide : pyStrip ("" : String) = "")
        · exact h6n
        · exact Or.inl (by decide : pyStrip ("" : String) = "")
        · exact Or.inl (by decide : pyStrip ("" : String) = "")
      · rw [h7v]
        rw [h8_skip {r with publisher := some (pyStrip (r.title.getD "")), title := some ""}
          ((h7 {r with publisher := some (pyStrip (r.title.getD "")), title := some ""} ((h6 {r with publisher := some (pyStrip (r.title.getD "")), title := some ""} true).2)).2) (Or.inl (by decide : pyStrip ("" : String) = ""))]
        dsimp only
        unfold HStable
        refine ⟨?_, ?_, ?_, ?_, ?_, ?_⟩
        · intro hcon
          exact absurd hcon.1 (by decide : ¬(0 < wordCount (pyStrip ("" : String))))
        · exact hu
        · exact fun as _ hcon => hcon.2.2.1 (by decide : pyStrip ("" : String) = "")
        · exact h6n
        · exact h7n
        · exact Or.inl (by decide : pyStrip ("" : String) = "")
  · rw [h1c]
    dsimp only
    rw [h23_skip r false hu]
    dsimp only
    rw [h4_skip r false hu]
    dsimp only
    rcases h5_cases r (pyStrip (r.title.getD "")) false with h5v | ⟨h5v, h5n⟩
    · rw [h5v]
      dsimp only
      rcases h6_cases {r with title := some ""} true with ⟨t, hsd, h6v⟩ | ⟨h6v, h6n⟩
      · rw [h6v]
        have hshape := standardize_success_digits _ t hsd
        have hsome8 : standardize_date t = (some t, false) :=
          standardize_date_digits8 t.data hshape.1 hshape.2
        have hts : pyStrip t = t := by
          show (⟨pyStripL t.data⟩ : String) = t
          rw [pyStripL_id t.data (fun c hc => digit_not_space c (hshape.2 c hc))]
        rw [h7_skip {({r with title := some ""} : Reference) with publication_date := some t} ((h6 {r with title := some ""} true).2) hp]
        dsimp only
        rw [h8_skip {({r with title := some ""} : Reference) with publication_date := some t} ((h6 {r with title := some ""} true).2) (Or.inl (by decide : pyStrip ("" : String) = ""))]
        dsimp only
        unfold HStable
        refine ⟨?_, ?_, ?_, ?_, ?_, ?_⟩
        · intro hcon
          exact absurd hcon.1 (by decide : ¬(0 < wordCount (pyStrip ("" : String))))
        · exact hu
        · exact fun as _ hcon => hcon.2.2.1 (by decide : pyStrip ("" : String) = "")
        · refine Or.inr ?_
          show (standardize_date (pyStrip t)).2 = false
          rw [hts, hsome8]
        · exact hp
        · exact Or.inl (by decide : pyStrip ("" : String) = "")
      · rw [h6v]
        rw [h7_skip {r with title := some ""} ((h6 {r with title := some ""} true).2) hp]
        dsimp only
        rw [h8_skip {r with title := some ""} ((h6 {r with title := some ""} true).2) (Or.inl (by decide : pyStrip ("" : String) = ""))]
        dsimp only
        unfold HStable
        refine ⟨?_, ?_, ?_, ?_, ?_, ?_⟩
        · intro hcon
          exact absurd hcon.1 (by decide : ¬(0 < wordCount (pyStrip ("" : String))))
        · exact hu
        · exact fun as _ hcon => hcon.2.2.1 (by decide : pyStrip ("" : String) = "")
        · exact h6n
        · exact hp
        · exact Or.inl (by decide : pyStrip ("" : String) = "")
    · rw [h5v]
      dsimp only
      rcases h6_cases r false with ⟨t, hsd, h6v⟩ | ⟨h6v, h6n⟩
      · rw [h6v]
        have hshape := standardize_success_digits _ t hsd
        have hsome8 : standardize_date t = (some t, false) :=
          standardize_date_digits8 t.data hshape.1 hshape.2
        have hts : pyStrip t = t := by
          show (⟨pyStripL t.data⟩ : String) = t
          rw [pyStripL_id t.data (fun c hc => digit_not_space c (hshape.2 c hc))]
        rw [h7_skip {r with publication_date := some t} ((h6 r false).2) hp]
        dsimp only
        rcases h8_cases {r with publication_date := some t} ((h6 r false).2) with h8v | ⟨h8v, h8n⟩
        · rw [h8v]
          unfold HStable
          refine ⟨?_, ?_, ?_, ?_, ?_, ?_⟩
          · intro hcon
            exact absurd hcon.1 (by decide : ¬(0 < wordCount (pyStrip ("" : String))))
          · exact hu
          · exact fun as _ hcon => hcon.2.2.1 (by decide : pyStrip ("" : String) = "")
          · refine Or.inr ?_
            show (standardize_date (pyStrip t)).2 = false
            rw [hts, hsome8]
          · exact hp
          · exact Or.inl (by decide : pyStrip ("" : String) = "")
        · rw [h8v]
          unfold HStable
          refine ⟨?_, ?_, ?_, ?_, ?_, ?_⟩
          · exact h1n
          · exact hu
          · exact h5n
          · refine Or.inr ?_
            show (standardize_date (pyStrip t)).2 = false
            rw [hts, hsome8]
          · exact hp
          · exact h8n
      · rw [h6v]
        rw [h7_skip r ((h6 r false).2) hp]
        dsimp only
        rcases h8_cases r ((h6 r false).2) with h8v | ⟨h8v, h8n⟩
        · rw [h8v]
          unfold HStable
          refine ⟨?_, ?_, ?_, ?_, ?_, ?_⟩
          · intro hcon
            exact absurd hcon.1 (by decide : ¬(0 < wordCount (pyStrip ("" : String))))
          · exact hu
          · exact fun as _ hcon => hcon.2.2.1 (by decide : pyStrip ("" : String) = "")
          · exact h6n
          · exact hp
          · exact Or.inl (by decide : pyStrip ("" : String) = "")
        · rw [h8v]
          unfold HStable
          refine ⟨?_, ?_, ?_, ?_, ?_, ?_⟩
          · exact h1n
          · exact hu
          · exact h5n
          · exact h6n
          · exact hp
          · exact h8n

/-- C3 counterexample: `correct_npl_mistakes` is not idempotent.  On the
record with title `"Nature"`, publisher `"ab"` and empty url/date, pass
one removes the short publisher (heuristic 7), which lets the
title/publisher swap (heuristic 1) fire in pass two, so the second pass
changes the record again. -/
theorem correct_npl_mistakes_not_idem :
    (correct_npl_mistakes (correct_npl_mistakes
        ⟨some "Nature", some [], some "ab", some "", none, none, some ""⟩).1).1 ≠
      (correct_npl_mistakes
        ⟨some "Nature", some [], some "ab", some "", none, none, some ""⟩).1 := by
  decide

/-- C3 amended: the pipeline is idempotent on records whose url strips to
empty and whose publisher strips to empty or has at least four
characters; the counterexample's publisher-removal/swap interaction is
the only idempotence failure mode these hypotheses exclude, and the date
heuristic is self-stabilizing because its successful outputs (8 digit
strings) parse under none of the accepted formats. -/
theorem correct_npl_mistakes_idem (r : Reference)
    (hu : pyStrip (r.url.getD "") = "")
    (hp : pyStrip (r.publisher.getD "") = "" ∨
      4 ≤ (pyStrip (r.publisher.getD "")).length) :
    (correct_npl_mistakes (correct_npl_mistakes r).1).1 =
      (correct_npl_mistakes r).1 := by
  rw [correct_fix _ (correct_establishes r hu hp)]

/-- Witness for C3 amended at a record where pass one genuinely fires
(the swap moves `"Nature"` into the publisher field). -/
theorem correct_npl_mistakes_idem_witness :
    (correct_npl_mistakes (correct_npl_mistakes
        ⟨some "Nature", some [], some "", some "", none, none, some ""⟩).1).1 =
      (correct_npl_mistakes
        ⟨some "Nature", some [], some "", some "", none, none, some ""⟩).1 :=
  correct_npl_mistakes_idem _ (by decide) (Or.inl (by decide))

end CitEx

namespace CitEx

/-! ## C1: the patent regexes cannot match trigger-free text -/

theorem matRE_headCls_none (slen : Nat) (a : RE) :
    ∀ (p : Char → Bool), headCls a = some p →
    ∀ (pos : Nat) (rest : List Char) (prev : Option Char) (caps : Caps) (k : MCont),
      (rest = [] ∨ ∃ c rs, rest = c :: rs ∧ p c = false) →
      matRE slen a pos rest prev caps k = none := by
  induction a with
  | cls q =>
      intro p hp pos rest prev caps k hr
      obtain rfl : q = p := by simpa [headCls] using hp
      rcases hr with rfl | ⟨c, rs, rfl, hc⟩
      · rfl
      · show (if q c = true then k (pos + 1) rs (some c) caps else none) = none
        rw [hc]
        simp
  | seq a b iha ihb =>
      intro p hp pos rest prev caps k hr
      cases a with
      | cls q =>
          obtain rfl : q = p := by simpa [headCls] using hp
          rcases hr with rfl | ⟨c, rs, rfl, hc⟩
          · rfl
          · show (if q c = true then
                matRE slen b (pos + 1) rs (some c) caps k else none) = none
            rw [hc]
            simp
      | wordB =>
          have hb : headCls b = some p := by simpa [headCls] using hp
          show (if atBoundary prev rest then
              matRE slen b pos rest prev caps k else none) = none
          split
          · exact ihb p hb pos rest prev caps k hr
          · rfl
      | seq a1 a2 =>
          have ha : headCls (.seq a1 a2) = some p := by simpa [headCls] using hp
          show matRE slen (.seq a1 a2) pos rest prev caps
            (fun p2 rs pv cs => matRE slen b p2 rs pv cs k) = none
          exact iha p ha pos rest prev caps _ hr
      | grp n a1 =>
          have ha : headCls (.grp n a1) = some p := by simpa [headCls] using hp
          show matRE slen (.grp n a1) pos rest prev caps
            (fun p2 rs pv cs => matRE slen b p2 rs pv cs k) = none
          exact iha p ha pos rest prev caps _ hr
      | eps => simp [headCls] at hp
      | alt a1 a2 => simp [headCls] at hp
      | rep lo hi lzy a1 => simp [headCls] at hp
      | bos => simp [headCls] at hp
      | eos => simp [headCls] at hp
  | grp n a iha =>
      intro p hp pos rest prev caps k hr
      have ha : headCls a = some p := by simpa [headCls] using hp
      show matRE slen a pos rest prev caps
        (fun p2 rs pv cs => k p2 rs pv ((n, pos, p2) :: cs)) = none
      exact iha p ha pos rest prev caps _ hr
  | eps => intro p hp; simp [headCls] at hp
  | alt a b iha ihb => intro p hp; simp [headCls] at hp
  | rep lo hi lzy a iha => intro p hp; simp [headCls] at hp
  | wordB => intro p hp; simp [headCls] at hp
  | bos => intro p hp; simp [headCls] at hp
  | eos => intro p hp; simp [headCls] at hp

theorem matRE_alt_none {slen : Nat} {a b : RE} {pos : Nat} {rest : List Char}
    {prev : Option Char} {caps : Caps} {k : MCont}
    (ha : matRE slen a pos rest prev caps k = none)
    (hb : matRE slen b pos rest prev caps k = none) :
    matRE slen (.alt a b) pos rest prev caps k = none := by
  show (match matRE slen a pos rest prev caps k with
        | some r => some r
        | none => matRE slen b pos rest prev caps k) = none
  rw [ha, hb]

theorem patentIdRE_none (slen pos : Nat) (rest : List Char) (prev : Option Char)
    (caps : Caps) (k : MCont)
    (h : rest = [] ∨ ∃ c rs, rest = c :: rs ∧ patentTrigger c = false) :
    matRE slen patentIdRE pos rest prev caps k = none := by
  have branch : ∀ (B : RE) (p : Char → Bool), headCls B = some p →
      (∀ c, patentTrigger c = false → p c = false) →
      ∀ (k' : MCont), matRE slen B pos rest prev caps k' = none := by
    intro B p hB hpc k'
    apply matRE_headCls_none slen B p hB
    rcases h with rfl | ⟨c, rs, rfl, hc⟩
    · exact Or.inl rfl
    · exact Or.inr ⟨c, rs, rfl, hpc c hc⟩
  have hW : ∀ c, patentTrigger c = false → (decide (pyLower c = 'w')) = false := by
    intro c hc; simp [patentTrigger] at hc; simp [hc]
  have hP : ∀ c, patentTrigger c = false → (decide (pyLower c = 'p')) = false := by
    intro c hc; simp [patentTrigger] at hc; simp [hc]
  have hE : ∀ c, patentTrigger c = false → (decide (pyLower c = 'e')) = false := by
    intro c hc; simp [patentTrigger] at hc; simp [hc]
  have hU : ∀ c, patentTrigger c = false → (decide (pyLower c = 'u')) = false := by
    intro c hc; simp [patentTrigger] at hc; simp [hc]
  have hJ : ∀ c, patentTrigger c = false → (decide (pyLower c = 'j')) = false := by
    intro c hc; simp [patentTrigger] at hc; simp [hc]
  have hC : ∀ c, patentTrigger c = false → (decide (pyLower c = 'c')) = false := by
    intro c hc; simp [patentTrigger] at hc; simp [hc]
  have hD : ∀ c, patentTrigger c = false → (decide (pyLower c = 'd')) = false := by
    intro c hc; simp [patentTrigger] at hc; simp [hc]
  have hG : ∀ c, patentTrigger c = false → (decide (pyLower c = 'g')) = false := by
    intro c hc; simp [patentTrigger] at hc; simp [hc]
  exact matRE_alt_none (branch woBranch _ rfl hW k)
    (matRE_alt_none (branch pctBranch _ rfl hP k)
      (matRE_alt_none (branch epBranch _ rfl hE k)
        (matRE_alt_none (branch usOldBranch _ rfl hU k)
          (matRE_alt_none (branch usCommaBranch _ rfl hU k)
            (matRE_alt_none (branch usNewBranch _ rfl hU k)
              (matRE_alt_none (branch jpNewBranch _ rfl hJ k)
                (matRE_alt_none (branch jpOldBranch _ rfl hJ k)
                  (matRE_alt_none (branch cnBranch _ rfl hC k)
                    (matRE_alt_none (branch deBranch1 _ rfl hD k)
                      (matRE_alt_none (branch deBranch2 _ rfl hD k)
                        (branch gbBranch _ rfl hG k)))))))))))

theorem patentSplitRE_none (slen pos : Nat) (rest : List Char)
    (prev : Option Char) (caps : Caps) (k : MCont)
    (h : ∀ c ∈ rest, patentTrigger c = false) :
    matRE slen patentSplitRE pos rest prev caps k = none := by
  cases rest with
  | nil => rfl
  | cons c rs =>
      show (if (c = ',' || c = ';' || c = '.' || pyIsSpace c) = true then
          matRE slen (.grp 2 patentIdRE) (pos + 1) rs (some c)
            ((1, pos, pos + 1) :: caps) k
        else none) = none
      split
      · show matRE slen patentIdRE (pos + 1) rs (some c)
          ((1, pos, pos + 1) :: caps)
          (fun p2 rs2 pv cs => k p2 rs2 pv ((2, pos + 1, p2) :: cs)) = none
        apply patentIdRE_none
        cases rs with
        | nil => exact Or.inl rfl
        | cons c2 rs2 =>
            exact Or.inr ⟨c2, rs2, rfl, h c2 (List.mem_cons_of_mem _ (List.mem_cons_self _ _))⟩
      · rfl

theorem repOpt_ws_grpPatent_none (slen : Nat) (k : MCont) :
    ∀ (cnt : Nat) (rest : List Char), (∀ c ∈ rest, patentTrigger c = false) →
    ∀ (pos : Nat) (prev : Option Char) (caps : Caps),
      repOptIter (fun p rs pv cs k2 => matRE slen wsC p rs pv cs k2) cnt false
        pos rest prev caps
        (fun p rs pv cs => matRE slen (.grp 1 patentIdRE) p rs pv cs k) = none := by
  intro cnt
  induction cnt with
  | zero =>
      intro rest h pos prev caps
      show matRE slen patentIdRE pos rest prev caps
        (fun p2 rs2 pv cs => k p2 rs2 pv ((1, pos, p2) :: cs)) = none
      apply patentIdRE_none
      cases rest with
      | nil => exact Or.inl rfl
      | cons c rs => exact Or.inr ⟨c, rs, rfl, h c (List.mem_cons_self _ _)⟩
  | succ n ih =>
      intro rest h pos prev caps
      have htail : matRE slen patentIdRE pos rest prev caps
          (fun p2 rs2 pv cs => k p2 rs2 pv ((1, pos, p2) :: cs)) = none := by
        apply patentIdRE_none
        cases rest with
        | nil => exact Or.inl rfl
        | cons c rs => exact Or.inr ⟨c, rs, rfl, h c (List.mem_cons_self _ _)⟩
      cases rest with
      | nil =>
          show (match (none : Option MRes) with
                | some r => some r
                | none => matRE slen (.grp 1 patentIdRE) pos ([] : List Char) prev caps k) = none
          exact htail
      | cons c rs =>
          by_cases hws : pyIsSpace c = true
          · have hrec := ih rs (fun c2 hc2 => h c2 (List.mem_cons_of_mem _ hc2))
              (pos + 1) (some c) caps
            show (match (if pyIsSpace c = true then
                  (if pos < pos + 1 then
                    repOptIter (fun p rs2 pv cs k2 => matRE slen wsC p rs2 pv cs k2) n false
                      (pos + 1) rs (some c) caps
                      (fun p rs2 pv cs => matRE slen (.grp 1 patentIdRE) p rs2 pv cs k)
                  else none)
                else none) with
              | some r => some r
              | none => matRE slen (.grp 1 patentIdRE) pos (c :: rs) prev caps k) = none
            rw [if_pos hws, if_pos (Nat.lt_succ_self pos), hrec]
            exact htail
          · show (match (if pyIsSpace c = true then
                  (if pos < pos + 1 then
                    repOptIter (fun p rs2 pv cs k2 => matRE slen wsC p rs2 pv cs k2) n false
                      (pos + 1) rs (some c) caps
                      (fun p rs2 pv cs => matRE slen (.grp 1 patentIdRE) p rs2 pv cs k)
                  else none)
                else none) with
              | some r => some r
              | none => matRE slen (.grp 1 patentIdRE) pos (c :: rs) prev caps k) = none
            rw [if_neg hws]
            exact htail

theorem patentOnlyStartRE_none (slen pos : Nat) (rest : List Char)
    (prev : Option Char) (caps : Caps) (k : MCont)
    (h : ∀ c ∈ rest, patentTrigger c = false) :
    matRE slen patentOnlyStartRE pos rest prev caps k = none := by
  show (if pos = 0 then
      repLoIter (fun p rs pv cs k2 => matRE slen wsC p rs pv cs k2) 0 none false
        pos rest prev caps
        (fun p rs pv cs => matRE slen (.grp 1 patentIdRE) p rs pv cs k)
    else none) = none
  split
  · exact repOpt_ws_grpPatent_none slen k rest.length rest h pos prev caps
  · rfl

theorem findAux_none (re : RE) (slen : Nat)
    (H : ∀ (pos : Nat) (rest : List Char) (prev : Option Char),
      (∀ c ∈ rest, patentTrigger c = false) → matchHere re slen pos rest prev = none) :
    ∀ (fuel pos : Nat) (rest : List Char) (prev : Option Char),
      (∀ c ∈ rest, patentTrigger c = false) →
      findAux re slen fuel pos rest prev = [] := by
  intro fuel
  induction fuel with
  | zero => intro pos rest prev h; rfl
  | succ n ih =>
      intro pos rest prev h
      simp only [findAux]
      rw [H pos rest prev h]
      cases rest with
      | nil => rfl
      | cons c rs => exact ih (pos + 1) rs (some c) (fun c2 hc2 => h c2 (List.mem_cons_of_mem _ hc2))

theorem reFindIter_patentId_nil (l : List Char)
    (h : ∀ c ∈ l, patentTrigger c = false) :
    reFindIter patentIdRE l = [] := by
  apply findAux_none
  · intro pos rest prev hr
    apply patentIdRE_none
    cases rest with
    | nil => exact Or.inl rfl
    | cons c rs => exact Or.inr ⟨c, rs, rfl, hr c (List.mem_cons_self _ _)⟩
  · exact h

theorem reFindIter_patentSplit_nil (l : List Char)
    (h : ∀ c ∈ l, patentTrigger c = false) :
    reFindIter patentSplitRE l = [] := by
  apply findAux_none
  · intro pos rest prev hr
    exact patentSplitRE_none l.length pos rest prev [] _ hr
  · exact h

theorem reFindIter_patentStart_nil (l : List Char)
    (h : ∀ c ∈ l, patentTrigger c = false) :
    reFindIter patentOnlyStartRE l = [] := by
  apply findAux_none
  · intro pos rest prev hr
    exact patentOnlyStartRE_none l.length pos rest prev [] _ hr
  · exact h

theorem reSub_nil (re : RE) (repl : List Char → Nat → Nat → Caps → List Char)
    (l : List Char) (h : reFindIter re l = []) : reSub re repl l = l := by
  rw [reSub, h]
  rfl

/-- Without a patent match, `substitute_patent_numbers` only strips. -/
theorem substitute_noTrig (text : String)
    (h : ∀ c ∈ text.data, patentTrigger c = false) :
    substitute_patent_numbers text = pyStrip text := by
  unfold substitute_patent_numbers
  dsimp only
  rw [reSub_nil _ _ _ (reFindIter_patentSplit_nil text.data h),
    reSub_nil _ _ _ (reFindIter_patentStart_nil text.data h)]
  rfl

/-- Without a patent match, the patent split rule is the identity. -/
theorem patent_rule_noTrig (text : String)
    (h : ∀ c ∈ text.data, patentTrigger c = false) :
    split_paragraph_on_patent_number text = [text] := by
  unfold split_paragraph_on_patent_number
  dsimp only
  rw [reFindIter_patentId_nil text.data h]
  dsimp only [List.foldl]
  by_cases hrem : (pyStripL (List.drop 0 text.data)).isEmpty = true
  · rw [if_pos hrem]
    simp
  · rw [if_neg hrem]
    simp

/-! ## C1: characters the rules may discard are never "solid" -/

theorem keepC_ws {c : Char} (h : pyIsSpace c = true) : keepC c = false := by
  simp [keepC, h]

theorem filter_keepC_dropWhile (l : List Char) :
    (l.dropWhile pyIsSpace).filter keepC = l.filter keepC := by
  induction l with
  | nil => rfl
  | cons c l ih =>
      by_cases hc : pyIsSpace c = true
      · rw [List.dropWhile_cons, if_pos hc, ih, List.filter_cons, keepC_ws hc]
        simp
      · rw [List.dropWhile_cons, if_neg hc]

theorem filter_keepC_pyStripL (l : List Char) :
    (pyStripL l).filter keepC = l.filter keepC := by
  unfold pyStripL
  rw [List.filter_reverse, filter_keepC_dropWhile, List.filter_reverse,
    List.reverse_reverse, filter_keepC_dropWhile]

theorem pyStripL_nil_filter (l : List Char) (h : pyStripL l = []) :
    l.filter keepC = [] := by
  rw [← filter_keepC_pyStripL, h]
  rfl

theorem mem_pyStripL {c : Char} {l : List Char} (h : c ∈ pyStripL l) : c ∈ l := by
  simp only [pyStripL, List.mem_reverse] at h
  have h2 : c ∈ (l.dropWhile pyIsSpace).reverse := (List.dropWhile_sublist _).subset h
  rw [List.mem_reverse] at h2
  exact (List.dropWhile_sublist _).subset h2

theorem replaceCrLf_one (c : Char) : replaceCrLf [c] = [c] := by
  rw [replaceCrLf.eq_def]
  split
  · rename_i l heq
    cases heq
  · rename_i c2 l heq
    cases heq
    rfl
  · rename_i heq
    cases heq

theorem replaceCrLf_cons_cons (c d : Char) (l : List Char) :
    replaceCrLf (c :: d :: l) =
      if c = '\r' ∧ d = '\n' then '\n' :: replaceCrLf l
      else c :: replaceCrLf (d :: l) := by
  by_cases h : c = '\r' ∧ d = '\n'
  · obtain ⟨rfl, rfl⟩ := h
    rw [if_pos ⟨rfl, rfl⟩]
    rfl
  · rw [if_neg h]
    rw [replaceCrLf.eq_def]
    split
    · rename_i l2 heq
      injection heq with h1 h2
      injection h2 with h2 h3
      exact absurd ⟨h1, h2⟩ h
    · rename_i c2 l2 heq
      injection heq with h1 h2
      subst h1
      subst h2
      rfl
    · rename_i heq
      cases heq

theorem replaceCrLf_filter : ∀ l : List Char,
    (replaceCrLf l).filter keepC = l.filter keepC
  | [] => rfl
  | [c] => by rw [replaceCrLf_one]
  | c :: d :: l => by
      rw [replaceCrLf_cons_cons]
      split
      · rename_i h
        obtain ⟨rfl, rfl⟩ := h
        simp only [List.filter_cons, (by decide : keepC '\n' = false),
          (by decide : keepC '\r' = false)]
        simp [replaceCrLf_filter l]
      · simp only [List.filter_cons]
        rw [replaceCrLf_filter (d :: l), List.filter_cons]

theorem mem_replaceCrLf : ∀ l : List Char, ∀ c ∈ replaceCrLf l, c ∈ l ∨ c = '\n'
  | [] => by intro c hc; cases hc
  | [d] => by
      intro c hc
      rw [replaceCrLf_one] at hc
      exact Or.inl hc
  | a :: d :: l => by
      intro c hc
      rw [replaceCrLf_cons_cons] at hc
      split at hc
      · rcases List.mem_cons.mp hc with rfl | h2
        · exact Or.inr rfl
        · rcases mem_replaceCrLf l c h2 with h3 | h3
          · exact Or.inl (List.mem_cons_of_mem _ (List.mem_cons_of_mem _ h3))
          · exact Or.inr h3
      · rcases List.mem_cons.mp hc with rfl | h2
        · exact Or.inl (List.mem_cons_self _ _)
        · rcases mem_replaceCrLf (d :: l) c h2 with h3 | h3
          · exact Or.inl (List.mem_cons_of_mem _ h3)
          · exact Or.inr h3

theorem mapCR_filter (l : List Char) :
    ((l.map (fun c => if c = '\r' then '\n' else c)).filter keepC) = l.filter keepC := by
  induction l with
  | nil => rfl
  | cons c l ih =>
      rw [List.map_cons]
      by_cases hc : c = '\r'
      · subst hc
        rw [if_pos rfl]
        simp only [List.filter_cons, (by decide : keepC '\n' = false),
          (by decide : keepC '\r' = false)]
        simpa using ih
      · rw [if_neg hc]
        simp only [List.filter_cons]
        rw [ih]

theorem pyNorm_filter (l : List Char) :
    (pyNorm l).filter keepC = l.filter keepC := by
  unfold pyNorm
  rw [mapCR_filter, replaceCrLf_filter]

theorem mem_pyNorm {c : Char} {l : List Char} (h : c ∈ pyNorm l) :
    c ∈ l ∨ c = '\n' := by
  unfold pyNorm at h
  rcases List.mem_map.mp h with ⟨c0, h0, rfl⟩
  by_cases hc : c0 = '\r'
  · rw [if_pos hc]
    exact Or.inr rfl
  · rw [if_neg hc]
    exact mem_replaceCrLf l c0 h0

theorem countNl_take_nl : ∀ l : List Char, ∀ c ∈ l.take (countNl l), c = '\n'
  | [] => by intro c hc; simp at hc
  | c0 :: l => by
      intro c hc
      by_cases h0 : c0 = '\n'
      · subst h0
        rw [show countNl ('\n' :: l) = countNl l + 1 from rfl,
          List.take_succ_cons] at hc
        rcases List.mem_cons.mp hc with rfl | h2
        · rfl
        · exact countNl_take_nl l c h2
      · have hz : countNl (c0 :: l) = 0 := by
          rw [countNl.eq_def]
          split
          · rename_i l2 heq
            injection heq with h1 h2
            exact absurd h1 h0
          · rfl
        rw [hz] at hc
        simp at hc

theorem countWs_take_ws : ∀ l : List Char, ∀ c ∈ l.take (countWs l), pyIsSpace c = true
  | [] => by intro c hc; simp at hc
  | c0 :: l => by
      intro c hc
      rw [show countWs (c0 :: l) = if pyIsSpace c0 then countWs l + 1 else 0 from rfl] at hc
      by_cases h0 : pyIsSpace c0 = true
      · rw [if_pos h0, List.take_succ_cons] at hc
        rcases List.mem_cons.mp hc with rfl | h2
        · exact h0
        · exact countWs_take_ws l c h2
      · rw [if_neg h0] at hc
        simp at hc

/-! ## C1: the generic chopper drops only step-declared spans -/

theorem gchopAux_filter (step : List Char → Option ChopStep)
    (hstep : ∀ l st, step l = some st →
      ((l.drop st.keep).take st.drop).filter keepC = []) :
    ∀ (fuel skip : Nat) (acc l : List Char),
      ((gchopAux step fuel skip acc l).flatten).filter keepC =
        (acc.reverse ++ l).filter keepC := by
  intro fuel
  induction fuel with
  | zero =>
      intro skip acc l
      rw [show gchopAux step 0 skip acc l = [acc.reverse ++ l] from rfl]
      simp
  | succ f ih =>
      intro skip acc l
      cases skip with
      | succ s =>
          cases l with
          | cons c l2 =>
              rw [show gchopAux step (f + 1) (s + 1) acc (c :: l2) =
                  gchopAux step f s (c :: acc) l2 from rfl, ih s (c :: acc) l2]
              simp
          | nil =>
              rw [show gchopAux step (f + 1) (s + 1) acc [] = [acc.reverse] from rfl]
              simp
      | zero =>
          cases hst : step l with
          | some st =>
              simp only [gchopAux, hst]
              rw [List.flatten_cons, List.filter_append,
                ih st.skip [] (l.drop (st.keep + st.drop))]
              have hdd : (l.drop st.keep).drop st.drop = l.drop (st.keep + st.drop) := by
                rw [List.drop_drop, Nat.add_comm]
              have hsplit : l.filter keepC =
                  (l.take st.keep).filter keepC ++
                  ((l.drop st.keep).take st.drop).filter keepC ++
                  (l.drop (st.keep + st.drop)).filter keepC := by
                rw [← hdd, ← List.filter_append, ← List.filter_append,
                  List.append_assoc, List.take_append_drop, List.take_append_drop]
              rw [List.filter_append]
              conv_rhs => rw [List.filter_append, hsplit]
              rw [hstep l st hst]
              simp
          | none =>
              cases l with
              | nil =>
                  simp only [gchopAux, hst]
                  simp
              | cons c l2 =>
                  simp only [gchopAux, hst]
                  rw [ih 0 (c :: acc) l2]
                  simp

theorem gchop_filter (step : List Char → Option ChopStep)
    (hstep : ∀ l st, step l = some st →
      ((l.drop st.keep).take st.drop).filter keepC = [])
    (l : List Char) :
    ((gchop step l).flatten).filter keepC = l.filter keepC := by
  unfold gchop
  rw [gchopAux_filter step hstep _ 0 [] l]
  rfl

theorem gchopAux_mem (step : List Char → Option ChopStep) :
    ∀ (fuel skip : Nat) (acc l : List Char),
      ∀ seg ∈ gchopAux step fuel skip acc l, ∀ c ∈ seg, c ∈ acc ∨ c ∈ l := by
  intro fuel
  induction fuel with
  | zero =>
      intro skip acc l seg hseg c hc
      rw [show gchopAux step 0 skip acc l = [acc.reverse ++ l] from rfl] at hseg
      rcases List.mem_cons.mp hseg with rfl | h
      · rcases List.mem_append.mp hc with h | h
        · exact Or.inl (List.mem_reverse.mp h)
        · exact Or.inr h
      · simp at h
  | succ f ih =>
      intro skip acc l seg hseg c hc
      cases skip with
      | succ s =>
          cases l with
          | cons c2 l2 =>
              rw [show gchopAux step (f + 1) (s + 1) acc (c2 :: l2) =
                  gchopAux step f s (c2 :: acc) l2 from rfl] at hseg
              rcases ih s (c2 :: acc) l2 seg hseg c hc with h | h
              · rcases List.mem_cons.mp h with rfl | h2
                · exact Or.inr (List.mem_cons_self _ _)
                · exact Or.inl h2
              · exact Or.inr (List.mem_cons_of_mem _ h)
          | nil =>
              rw [show gchopAux step (f + 1) (s + 1) acc [] = [acc.reverse] from rfl] at hseg
              rcases List.mem_cons.mp hseg with rfl | h
              · exact Or.inl (List.mem_reverse.mp hc)
              · simp at h
      | zero =>
          cases hst : step l with
          | some st =>
              simp only [gchopAux, hst] at hseg
              rcases List.mem_cons.mp hseg with rfl | h2
              · rcases List.mem_append.mp hc with h | h
                · exact Or.inl (List.mem_reverse.mp h)
                · exact Or.inr ((List.take_sublist _ _).subset h)
              · rcases ih st.skip [] (l.drop (st.keep + st.drop)) seg h2 c hc with h | h
                · simp at h
                · exact Or.inr ((List.drop_sublist _ _).subset h)
          | none =>
              cases l with
              | nil =>
                  simp only [gchopAux, hst] at hseg
                  rcases List.mem_cons.mp hseg with rfl | h
                  · exact Or.inl (List.mem_reverse.mp hc)
                  · simp at h
              | cons c2 l2 =>
                  simp only [gchopAux, hst] at hseg
                  rcases ih 0 (c2 :: acc) l2 seg hseg c hc with h | h
                  · rcases List.mem_cons.mp h with rfl | h2
                    · exact Or.inr (List.mem_cons_self _ _)
                    · exact Or.inl h2
                  · exact Or.inr (List.mem_cons_of_mem _ h)

theorem gchop_mem (step : List Char → Option ChopStep) (l : List Char) :
    ∀ seg ∈ gchop step l, ∀ c ∈ seg, c ∈ l := by
  intro seg hseg c hc
  rcases gchopAux_mem step _ 0 [] l seg hseg c hc with h | h
  · simp at h
  · exact h

theorem gchopAux_ne_nil (step : List Char → Option ChopStep) :
    ∀ (fuel skip : Nat) (acc l : List Char),
      gchopAux step fuel skip acc l ≠ [] := by
  intro fuel
  induction fuel with
  | zero =>
      intro skip acc l
      rw [show gchopAux step 0 skip acc l = [acc.reverse ++ l] from rfl]
      simp
  | succ f ih =>
      intro skip acc l
      cases skip with
      | succ s =>
          cases l with
          | cons c l2 =>
              rw [show gchopAux step (f + 1) (s + 1) acc (c :: l2) =
                  gchopAux step f s (c :: acc) l2 from rfl]
              exact ih s (c :: acc) l2
          | nil =>
              rw [show gchopAux step (f + 1) (s + 1) acc [] = [acc.reverse] from rfl]
              simp
      | zero =>
          cases hst : step l with
          | some st => simp only [gchopAux, hst]; simp
          | none =>
              cases l with
              | nil => simp only [gchopAux, hst]; simp
              | cons c l2 =>
                  simp only [gchopAux, hst]
                  exact ih 0 (c :: acc) l2

theorem gchop_ne_nil (step : List Char → Option ChopStep) (l : List Char) :
    gchop step l ≠ [] :=
  gchopAux_ne_nil step _ 0 [] l

/-! ## C1: part assembly preserves solid content -/

theorem joinData_mk (X : List (List Char)) :
    joinData (X.map (fun p => (⟨p⟩ : String))) = X.flatten := by
  unfold joinData
  rw [List.map_map]
  show (X.map (fun p => p)).flatten = X.flatten
  rw [show X.map (fun p => p) = X from List.map_id' X]

theorem join_dropEmpty (X : List (List Char)) :
    (X.filter (fun p => !p.isEmpty)).flatten = X.flatten := by
  induction X with
  | nil => rfl
  | cons p X ih =>
      rw [List.filter_cons]
      by_cases hp : p.isEmpty = true
      · rw [List.isEmpty_iff.mp hp]
        simp only [List.isEmpty_nil, Bool.not_true]
        rw [if_neg (by simp)]
        rw [ih]
        rfl
      · rw [if_pos (by simp [hp])]
        rw [List.flatten_cons, List.flatten_cons, ih]

theorem join_filter_strip (X : List (List Char)) :
    ((X.map pyStripL).flatten).filter keepC = (X.flatten).filter keepC := by
  induction X with
  | nil => rfl
  | cons p X ih =>
      rw [List.map_cons, List.flatten_cons, List.flatten_cons, List.filter_append,
        List.filter_append, filter_keepC_pyStripL, ih]

theorem assembleParts_filter (text : String) (segs : List (List Char))
    (hne : segs ≠ [])
    (hj : (segs.flatten).filter keepC = text.data.filter keepC) :
    (joinData (assembleParts text segs)).filter keepC = text.data.filter keepC := by
  obtain ⟨init, last, rfl⟩ : ∃ init last, segs = init ++ [last] :=
    ⟨segs.dropLast, segs.getLast hne, by rw [List.dropLast_append_getLast hne]⟩
  have hjoin : ((init ++ [last]).flatten) = init.flatten ++ last := by
    rw [List.flatten_append]
    simp
  have htext : joinData [text] = text.data := by simp [joinData]
  unfold assembleParts
  rw [List.dropLast_concat, List.getLastD_concat]
  dsimp only
  by_cases hrem : (pyStripL last).isEmpty = true
  · rw [if_pos hrem]
    split
    · rw [joinData_mk, join_dropEmpty, List.append_nil, join_filter_strip, ← hj,
        hjoin, List.filter_append,
        pyStripL_nil_filter last (List.isEmpty_iff.mp hrem), List.append_nil]
    · rw [htext]
  · rw [if_neg hrem]
    split
    · rw [joinData_mk, join_dropEmpty, List.flatten_append, List.filter_append,
        join_filter_strip, ← hj, hjoin, List.filter_append]
      congr 1
      rw [List.flatten_cons, List.flatten_nil, List.append_nil, filter_keepC_pyStripL]
    · rw [htext]

theorem assembleParts_mem (P : Char → Prop) (text : String) (segs : List (List Char))
    (htext : ∀ c ∈ text.data, P c)
    (hsegs : ∀ seg ∈ segs, ∀ c ∈ seg, P c) :
    ∀ p ∈ assembleParts text segs, ∀ c ∈ p.data, P c := by
  have hbody : ∀ q ∈ segs.dropLast.map pyStripL, ∀ c ∈ q, P c := by
    intro q hq c hc
    rcases List.mem_map.mp hq with ⟨seg, hseg, rfl⟩
    exact hsegs seg ((List.dropLast_sublist _).subset hseg) c (mem_pyStripL hc)
  have hlastP : ∀ c ∈ pyStripL (segs.getLastD []), P c := by
    intro c hc
    rcases segs with _ | ⟨s0, srest⟩
    · rw [show pyStripL (([] : List (List Char)).getLastD []) = [] from rfl] at hc
      cases hc
    · have hlast : (s0 :: srest).getLastD [] ∈ s0 :: srest := by
        rw [List.getLastD_eq_getLast?, List.getLast?_eq_getLast _ (by simp)]
        simp only [Option.getD_some]
        exact List.getLast_mem _
      exact hsegs _ hlast c (mem_pyStripL hc)
  unfold assembleParts
  dsimp only
  by_cases hrem : (pyStripL (segs.getLastD [])).isEmpty = true
  · rw [if_pos hrem]
    split
    · intro p hp c hc
      rcases List.mem_map.mp hp with ⟨q, hq, rfl⟩
      have hq2 := (List.mem_filter.mp hq).1
      rw [List.append_nil] at hq2
      exact hbody q hq2 c hc
    · intro p hp c hc
      rcases List.mem_cons.mp hp with rfl | h
      · exact htext c hc
      · simp at h
  · rw [if_neg hrem]
    split
    · intro p hp c hc
      rcases List.mem_map.mp hp with ⟨q, hq, rfl⟩
      have hq2 := (List.mem_filter.mp hq).1
      rcases List.mem_append.mp hq2 with h | h
      · exact hbody q h c hc
      · rcases List.mem_cons.mp h with rfl | h2
        · exact hlastP c hc
        · simp at h2
    · intro p hp c hc
      rcases List.mem_cons.mp hp with rfl | h
      · exact htext c hc
      · simp at h

/-! ## C1: each rule discards only whitespace and `.`, `-`, `>` -/

theorem filter_keepC_nil_of (l : List Char) (h : ∀ c ∈ l, keepC c = false) :
    l.filter keepC = [] := by
  induction l with
  | nil => rfl
  | cons c l ih =>
      rw [List.filter_cons, h c (List.mem_cons_self _ _)]
      simp only [Bool.false_eq_true, if_false]
      exact ih (fun c2 hc2 => h c2 (List.mem_cons_of_mem _ hc2))

theorem dotNlStep_ok : ∀ (l : List Char) (st : ChopStep), dotNlStep l = some st →
    ((l.drop st.keep).take st.drop).filter keepC = [] := by
  intro l st hst
  rw [dotNlStep.eq_def] at hst
  split at hst
  · rename_i rest
    dsimp only at hst
    split at hst
    · injection hst with hst
      subst hst
      rw [List.drop_zero, Nat.add_comm 1 (countNl rest), List.take_succ_cons]
      apply filter_keepC_nil_of
      intro c hc
      rcases List.mem_cons.mp hc with rfl | h2
      · decide
      · rw [countNl_take_nl rest c h2]
        decide
    · cases hst
  · cases hst

theorem pdStep_ok : ∀ (l : List Char) (st : ChopStep), pdStep l = some st →
    ((l.drop st.keep).take st.drop).filter keepC = [] := by
  intro l st hst
  rw [pdStep.eq_def] at hst
  split at hst
  · rename_i c1 tail
    split at hst
    · injection hst with hst
      subst hst
      rw [show List.take 1 (List.drop 1 (c1 :: '\n' :: '-' :: tail)) = ['\n'] from rfl]
      decide
    · cases hst
  · cases hst

theorem arrowStep_ok : ∀ (l : List Char) (st : ChopStep), arrowStep l = some st →
    ((l.drop st.keep).take st.drop).filter keepC = [] := by
  intro l st hst
  rw [arrowStep.eq_def] at hst
  split at hst
  · rename_i c0 rest
    split at hst
    · rename_i hws
      split at hst
      · rename_i r2
        injection hst with hst
        subst hst
        apply filter_keepC_nil_of
        intro c hc
        rw [List.drop_zero,
          show (c0 :: '-' :: '-' :: '>' :: r2) = [c0, '-', '-', '>'] ++ r2 from rfl,
          List.take_append_eq_append_take] at hc
        rcases List.mem_append.mp hc with h | h
        · have h2 := (List.take_sublist _ _).subset h
          rcases List.mem_cons.mp h2 with rfl | h2
          · exact keepC_ws hws
          rcases List.mem_cons.mp h2 with rfl | h2
          · decide
          rcases List.mem_cons.mp h2 with rfl | h2
          · decide
          rcases List.mem_cons.mp h2 with rfl | h2
          · decide
          · simp at h2
        · rw [show 4 + countWs r2 - List.length ([c0, '-', '-', '>'] : List Char) =
              countWs r2 from by simp] at h
          exact keepC_ws (countWs_take_ws r2 c h)
      · rename_i c3 r2 hcon
        split at hst
        · rename_i hws3
          injection hst with hst
          subst hst
          apply filter_keepC_nil_of
          intro c hc
          rw [List.drop_zero,
            show (c0 :: '-' :: '-' :: c3 :: '>' :: r2) =
              [c0, '-', '-', c3, '>'] ++ r2 from rfl,
            List.take_append_eq_append_take] at hc
          rcases List.mem_append.mp hc with h | h
          · have h2 := (List.take_sublist _ _).subset h
            rcases List.mem_cons.mp h2 with rfl | h2
            · exact keepC_ws hws
            rcases List.mem_cons.mp h2 with rfl | h2
            · decide
            rcases List.mem_cons.mp h2 with rfl | h2
            · decide
            rcases List.mem_cons.mp h2 with rfl | h2
            · exact keepC_ws hws3
            rcases List.mem_cons.mp h2 with rfl | h2
            · decide
            · simp at h2
          · rw [show 5 + countWs r2 - List.length ([c0, '-', '-', c3, '>'] : List Char) =
                countWs r2 from by simp] at h
            exact keepC_ws (countWs_take_ws r2 c h)
        · cases hst
      · cases hst
    · cases hst
  · cases hst

theorem zbStep_ok : ∀ (l : List Char) (st : ChopStep), zbStep l = some st →
    ((l.drop st.keep).take st.drop).filter keepC = [] := by
  intro l st hst
  rw [zbStep.eq_def] at hst
  split at hst
  · injection hst with hst
    subst hst
    rfl
  · cases hst

theorem orNlStep_ok : ∀ (l : List Char) (st : ChopStep), orNlStep l = some st →
    ((l.drop st.keep).take st.drop).filter keepC = [] := by
  intro l st hst
  rw [orNlStep.eq_def] at hst
  split at hst
  · split at hst
    · injection hst with hst
      subst hst
      rfl
    · cases hst
  · cases hst

theorem liStep_ok : ∀ (l : List Char) (st : ChopStep), liStep l = some st →
    ((l.drop st.keep).take st.drop).filter keepC = [] := by
  intro l st hst
  rw [liStep.eq_def] at hst
  split at hst
  · rename_i c1 rest
    split at hst
    · rcases Option.map_eq_some'.mp hst with ⟨g2, hg2, hst2⟩
      subst hst2
      rw [show List.take 1 (List.drop 1 (c1 :: '\n' :: rest)) = ['\n'] from rfl]
      decide
    · cases hst
  · cases hst

theorem lbStep_ok : ∀ (l : List Char) (st : ChopStep), lbStep l = some st →
    ((l.drop st.keep).take st.drop).filter keepC = [] := by
  intro l st hst
  rw [lbStep.eq_def] at hst
  split at hst
  · rename_i c1 rest
    split at hst
    · dsimp only at hst
      split at hst
      · split at hst
        · injection hst with hst
          subst hst
          rw [show ((c1 :: '\n' :: rest).drop 1).take (1 + countNl rest) =
              ('\n' :: rest).take (1 + countNl rest) from rfl]
          rw [show (1 : Nat) + countNl rest = countNl rest + 1 from Nat.add_comm 1 _]
          rw [List.take_succ_cons]
          apply filter_keepC_nil_of
          intro c hc
          rcases List.mem_cons.mp hc with rfl | h2
          · decide
          · rw [countNl_take_nl rest c h2]
            decide
        · cases hst
      · cases hst
    · cases hst
  · cases hst

theorem figStep_ok : ∀ (l : List Char) (st : ChopStep), figStep l = some st →
    ((l.drop st.keep).take st.drop).filter keepC = [] := by
  intro l st hst
  rw [figStep.eq_def] at hst
  split at hst
  · rename_i c1 rest
    split at hst
    · dsimp only at hst
      rcases Option.map_eq_some'.mp hst with ⟨g2, hg2, hst2⟩
      subst hst2
      rw [show ((c1 :: rest).drop 1).take (countNl rest) = rest.take (countNl rest) from rfl]
      apply filter_keepC_nil_of
      intro c hc
      rw [countNl_take_nl rest c hc]
      decide
    · cases hst
  · cases hst

/-! ## C1: the seven loop-style rules preserve solid content -/

theorem pd_rule_filter (text : String) :
    (joinData (split_paragraph_on_punctuation_dash text)).filter keepC =
      text.data.filter keepC := by
  unfold split_paragraph_on_punctuation_dash
  refine assembleParts_filter text _ (gchop_ne_nil _ _) ?_
  rw [gchop_filter _ pdStep_ok]
  exact pyNorm_filter _

theorem arrow_rule_filter (text : String) :
    (joinData (split_paragraph_on_arrow text)).filter keepC =
      text.data.filter keepC := by
  unfold split_paragraph_on_arrow
  exact assembleParts_filter text _ (gchop_ne_nil _ _) (gchop_filter _ arrowStep_ok _)

theorem zb_rule_filter (text : String) :
    (joinData (split_paragraph_on_z_b text)).filter keepC =
      text.data.filter keepC := by
  unfold split_paragraph_on_z_b
  exact assembleParts_filter text _ (gchop_ne_nil _ _) (gchop_filter _ zbStep_ok _)

theorem orNl_rule_filter (text : String) :
    (joinData (split_paragraph_on_or_newline_dash text)).filter keepC =
      text.data.filter keepC := by
  unfold split_paragraph_on_or_newline_dash
  refine assembleParts_filter text _ (gchop_ne_nil _ _) ?_
  rw [gchop_filter _ orNlStep_ok]
  exact pyNorm_filter _

theorem li_rule_filter (text : String) :
    (joinData (split_paragraph_on_punctuation_list_item text)).filter keepC =
      text.data.filter keepC := by
  unfold split_paragraph_on_punctuation_list_item
  refine assembleParts_filter text _ (gchop_ne_nil _ _) ?_
  rw [gchop_filter _ liStep_ok]
  exact pyNorm_filter _

theorem lb_rule_filter (text : String) :
    (joinData (split_paragraph_on_punctuation_letter_bracket text)).filter keepC =
      text.data.filter keepC := by
  unfold split_paragraph_on_punctuation_letter_bracket
  refine assembleParts_filter text _ (gchop_ne_nil _ _) ?_
  rw [gchop_filter _ lbStep_ok]
  exact pyNorm_filter _

theorem fig_rule_filter (text : String) :
    (joinData (split_paragraph_on_figure_enumeration text)).filter keepC =
      text.data.filter keepC := by
  unfold split_paragraph_on_figure_enumeration
  refine assembleParts_filter text _ (gchop_ne_nil _ _) ?_
  rw [gchop_filter _ figStep_ok]
  exact pyNorm_filter _

theorem pd_rule_mem (text : String) :
    ∀ p ∈ split_paragraph_on_punctuation_dash text, ∀ c ∈ p.data,
      c ∈ text.data ∨ c = '.' ∨ c = '\n' := by
  unfold split_paragraph_on_punctuation_dash
  refine assembleParts_mem _ text _ (fun c hc => Or.inl hc) ?_
  intro seg hseg c hc
  rcases mem_pyNorm (gchop_mem _ _ seg hseg c hc) with h | h
  · exact Or.inl h
  · exact Or.inr (Or.inr h)

theorem arrow_rule_mem (text : String) :
    ∀ p ∈ split_paragraph_on_arrow text, ∀ c ∈ p.data,
      c ∈ text.data ∨ c = '.' ∨ c = '\n' := by
  unfold split_paragraph_on_arrow
  refine assembleParts_mem _ text _ (fun c hc => Or.inl hc) ?_
  intro seg hseg c hc
  exact Or.inl (gchop_mem _ _ seg hseg c hc)

theorem zb_rule_mem (text : String) :
    ∀ p ∈ split_paragraph_on_z_b text, ∀ c ∈ p.data,
      c ∈ text.data ∨ c = '.' ∨ c = '\n' := by
  unfold split_paragraph_on_z_b
  refine assembleParts_mem _ text _ (fun c hc => Or.inl hc) ?_
  intro seg hseg c hc
  exact Or.inl (gchop_mem _ _ seg hseg c hc)

theorem orNl_rule_mem (text : String) :
    ∀ p ∈ split_paragraph_on_or_newline_dash text, ∀ c ∈ p.data,
      c ∈ text.data ∨ c = '.' ∨ c = '\n' := by
  unfold split_paragraph_on_or_newline_dash
  refine assembleParts_mem _ text _ (fun c hc => Or.inl hc) ?_
  intro seg hseg c hc
  rcases mem_pyNorm (gchop_mem _ _ seg hseg c hc) with h | h
  · exact Or.inl h
  · exact Or.inr (Or.inr h)

theorem li_rule_mem (text : String) :
    ∀ p ∈ split_paragraph_on_punctuation_list_item text, ∀ c ∈ p.data,
      c ∈ text.data ∨ c = '.' ∨ c = '\n' := by
  unfold split_paragraph_on_punctuation_list_item
  refine assembleParts_mem _ text _ (fun c hc => Or.inl hc) ?_
  intro seg hseg c hc
  rcases mem_pyNorm (gchop_mem _ _ seg hseg c hc) with h | h
  · exact Or.inl h
  · exact Or.inr (Or.inr h)

theorem lb_rule_mem (text : String) :
    ∀ p ∈ split_paragraph_on_punctuation_letter_bracket text, ∀ c ∈ p.data,
      c ∈ text.data ∨ c = '.' ∨ c = '\n' := by
  unfold split_paragraph_on_punctuation_letter_bracket
  refine assembleParts_mem _ text _ (fun c hc => Or.inl hc) ?_
  intro seg hseg c hc
  rcases mem_pyNorm (gchop_mem _ _ seg hseg c hc) with h | h
  · exact Or.inl h
  · exact Or.inr (Or.inr h)

theorem fig_rule_mem (text : String) :
    ∀ p ∈ split_paragraph_on_figure_enumeration text, ∀ c ∈ p.data,
      c ∈ text.data ∨ c = '.' ∨ c = '\n' := by
  unfold split_paragraph_on_figure_enumeration
  refine assembleParts_mem _ text _ (fun c hc => Or.inl hc) ?_
  intro seg hseg c hc
  rcases mem_pyNorm (gchop_mem _ _ seg hseg c hc) with h | h
  · exact Or.inl h
  · exact Or.inr (Or.inr h)

/-! ## C1: the dot-double-newline rule preserves solid content -/

theorem joinData_cons (s : String) (ps : List String) :
    joinData (s :: ps) = s.data ++ joinData ps := rfl

theorem dotFold_filter (segs : List (List Char)) :
    (joinData (segs.foldr (fun p acc =>
      let p' := pyStripL p
      if p'.isEmpty then acc
      else if p'.getLast? = some '.' ∨ p'.getLast? = some '?' ∨ p'.getLast? = some '!' then
        (⟨p'⟩ : String) :: acc
      else (⟨p' ++ ['.']⟩ : String) :: acc) [])).filter keepC
    = (segs.flatten).filter keepC := by
  induction segs with
  | nil => rfl
  | cons p segs ih =>
      rw [List.foldr_cons]
      dsimp only
      by_cases hp : (pyStripL p).isEmpty = true
      · rw [if_pos hp, ih, List.flatten_cons, List.filter_append,
          pyStripL_nil_filter p (List.isEmpty_iff.mp hp), List.nil_append]
      · rw [if_neg hp]
        split
        · rw [joinData_cons, List.filter_append, filter_keepC_pyStripL, ih,
            List.flatten_cons, List.filter_append]
        · rw [joinData_cons, List.filter_append, List.filter_append,
            filter_keepC_pyStripL,
            show (['.'] : List Char).filter keepC = [] from by decide,
            List.append_nil, ih, List.flatten_cons, List.filter_append]

theorem dot_rule_filter (text : String) :
    (joinData (split_paragraph_on_dot_double_newline text)).filter keepC =
      text.data.filter keepC := by
  unfold split_paragraph_on_dot_double_newline
  dsimp only
  rw [dotFold_filter, gchop_filter _ dotNlStep_ok, pyNorm_filter]

theorem dotFold_mem (P : Char → Prop) (hdot : P '.') (segs : List (List Char))
    (hsegs : ∀ seg ∈ segs, ∀ c ∈ seg, P c) :
    ∀ p ∈ segs.foldr (fun p acc =>
      let p' := pyStripL p
      if p'.isEmpty then acc
      else if p'.getLast? = some '.' ∨ p'.getLast? = some '?' ∨ p'.getLast? = some '!' then
        (⟨p'⟩ : String) :: acc
      else (⟨p' ++ ['.']⟩ : String) :: acc) [], ∀ c ∈ p.data, P c := by
  induction segs with
  | nil => intro p hp; simp at hp
  | cons q segs ih =>
      have hq : ∀ c ∈ q, P c := hsegs q (List.mem_cons_self _ _)
      have ih2 := ih (fun seg hseg => hsegs seg (List.mem_cons_of_mem _ hseg))
      rw [List.foldr_cons]
      dsimp only
      by_cases hqe : (pyStripL q).isEmpty = true
      · rw [if_pos hqe]
        exact ih2
      · rw [if_neg hqe]
        split
        · intro p hp c hc
          rcases List.mem_cons.mp hp with rfl | h2
          · exact hq c (mem_pyStripL hc)
          · exact ih2 p h2 c hc
        · intro p hp c hc
          rcases List.mem_cons.mp hp with rfl | h2
          · rcases List.mem_append.mp hc with h3 | h3
            · exact hq c (mem_pyStripL h3)
            · rcases List.mem_cons.mp h3 with rfl | h4
              · exact hdot
              · simp at h4
          · exact ih2 p h2 c hc

theorem dot_rule_mem (text : String) :
    ∀ p ∈ split_paragraph_on_dot_double_newline text, ∀ c ∈ p.data,
      c ∈ text.data ∨ c = '.' ∨ c = '\n' := by
  unfold split_paragraph_on_dot_double_newline
  dsimp only
  refine dotFold_mem _ (Or.inr (Or.inl rfl)) _ ?_
  intro seg hseg c hc
  rcases mem_pyNorm (gchop_mem _ _ seg hseg c hc) with h | h
  · exact Or.inl h
  · exact Or.inr (Or.inr h)

/-! ## C1: the example-phrase rule preserves solid content -/

theorem exChopAux_flat : ∀ (fuel : Nat) (acc l : List Char),
    (exChopAux fuel acc l).1 ++
      ((exChopAux fuel acc l).2.map
        (fun d => d.1 :: (d.2.1 ++ d.2.2.1 ++ d.2.2.2))).flatten =
      acc.reverse ++ l := by
  intro fuel
  induction fuel with
  | zero => intro acc l; simp [exChopAux]
  | succ f ih =>
      intro acc l
      cases hd : exDelim l with
      | some np =>
          obtain ⟨n, p⟩ := np
          cases l with
          | nil =>
              rw [show exDelim ([] : List Char) = none from rfl] at hd
              cases hd
          | cons c rest =>
              have h1 : (exChopAux (f + 1) acc (c :: rest)).1 = acc.reverse := by
                simp only [exChopAux, hd]
              have h2 : (exChopAux (f + 1) acc (c :: rest)).2 =
                  (c, rest.take n, (rest.drop n).take p,
                    (exChopAux f [] (rest.drop (n + p))).1) ::
                    (exChopAux f [] (rest.drop (n + p))).2 := by
                simp only [exChopAux, hd]
              have hih := ih [] (rest.drop (n + p))
              rw [List.reverse_nil, List.nil_append] at hih
              have hrest : rest.take n ++ ((rest.drop n).take p ++ rest.drop (n + p)) = rest := by
                have hdd : (rest.drop n).drop p = rest.drop (n + p) := by
                  rw [List.drop_drop, Nat.add_comm]
                rw [← hdd, ← List.append_assoc, List.append_assoc,
                  List.take_append_drop, List.take_append_drop]
              rw [h1, h2, List.map_cons, List.flatten_cons]
              dsimp only
              simp only [List.cons_append, List.append_assoc]
              simp only [List.append_assoc] at hih
              rw [hih, hrest]
      | none =>
          cases l with
          | nil => simp [exChopAux, hd]
          | cons c rest =>
              simp only [exChopAux, hd]
              have hih := ih (c :: acc) rest
              rw [List.reverse_cons, List.append_assoc] at hih
              simpa using hih

theorem exAssemble_filter :
    ∀ (ds : List (Char × List Char × List Char × List Char)) (current : List Char),
    ((exAssemble current ds).flatten).filter keepC =
      (current ++ (ds.map (fun d => d.1 :: (d.2.1 ++ d.2.2.1 ++ d.2.2.2))).flatten).filter keepC := by
  intro ds
  induction ds with
  | nil =>
      intro current
      rw [show exAssemble current [] =
          (if (pyStripL current).isEmpty then [] else [pyStripL current]) from rfl]
      by_cases hc : (pyStripL current).isEmpty = true
      · rw [if_pos hc]
        rw [List.map_nil, List.flatten_nil, List.append_nil,
          pyStripL_nil_filter current (List.isEmpty_iff.mp hc)]
        rfl
      · rw [if_neg hc]
        rw [List.map_nil, List.flatten_nil, List.append_nil,
          show ([pyStripL current] : List (List Char)).flatten = pyStripL current by simp,
          filter_keepC_pyStripL]
  | cons d ds ih =>
      intro current
      obtain ⟨p, ws, ph, t⟩ := d
      rw [show exAssemble current ((p, ws, ph, t) :: ds) =
          (if (pyStripL (current ++ [p])).isEmpty then exAssemble (ws ++ ph ++ t) ds
           else pyStripL (current ++ [p]) :: exAssemble (ws ++ ph ++ t) ds) from rfl]
      rw [List.map_cons, List.flatten_cons]
      dsimp only
      by_cases he : (pyStripL (current ++ [p])).isEmpty = true
      · rw [if_pos he, ih (ws ++ ph ++ t)]
        have hcp : (current ++ [p]).filter keepC = [] :=
          pyStripL_nil_filter _ (List.isEmpty_iff.mp he)
        rw [List.filter_append] at hcp
        have hcur0 : current.filter keepC = [] := (List.append_eq_nil.mp hcp).1
        have hp0 : ([p] : List Char).filter keepC = [] := (List.append_eq_nil.mp hcp).2
        have hkp : keepC p = false := by
          cases hb : keepC p
          · rfl
          · rw [List.filter_cons, hb] at hp0
            simp at hp0
        simp [List.filter_append, List.filter_cons, hkp, hcur0, List.append_assoc]
      · rw [if_neg he]
        rw [List.flatten_cons, List.filter_append, filter_keepC_pyStripL,
          ih (ws ++ ph ++ t)]
        by_cases hkp : keepC p = true <;>
          simp [List.filter_append, List.filter_cons, hkp, List.append_assoc]

theorem ex_rule_filter (text : String) :
    (joinData (split_by_specific_example_phrase text)).filter keepC =
      text.data.filter keepC := by
  unfold split_by_specific_example_phrase
  dsimp only
  rw [joinData_mk, exAssemble_filter]
  have hflat := exChopAux_flat (text.data.length + 1) [] text.data
  rw [List.reverse_nil, List.nil_append] at hflat
  rw [hflat]

theorem exChopAux_mem (P : Char → Prop) :
    ∀ (fuel : Nat) (acc l : List Char), (∀ c ∈ acc, P c) → (∀ c ∈ l, P c) →
      (∀ c ∈ (exChopAux fuel acc l).1, P c) ∧
      (∀ d ∈ (exChopAux fuel acc l).2, P d.1 ∧ (∀ c ∈ d.2.1, P c) ∧
        (∀ c ∈ d.2.2.1, P c) ∧ (∀ c ∈ d.2.2.2, P c)) := by
  intro fuel
  induction fuel with
  | zero =>
      intro acc l hacc hl
      constructor
      · intro c hc
        rcases List.mem_append.mp hc with h | h
        · exact hacc c (List.mem_reverse.mp h)
        · exact hl c h
      · intro d hd
        simp [exChopAux] at hd
  | succ f ih =>
      intro acc l hacc hl
      cases hd : exDelim l with
      | some np =>
          obtain ⟨n, p⟩ := np
          cases l with
          | nil =>
              rw [show exDelim ([] : List Char) = none from rfl] at hd
              cases hd
          | cons c rest =>
              have hrest : ∀ c2 ∈ rest, P c2 :=
                fun c2 hc2 => hl c2 (List.mem_cons_of_mem _ hc2)
              have hnext := ih [] (rest.drop (n + p)) (by intro c2 hc2; simp at hc2)
                (fun c2 hc2 => hrest c2 ((List.drop_sublist _ _).subset hc2))
              constructor
              · intro c2 hc2
                rw [show (exChopAux (f + 1) acc (c :: rest)).1 = acc.reverse from by
                  simp only [exChopAux, hd]] at hc2
                exact hacc c2 (List.mem_reverse.mp hc2)
              · intro d hdm
                rw [show (exChopAux (f + 1) acc (c :: rest)).2 =
                    (c, rest.take n, (rest.drop n).take p,
                      (exChopAux f [] (rest.drop (n + p))).1) ::
                      (exChopAux f [] (rest.drop (n + p))).2 from by
                  simp only [exChopAux, hd]] at hdm
                rcases List.mem_cons.mp hdm with rfl | h2
                · refine ⟨hl c (List.mem_cons_self _ _), ?_, ?_, ?_⟩
                  · intro c2 hc2
                    exact hrest c2 ((List.take_sublist _ _).subset hc2)
                  · intro c2 hc2
                    exact hrest c2 ((List.drop_sublist _ _).subset
                      ((List.take_sublist _ _).subset hc2))
                  · exact fun c2 hc2 => hnext.1 c2 hc2
                · exact hnext.2 d h2
      | none =>
          cases l with
          | nil =>
              constructor
              · intro c hc
                rw [show (exChopAux (f + 1) acc ([] : List Char)).1 = acc.reverse from by
                  simp only [exChopAux, hd]] at hc
                exact hacc c (List.mem_reverse.mp hc)
              · intro d hdm
                rw [show (exChopAux (f + 1) acc ([] : List Char)).2 = [] from by
                  simp only [exChopAux, hd]] at hdm
                simp at hdm
          | cons c rest =>
              have := ih (c :: acc)
                rest
                (by
                  intro c2 hc2
                  rcases List.mem_cons.mp hc2 with rfl | h2
                  · exact hl c2 (List.mem_cons_self _ _)
                  · exact hacc c2 h2)
                (fun c2 hc2 => hl c2 (List.mem_cons_of_mem _ hc2))
              constructor
              · intro c2 hc2
                rw [show (exChopAux (f + 1) acc (c :: rest)).1 =
                    (exChopAux f (c :: acc) rest).1 from by
                  simp only [exChopAux, hd]] at hc2
                exact this.1 c2 hc2
              · intro d hdm
                rw [show (exChopAux (f + 1) acc (c :: rest)).2 =
                    (exChopAux f (c :: acc) rest).2 from by
                  simp only [exChopAux, hd]] at hdm
                exact this.2 d hdm

theorem exAssemble_mem (P : Char → Prop) :
    ∀ (ds : List (Char × List Char × List Char × List Char)) (current : List Char),
    (∀ c ∈ current, P c) →
    (∀ d ∈ ds, P d.1 ∧ (∀ c ∈ d.2.1, P c) ∧ (∀ c ∈ d.2.2.1, P c) ∧
      (∀ c ∈ d.2.2.2, P c)) →
    ∀ q ∈ exAssemble current ds, ∀ c ∈ q, P c := by
  intro ds
  induction ds with
  | nil =>
      intro current hcur hds q hq c hc
      rw [show exAssemble current [] =
          (if (pyStripL current).isEmpty then [] else [pyStripL current]) from rfl] at hq
      split at hq
      · simp at hq
      · rcases List.mem_cons.mp hq with rfl | h2
        · exact hcur c (mem_pyStripL hc)
        · simp at h2
  | cons d ds ih =>
      intro current hcur hds q hq c hc
      obtain ⟨p, ws, ph, t⟩ := d
      have hd0 := hds (p, ws, ph, t) (List.mem_cons_self _ _)
      have hnext : ∀ c2 ∈ ws ++ ph ++ t, P c2 := by
        intro c2 hc2
        rcases List.mem_append.mp hc2 with h | h
        · rcases List.mem_append.mp h with h2 | h2
          · exact hd0.2.1 c2 h2
          · exact hd0.2.2.1 c2 h2
        · exact hd0.2.2.2 c2 h
      rw [show exAssemble current ((p, ws, ph, t) :: ds) =
          (if (pyStripL (current ++ [p])).isEmpty then exAssemble (ws ++ ph ++ t) ds
           else pyStripL (current ++ [p]) :: exAssemble (ws ++ ph ++ t) ds) from rfl] at hq
      have htail := ih (ws ++ ph ++ t) hnext
        (fun d2 hd2 => hds d2 (List.mem_cons_of_mem _ hd2))
      split at hq
      · exact htail q hq c hc
      · rcases List.mem_cons.mp hq with rfl | h2
        · rcases List.mem_append.mp (mem_pyStripL hc) with h | h
          · exact hcur c h
          · rcases List.mem_cons.mp h with rfl | h3
            · exact hd0.1
            · simp at h3
        · exact htail q h2 c hc

theorem ex_rule_mem (text : String) :
    ∀ p ∈ split_by_specific_example_phrase text, ∀ c ∈ p.data,
      c ∈ text.data ∨ c = '.' ∨ c = '\n' := by
  unfold split_by_specific_example_phrase
  dsimp only
  intro p hp c hc
  rcases List.mem_map.mp hp with ⟨q, hq, rfl⟩
  have hch := exChopAux_mem (fun c2 => c2 ∈ text.data ∨ c2 = '.' ∨ c2 = '\n')
    (text.data.length + 1) [] text.data
    (by intro c2 hc2; simp at hc2)
    (fun c2 hc2 => Or.inl hc2)
  exact exAssemble_mem _ _ _ hch.1 hch.2 q hq c hc

/-! ## C1: the cascade preserves solid content -/

theorem joinData_append (a b : List String) :
    joinData (a ++ b) = joinData a ++ joinData b := by
  simp [joinData, List.map_append, List.flatten_append]

theorem joinData_flatten (PS : List (List String)) :
    joinData PS.flatten = (PS.map joinData).flatten := by
  induction PS with
  | nil => rfl
  | cons ps PS ih =>
      rw [List.flatten_cons, List.map_cons, List.flatten_cons, ← ih, joinData_append]

theorem stripEmpty_filter (s : String) (hs : (pyStrip s).isEmpty = true) :
    s.data.filter keepC = [] := by
  have h2 : pyStrip s = "" := (String.isEmpty_iff (pyStrip s)).mp hs
  have h3 : pyStripL s.data = [] := congrArg String.data h2
  exact pyStripL_nil_filter _ h3

theorem cascading_filter : ∀ (methods : List (String → List String)),
    (∀ f ∈ methods, ∀ s : String,
      (joinData (f s)).filter keepC = s.data.filter keepC) →
    ∀ part : String,
      (joinData (cascading_split part methods)).filter keepC =
        part.data.filter keepC := by
  intro methods
  induction methods with
  | nil =>
      intro hm part
      rw [cascading_split]
      by_cases h0 : (pyStrip part).isEmpty = true
      · rw [if_pos h0, stripEmpty_filter part h0]
        rfl
      · rw [if_neg h0]
        show (joinData [part]).filter keepC = part.data.filter keepC
        simp [joinData]
  | cons f rest ih =>
      intro hm part
      have hmr : ∀ f2 ∈ rest, ∀ s : String,
          (joinData (f2 s)).filter keepC = s.data.filter keepC :=
        fun f2 hf2 => hm f2 (List.mem_cons_of_mem _ hf2)
      rw [cascading_split]
      by_cases h0 : (pyStrip part).isEmpty = true
      · rw [if_pos h0, stripEmpty_filter part h0]
        rfl
      · rw [if_neg h0]
        dsimp only
        split
        · simp only [List.join]
          rw [joinData_flatten, List.map_map]
          rw [List.filter_flatten, List.map_map]
          have hpt : ∀ X : List String,
              ((X.map (fun sp => ((joinData (cascading_split sp rest)).filter keepC))).flatten) =
              ((X.map (fun sp => sp.data.filter keepC)).flatten) := by
            intro X
            congr 1
            exact List.map_congr_left (fun sp _ => ih hmr sp)
          have hx := hpt (f part)
          rw [show (f part).map
                ((List.filter keepC) ∘ joinData ∘ fun sp => cascading_split sp rest) =
              (f part).map (fun sp => ((joinData (cascading_split sp rest)).filter keepC))
              from rfl]
          rw [hx]
          rw [show (f part).map (fun sp => sp.data.filter keepC) =
              ((f part).map String.data).map (List.filter keepC) from by
            rw [List.map_map]
            rfl]
          rw [← List.filter_flatten]
          exact hm f (List.mem_cons_self _ _) part
        · exact ih hmr part

theorem cascading_mem : ∀ (methods : List (String → List String)),
    (∀ f ∈ methods, ∀ s : String, ∀ p ∈ f s, ∀ c ∈ p.data,
      c ∈ s.data ∨ c = '.' ∨ c = '\n') →
    ∀ part : String, ∀ p ∈ cascading_split part methods, ∀ c ∈ p.data,
      c ∈ part.data ∨ c = '.' ∨ c = '\n' := by
  intro methods
  induction methods with
  | nil =>
      intro hm part p hp c hc
      rw [cascading_split] at hp
      split at hp
      · simp at hp
      · rcases List.mem_cons.mp hp with rfl | h2
        · exact Or.inl hc
        · simp at h2
  | cons f rest ih =>
      intro hm part p hp c hc
      have hmr : ∀ f2 ∈ rest, ∀ s : String, ∀ q ∈ f2 s, ∀ c2 ∈ q.data,
          c2 ∈ s.data ∨ c2 = '.' ∨ c2 = '\n' :=
        fun f2 hf2 => hm f2 (List.mem_cons_of_mem _ hf2)
      rw [cascading_split] at hp
      split at hp
      · simp at hp
      · dsimp only at hp
        split at hp
        · simp only [List.join] at hp
          rcases List.mem_flatten.mp hp with ⟨ps, hps, hpin⟩
          rcases List.mem_map.mp hps with ⟨sp, hsp, rfl⟩
          rcases ih hmr sp p hpin c hc with h2 | h2 | h2
          · rcases hm f (List.mem_cons_self _ _) part sp hsp c h2 with h3 | h3 | h3
            · exact Or.inl h3
            · exact Or.inr (Or.inl h3)
            · exact Or.inr (Or.inr h3)
          · exact Or.inr (Or.inl h2)
          · exact Or.inr (Or.inr h2)
        · exact ih hmr part p hp c hc

/-! ## C1: the final cleaning stages preserve solid content -/

theorem filter_parts_filter (ps : List String) :
    (joinData (ps.filter (fun p => !(pyStrip p).isEmpty))).filter keepC =
      (joinData ps).filter keepC := by
  induction ps with
  | nil => rfl
  | cons p ps ih =>
      rw [List.filter_cons]
      by_cases hp : (pyStrip p).isEmpty = true
      · rw [hp]
        simp only [Bool.not_true, Bool.false_eq_true, if_false]
        rw [ih, joinData_cons, List.filter_append, stripEmpty_filter p hp,
          List.nil_append]
      · have hb : (pyStrip p).isEmpty = false := by
          cases hb : (pyStrip p).isEmpty
          · rfl
          · exact absurd hb hp
        rw [hb]
        simp only [Bool.not_false, if_true]
        rw [joinData_cons, joinData_cons, List.filter_append,
          List.filter_append, ih]

theorem map_substitute_filter (ps : List String)
    (hps : ∀ p ∈ ps, ∀ c ∈ p.data, patentTrigger c = false) :
    (joinData (ps.map substitute_patent_numbers)).filter keepC =
      (joinData ps).filter keepC := by
  induction ps with
  | nil => rfl
  | cons p ps ih =>
      rw [List.map_cons, joinData_cons, joinData_cons, List.filter_append,
        List.filter_append, substitute_noTrig p (hps p (List.mem_cons_self _ _)),
        ih (fun q hq => hps q (List.mem_cons_of_mem _ hq))]
      congr 1
      exact filter_keepC_pyStripL p.data

/-! ## C1: main results -/

/-- C1 counterexample: content outside patent spans is silently dropped.  On
`"x --> y"` no patent identifier matches (so every character lies outside
the matched patent spans), the character `'-'` occurs in the input, yet the
splitter returns `["x", "y"]`: the arrow rule discards its whole
`\s--\s?>\s*` match, including the dashes and the `>`. -/
theorem splitter_drops_nonpatent_content :
    reFindIter patentIdRE "x --> y".data = [] ∧
    '-' ∈ "x --> y".data ∧
    split_and_clean_paragraph "x --> y" = ["x", "y"] := by
  refine ⟨?_, by decide, ?_⟩
  · decide
  · decide

/-- C1 amended: on inputs free of the patent-branch trigger letters (so the
patent machinery cannot fire anywhere), the splitter preserves exactly, in
order, every character that is not whitespace and not one of `.`, `-`, `>`:
the concatenated output filtered to those "solid" characters equals the
filtered input.  (The dot rule may drop and re-append periods and the arrow
rule drops `-` and `>`, which is why those three characters are excluded.) -/
theorem splitter_preserves_solid_content (t : String)
    (h : ∀ c ∈ t.data, patentTrigger c = false) :
    (joinData (split_and_clean_paragraph t)).filter keepC =
      t.data.filter keepC := by
  have hclean : ∀ c ∈ (pyStrip t).data, patentTrigger c = false :=
    fun c hc => h c (mem_pyStripL hc)
  have hstep1 : cascading_split (pyStrip t) FINAL_SPLIT_ORDER =
      cascading_split (pyStrip t)
        [split_paragraph_on_dot_double_newline,
         split_paragraph_on_punctuation_dash,
         split_paragraph_on_figure_enumeration,
         split_paragraph_on_punctuation_list_item,
         split_paragraph_on_punctuation_letter_bracket,
         split_paragraph_on_or_newline_dash,
         split_paragraph_on_z_b,
         split_paragraph_on_arrow,
         split_by_specific_example_phrase] := by
    rw [show FINAL_SPLIT_ORDER = split_paragraph_on_patent_number ::
        [split_paragraph_on_dot_double_newline,
         split_paragraph_on_punctuation_dash,
         split_paragraph_on_figure_enumeration,
         split_paragraph_on_punctuation_list_item,
         split_paragraph_on_punctuation_letter_bracket,
         split_paragraph_on_or_newline_dash,
         split_paragraph_on_z_b,
         split_paragraph_on_arrow,
         split_by_specific_example_phrase] from rfl]
    rw [cascading_split]
    by_cases h0 : (pyStrip (pyStrip t)).isEmpty = true
    · rw [if_pos h0]
      conv_rhs => rw [cascading_split]
      rw [if_pos h0]
    · rw [if_neg h0]
      dsimp only
      rw [patent_rule_noTrig _ hclean]
      rw [if_neg (by simp : ¬(1 < ([pyStrip t] : List String).length))]
  have hrestF : ∀ f ∈ [split_paragraph_on_dot_double_newline,
         split_paragraph_on_punctuation_dash,
         split_paragraph_on_figure_enumeration,
         split_paragraph_on_punctuation_list_item,
         split_paragraph_on_punctuation_letter_bracket,
         split_paragraph_on_or_newline_dash,
         split_paragraph_on_z_b,
         split_paragraph_on_arrow,
         split_by_specific_example_phrase], ∀ s : String,
      (joinData (f s)).filter keepC = s.data.filter keepC := by
    intro f hf
    fin_cases hf
    · exact dot_rule_filter
    · exact pd_rule_filter
    · exact fig_rule_filter
    · exact li_rule_filter
    · exact lb_rule_filter
    · exact orNl_rule_filter
    · exact zb_rule_filter
    · exact arrow_rule_filter
    · exact ex_rule_filter
  have hrestM : ∀ f ∈ [split_paragraph_on_dot_double_newline,
         split_paragraph_on_punctuation_dash,
         split_paragraph_on_figure_enumeration,
         split_paragraph_on_punctuation_list_item,
         split_paragraph_on_punctuation_letter_bracket,
         split_paragraph_on_or_newline_dash,
         split_paragraph_on_z_b,
         split_paragraph_on_arrow,
         split_by_specific_example_phrase], ∀ s : String, ∀ p ∈ f s,
      ∀ c ∈ p.data, c ∈ s.data ∨ c = '.' ∨ c = '\n' := by
    intro f hf
    fin_cases hf
    · exact dot_rule_mem
    · exact pd_rule_mem
    · exact fig_rule_mem
    · exact li_rule_mem
    · exact lb_rule_mem
    · exact orNl_rule_mem
    · exact zb_rule_mem
    · exact arrow_rule_mem
    · exact ex_rule_mem
  have hprov : ∀ p ∈ cascading_split (pyStrip t)
        [split_paragraph_on_dot_double_newline,
         split_paragraph_on_punctuation_dash,
         split_paragraph_on_figure_enumeration,
         split_paragraph_on_punctuation_list_item,
         split_paragraph_on_punctuation_letter_bracket,
         split_paragraph_on_or_newline_dash,
         split_paragraph_on_z_b,
         split_paragraph_on_arrow,
         split_by_specific_example_phrase],
      ∀ c ∈ p.data, patentTrigger c = false := by
    intro p hp c hc
    rcases cascading_mem _ hrestM (pyStrip t) p hp c hc with h2 | h2 | h2
    · exact hclean c h2
    · subst h2; decide
    · subst h2; decide
  unfold split_and_clean_paragraph
  dsimp only
  rw [hstep1, filter_parts_filter, map_substitute_filter _ hprov,
    cascading_filter _ hrestF (pyStrip t)]
  exact filter_keepC_pyStripL t.data

/-- Witness for C1 amended on a trigger-free input that the arrow rule
really splits. -/
theorem splitter_preserves_solid_content_witness :
    (∀ c ∈ "ab -->  xy.".data, patentTrigger c = false) ∧
    (joinData (split_and_clean_paragraph "ab -->  xy.")).filter keepC =
      "ab -->  xy.".data.filter keepC :=
  ⟨by decide, splitter_preserves_solid_content "ab -->  xy." (by decide)⟩

end CitEx
